import Mathlib

/-!
# bslma::TestAllocator

A shallow embedding of `groups/bsl/bslma/bslma_testallocator.cpp`.

Modelling decisions.

* Addresses are integers, `0` is the null pointer.  Pointer arithmetic is
  plain integer arithmetic (no wrap-around: the source only forms addresses
  inside, or one header below, a block).
* Memory is field sensitive: `World.hdr` gives the fields of the
  `TestAllocator_BlockHeader` stored at an address (all fields except the
  sentinel), `World.byte` gives raw bytes (sentinels and user segments).  A
  client can write bytes, never header fields.
* `sizeof(BlockHeader)`, `k_SENTINEL_SIZE` and `k_MAX_ALIGNMENT` come from
  headers that are not part of the translated file; they are the fields of
  `Platform`.
* `size_type` values are naturals below `2 ^ 64`; `bsls::Types::Int64` and
  `int` casts are `toInt64` and `toInt32` (two's complement wrap).  The byte
  statistics, which grow by a client-chosen amount per call, are 64-bit
  wrapping; the event counters, which move by one per call, are unbounded
  integers (they cannot leave the 64-bit range in fewer than `2 ^ 63` calls).
* The upstream allocator is an oracle: `allocate` receives the address the
  upstream allocator returns when it is called (`0` when it fails), and all
  upstream calls are logged in `World.upstream`.  Upstream calls do not change
  the modelled memory.  An upstream allocator that throws instead of returning
  null leaves the state of the `badAlloc` outcome.
* `printf` output is a list of abstract `Output` events in `World.stdout`.
* The exception-enabled build (`BDE_BUILD_TARGET_EXC`) is modelled.
* The mutex `d_lock` is not modelled: operations are atomic steps.
-/

namespace bslma

/-! ## Platform constants -/

/-- Constants of the target platform used by the component:
`k_MAX_ALIGNMENT = bsls::AlignmentUtil::BSLS_MAX_ALIGNMENT`,
`k_SENTINEL_SIZE = sizeof(bsls::AlignmentUtil::MaxAlignedType)` and
`sizeof(TestAllocator_BlockHeader)`.  The sentinel is the last member of the
header, so the header is larger than the sentinel; the header contains a
maximally aligned member, so its size is a multiple of the alignment. -/
structure Platform where
  k_MAX_ALIGNMENT : Nat
  k_SENTINEL_SIZE : Nat
  sizeofBlockHeader : Nat
  alignment_pos : 0 < k_MAX_ALIGNMENT
  sentinel_pos : 0 < k_SENTINEL_SIZE
  sentinel_lt_header : k_SENTINEL_SIZE < sizeofBlockHeader
  header_aligned : sizeofBlockHeader % k_MAX_ALIGNMENT = 0
  sentinel_small : k_SENTINEL_SIZE < 2147483648

/-- The usual 64-bit Unix platform: 16-byte maximal alignment, 64-byte
header. -/
def linux64 : Platform where
  k_MAX_ALIGNMENT := 16
  k_SENTINEL_SIZE := 16
  sizeofBlockHeader := 64
  alignment_pos := by decide
  sentinel_pos := by decide
  sentinel_lt_header := by decide
  header_aligned := by decide
  sentinel_small := by decide

/-! ## Machine integers -/

/-- Conversion to `bsls::Types::Int64` (two's complement, 64 bits). -/
def toInt64 (x : Int) : Int :=
  (x + 9223372036854775808) % 18446744073709551616 - 9223372036854775808

/-- Conversion to `int` (two's complement, 32 bits). -/
def toInt32 (x : Int) : Int :=
  (x + 2147483648) % 4294967296 - 2147483648

/-- Reduction to `std::size_t` (64 bits, unsigned). -/
def toSizeT (x : Nat) : Nat :=
  x % 18446744073709551616

/-- The representable range of `bsls::Types::Int64`. -/
def InInt64 (x : Int) : Prop :=
  -9223372036854775808 ≤ x ∧ x < 9223372036854775808

/-! ## Data model -/

/-- The fields of `struct TestAllocator_BlockHeader` other than `d_sentinel`
(whose bytes live in the byte store, just below the user segment). -/
structure TestAllocator_BlockHeader where
  d_magicNumber : Nat
  d_prev_p : Int
  d_next_p : Int
  d_bytes : Nat
  d_id : Int
  d_self_p : Int

def k_ALLOCATED_MEMORY_MAGIC_NUMBER : Nat := 0xDEADBEEF

def k_DEALLOCATED_MEMORY_MAGIC_NUMBER : Nat := 0xDEADF00D

def k_DEALLOCATED_BYTE : Nat := 0xA5

def k_SENTINEL_BYTE : Nat := 0xB1

/-- A call made to the upstream allocator `d_allocator_p`. -/
inductive UpstreamCall where
  | allocate (allocator : Int) (numBytes : Nat)
  | deallocate (allocator : Int) (address : Int)
  deriving DecidableEq, Repr

/-- The first message line chosen by `formatInvalidMemoryBlock`. -/
inductive InvalidBlockMessage where
  | previouslyDeallocated
  | invalidMagicNumber (magicNumber : Nat)
  | invalidByteCount (numBytes : Nat)
  | wrongAllocator
  | corruptedBefore (underrunBy : Int)
  | corruptedAfter (overrunBy : Int)
  | noMessage
  deriving DecidableEq, Repr

/-- What the component writes to `stdout`, one event per report. -/
inductive Output where
  | allocated (name : Option String) (allocationId : Int) (size : Nat) (address : Int)
  | deallocated (name : Option String) (allocationId : Int) (size : Nat) (address : Int)
  | invalidMemoryBlock (message : InvalidBlockMessage) (header : Int)
  | statistics (numBlocksInUse numBytesInUse numBlocksMax numBytesMax
      numBlocksTotal numBytesTotal numMismatches numBoundsErrors : Int)
  | memoryLeak (name : Option String) (numBlocksInUse numBytesInUse : Int)
  deriving DecidableEq, Repr

/-- Everything outside the allocator object: memory, the log of upstream calls
and the text printed so far. -/
structure World where
  hdr : Int → TestAllocator_BlockHeader
  byte : Int → Nat
  upstream : List UpstreamCall
  stdout : List Output

/-- The data members of `class TestAllocator`; `thisAddr` is the address of the
object (`this`). -/
structure TestAllocator where
  thisAddr : Int
  d_name_p : Option String
  d_noAbortFlag : Bool
  d_quietFlag : Bool
  d_verboseFlag : Bool
  d_allocationLimit : Int
  d_numAllocations : Int
  d_numDeallocations : Int
  d_numMismatches : Int
  d_numBoundsErrors : Int
  d_numBlocksInUse : Int
  d_numBytesInUse : Int
  d_numBlocksMax : Int
  d_numBytesMax : Int
  d_numBlocksTotal : Int
  d_numBytesTotal : Int
  d_lastAllocatedNumBytes : Int
  d_lastDeallocatedNumBytes : Int
  d_lastAllocatedAddress_p : Int
  d_lastDeallocatedAddress_p : Int
  d_blockListHead_p : Int
  d_blockListTail_p : Int
  d_allocator_p : Int

/-! ## Local implementation functions -/

/-- Modelled from the spec: `bsls::AlignmentUtil::calculateAlignmentOffset` is
not part of the translated file; it gives the number of bytes to add to
`address` to reach the next multiple of `alignment`. -/
def calculateAlignmentOffset (address : Int) (alignment : Nat) : Int :=
  (alignment - address) % alignment

/-- Source `isAligned`: whether `address` is aligned on `alignment`. -/
def isAligned (address : Int) (alignment : Nat) : Bool :=
  decide (0 = calculateAlignmentOffset address alignment)

/-- Modelled from the spec: `bsls::AlignmentUtil::roundUpToMaximalAlignment`
is not part of the translated file; it rounds a `size_t` up to the next
multiple of the maximal alignment, in `size_t` arithmetic. -/
def roundUpToMaximalAlignment (P : Platform) (size : Nat) : Nat :=
  toSizeT (toSizeT (size + P.k_MAX_ALIGNMENT - 1) / P.k_MAX_ALIGNMENT * P.k_MAX_ALIGNMENT)

/-- The effect of `std::memset(s, c, n)` on the byte store. -/
def memset (byte : Int → Nat) (s : Int) (c : Nat) (n : Nat) : Int → Nat :=
  fun x => if s ≤ x ∧ x < s + n then c else byte x

/-- A store of one byte by the client. -/
def writeByte (w : World) (address : Int) (value : Nat) : World :=
  { w with byte := Function.update w.byte address value }

/-- An assignment to fields of the header stored at `p`. -/
def setHdr (hdr : Int → TestAllocator_BlockHeader) (p : Int)
    (f : TestAllocator_BlockHeader → TestAllocator_BlockHeader) :
    Int → TestAllocator_BlockHeader :=
  Function.update hdr p (f (hdr p))

/-- Source `formatInvalidMemoryBlock`: the report printed for an invalid
block; the header dump and the hex dumps are not detailed. -/
def formatInvalidMemoryBlock (w : World) (address : Int) (allocator : Int)
    (underrunBy overrunBy : Int) : Output :=
  let magicNumber := (w.hdr address).d_magicNumber
  let numBytes := (w.hdr address).d_bytes
  let message :=
    if k_ALLOCATED_MEMORY_MAGIC_NUMBER ≠ magicNumber then
      if k_DEALLOCATED_MEMORY_MAGIC_NUMBER = magicNumber then
        InvalidBlockMessage.previouslyDeallocated
      else
        InvalidBlockMessage.invalidMagicNumber magicNumber
    else if numBytes ≤ 0 then
      InvalidBlockMessage.invalidByteCount numBytes
    else if allocator ≠ (w.hdr address).d_self_p then
      InvalidBlockMessage.wrongAllocator
    else if underrunBy ≠ 0 then
      InvalidBlockMessage.corruptedBefore underrunBy
    else if overrunBy ≠ 0 then
      InvalidBlockMessage.corruptedAfter overrunBy
    else
      InvalidBlockMessage.noMessage
  Output.invalidMemoryBlock message address

/-! ## Creators and flag manipulators -/

/-- The four source constructors (lines 265-381): they differ only in whether a
name and a verbose flag are supplied (`none` and `false` otherwise).
`singleton` is `&MallocFreeAllocator::singleton()`, used when no upstream
allocator is passed. -/
def TestAllocator.create (thisAddr : Int) (name : Option String) (verboseFlag : Bool)
    (basicAllocator singleton : Int) : TestAllocator where
  thisAddr := thisAddr
  d_name_p := name
  d_noAbortFlag := false
  d_quietFlag := false
  d_verboseFlag := verboseFlag
  d_allocationLimit := -1
  d_numAllocations := 0
  d_numDeallocations := 0
  d_numMismatches := 0
  d_numBoundsErrors := 0
  d_numBlocksInUse := 0
  d_numBytesInUse := 0
  d_numBlocksMax := 0
  d_numBytesMax := 0
  d_numBlocksTotal := 0
  d_numBytesTotal := 0
  d_lastAllocatedNumBytes := 0
  d_lastDeallocatedNumBytes := 0
  d_lastAllocatedAddress_p := 0
  d_lastDeallocatedAddress_p := 0
  d_blockListHead_p := 0
  d_blockListTail_p := 0
  d_allocator_p := if basicAllocator ≠ 0 then basicAllocator else singleton

/-- Modelled from the spec: `setNoAbort` is declared in the header, which is
not part of the translated file; the spec lists no-abort as a mutable flag. -/
def setNoAbort (a : TestAllocator) (flagValue : Bool) : TestAllocator :=
  { a with d_noAbortFlag := flagValue }

/-- Modelled from the spec: `setQuiet` is declared in the header, which is not
part of the translated file; the spec lists quiet as a mutable flag. -/
def setQuiet (a : TestAllocator) (flagValue : Bool) : TestAllocator :=
  { a with d_quietFlag := flagValue }

/-- Modelled from the spec: `setVerbose` is declared in the header, which is
not part of the translated file; the spec lists verbose as a mutable flag. -/
def setVerbose (a : TestAllocator) (flagValue : Bool) : TestAllocator :=
  { a with d_verboseFlag := flagValue }

/-- Modelled from the spec: `setAllocationLimit` is declared in the header,
which is not part of the translated file; the spec describes the limit as a
settable integer, negative meaning unlimited. -/
def setAllocationLimit (a : TestAllocator) (limit : Int) : TestAllocator :=
  { a with d_allocationLimit := limit }

/-! ## allocate -/

/-- How a call of `allocate` ends. -/
inductive AllocateOutcome where
  | returned (address : Int)
  | testAllocatorException (numBytes : Int)
  | badAlloc
  | assertFailed
  deriving DecidableEq, Repr

/-- Outcome and state after a call of `allocate`. -/
structure AllocateResult where
  outcome : AllocateOutcome
  alloc : TestAllocator
  world : World

/-- Lines 432-435 of `allocate`: the statistics updated before any allocation
attempt. -/
def allocateRecordRequest (a : TestAllocator) (size : Nat) : TestAllocator :=
  { a with
    d_numAllocations := a.d_numAllocations + 1
    d_lastAllocatedNumBytes := toInt64 size
    d_lastAllocatedAddress_p := 0 }

/-- Lines 438-441 of `allocate`: a non-negative allocation limit is
decremented. -/
def allocateConsumeLimit (a : TestAllocator) : TestAllocator :=
  { a with
    d_allocationLimit :=
      if 0 ≤ a.d_allocationLimit then a.d_allocationLimit - 1 else a.d_allocationLimit }

/-- Lines 470-539 of `allocate`: the block at `header_p`, obtained from
upstream, is set up, linked, counted and returned. -/
def allocateBlock (P : Platform) (a : TestAllocator) (w : World) (size : Nat)
    (header_p : Int) : AllocateResult :=
  let allocationId := a.d_numAllocations - 1
  -- lines 475-491: header fields and list insertion
  let hdr1 := setHdr w.hdr header_p
    (fun b => { b with d_magicNumber := k_ALLOCATED_MEMORY_MAGIC_NUMBER })
  let hdr2 := setHdr hdr1 header_p (fun b => { b with d_next_p := 0 })
  let hdr3 :=
    if a.d_blockListHead_p ≠ 0 then
      setHdr (setHdr hdr2 header_p (fun b => { b with d_prev_p := a.d_blockListTail_p }))
        a.d_blockListTail_p (fun b => { b with d_next_p := header_p })
    else
      setHdr hdr2 header_p (fun b => { b with d_prev_p := 0 })
  let head := if a.d_blockListHead_p ≠ 0 then a.d_blockListHead_p else header_p
  let hdr4 := setHdr hdr3 header_p
    (fun b => { b with d_bytes := size, d_id := allocationId, d_self_p := a.thisAddr })
  let address : Int := header_p + P.sizeofBlockHeader
  -- lines 498-510: statistics
  let numBlocksInUse := a.d_numBlocksInUse + 1
  let numBlocksMax :=
    if a.d_numBlocksMax < numBlocksInUse then numBlocksInUse else a.d_numBlocksMax
  let numBytesInUse := toInt64 (a.d_numBytesInUse + toInt64 size)
  let numBytesMax :=
    if a.d_numBytesMax < numBytesInUse then numBytesInUse else a.d_numBytesMax
  let a3 : TestAllocator := { a with
    d_blockListHead_p := head
    d_blockListTail_p := header_p
    d_numBlocksInUse := numBlocksInUse
    d_numBlocksMax := numBlocksMax
    d_numBlocksTotal := a.d_numBlocksTotal + 1
    d_numBytesInUse := numBytesInUse
    d_numBytesMax := numBytesMax
    d_numBytesTotal := toInt64 (a.d_numBytesTotal + toInt64 size)
    d_lastAllocatedAddress_p := address }
  -- lines 515-518: the two sentinels
  let byte1 := memset w.byte (address - P.k_SENTINEL_SIZE) k_SENTINEL_BYTE P.k_SENTINEL_SIZE
  let byte2 := memset byte1 (address + size) k_SENTINEL_BYTE P.k_SENTINEL_SIZE
  -- lines 520-537: trace line
  let out :=
    if a3.d_verboseFlag then
      w.stdout ++ [Output.allocated a3.d_name_p allocationId size address]
    else w.stdout
  ⟨AllocateOutcome.returned address, a3,
    { w with hdr := hdr4, byte := byte2, stdout := out }⟩

/-- The world after the upstream allocator has been asked for the block of an
`allocate(size)` call (lines 451-461). -/
def allocateUpstream (P : Platform) (a : TestAllocator) (w : World) (size : Nat) : World :=
  let totalBytes := roundUpToMaximalAlignment P
    (toSizeT (P.sizeofBlockHeader + size + P.k_SENTINEL_SIZE))
  { w with upstream := w.upstream ++ [UpstreamCall.allocate a.d_allocator_p totalBytes] }

/-- Source `TestAllocator::allocate` (lines 416-540).  `up` is the address the
upstream allocator returns if it is called (0 if it cannot satisfy the
request).  A failed `BSLS_ASSERT` (line 468) is the outcome `assertFailed`. -/
def allocate (P : Platform) (a : TestAllocator) (w : World) (size : Nat) (up : Nat) :
    AllocateResult :=
  let a1 := allocateRecordRequest a size
  let a2 := allocateConsumeLimit a1
  if 0 ≤ a1.d_allocationLimit ∧ 0 > a2.d_allocationLimit then
    ⟨AllocateOutcome.testAllocatorException (toInt32 size), a2, w⟩
  else if 0 = size then
    ⟨AllocateOutcome.returned 0, a2, w⟩
  else
    let w1 := allocateUpstream P a2 w size
    let header_p : Int := up
    if header_p = 0 then
      ⟨AllocateOutcome.badAlloc, a2, w1⟩
    else if ¬ isAligned header_p P.k_MAX_ALIGNMENT then
      ⟨AllocateOutcome.assertFailed, a2, w1⟩
    else
      allocateBlock P a2 w1 size header_p

/-! ## deallocate -/

/-- How a call that may abort the process ends. -/
inductive Completion where
  | returned
  | aborted
  deriving DecidableEq, Repr

/-- Outcome and state after a call of `deallocate`. -/
structure DeallocateResult where
  outcome : Completion
  alloc : TestAllocator
  world : World

/-- The local variable `miscError` of `deallocate` after the header checks
(lines 568-584). -/
def miscError (P : Platform) (a : TestAllocator) (w : World) (address : Int) : Bool :=
  let header_p := address - P.sizeofBlockHeader
  if ¬ isAligned header_p P.k_MAX_ALIGNMENT then true
  else if k_ALLOCATED_MEMORY_MAGIC_NUMBER ≠ (w.hdr header_p).d_magicNumber then true
  else if (w.hdr header_p).d_bytes ≤ 0 ∨ a.thisAddr ≠ (w.hdr header_p).d_self_p then true
  else false

/-- The loop of lines 601-606, `for (pc = pcBegin; pcEnd <= pc; --pc)`: the
value left in `underrunBy`.  The last argument is the number of bytes still to
be visited, `pc - pcEnd + 1`. -/
def underrunLoop (byte : Int → Nat) (pcBegin : Int) : Int → Nat → Int
  | _, 0 => 0
  | pc, n + 1 =>
    if k_SENTINEL_BYTE ≠ byte pc then toInt32 (pcBegin + 1 - pc)
    else underrunLoop byte pcBegin (pc - 1) n

/-- The loop of lines 613-618, `for (pc = pcBegin; pc < pcEnd; ++pc)`: the
value left in `overrunBy`.  The last argument is the number of bytes still to
be visited, `pcEnd - pc`. -/
def overrunLoop (byte : Int → Nat) (pcBegin : Int) : Int → Nat → Int
  | _, 0 => 0
  | pc, n + 1 =>
    if k_SENTINEL_BYTE ≠ byte pc then toInt32 (pc + 1 - pcBegin)
    else overrunLoop byte pcBegin (pc + 1) n

/-- The local variable `underrunBy` of `deallocate` at line 622. -/
def underrunBy (P : Platform) (a : TestAllocator) (w : World) (address : Int) : Int :=
  if miscError P a w address then 0
  else underrunLoop w.byte (address - 1) (address - 1) P.k_SENTINEL_SIZE

/-- The local variable `overrunBy` of `deallocate` at line 622. -/
def overrunBy (P : Platform) (a : TestAllocator) (w : World) (address : Int) : Int :=
  if miscError P a w address then 0
  else if underrunBy P a w address ≠ 0 then 0
  else
    let tail := address + (w.hdr (address - P.sizeofBlockHeader)).d_bytes
    overrunLoop w.byte tail tail P.k_SENTINEL_SIZE

/-- Lines 682-684 of `deallocate`: the header store after the first half of the
unlinking (the predecessor, if any, is made to point past `header_p`). -/
def unlinkPrev (hdr : Int → TestAllocator_BlockHeader) (header_p : Int) :
    Int → TestAllocator_BlockHeader :=
  if (hdr header_p).d_prev_p ≠ 0 then
    setHdr hdr (hdr header_p).d_prev_p
      (fun b => { b with d_next_p := (hdr header_p).d_next_p })
  else hdr

/-- Lines 682-694 of `deallocate`: the header store after `header_p` has been
unlinked. -/
def unlinkHdr (hdr : Int → TestAllocator_BlockHeader) (header_p : Int) :
    Int → TestAllocator_BlockHeader :=
  if (unlinkPrev hdr header_p header_p).d_next_p ≠ 0 then
    setHdr (unlinkPrev hdr header_p) (unlinkPrev hdr header_p header_p).d_next_p
      (fun b => { b with d_prev_p := (unlinkPrev hdr header_p header_p).d_prev_p })
  else unlinkPrev hdr header_p

/-- Lines 682-687 of `deallocate`: `d_blockListHead_p` after the unlinking. -/
def unlinkHead (hdr : Int → TestAllocator_BlockHeader) (head header_p : Int) : Int :=
  if (hdr header_p).d_prev_p ≠ 0 then head else (hdr header_p).d_next_p

/-- Lines 689-694 of `deallocate`: `d_blockListTail_p` after the unlinking. -/
def unlinkTail (hdr : Int → TestAllocator_BlockHeader) (tail header_p : Int) : Int :=
  if (unlinkPrev hdr header_p header_p).d_next_p ≠ 0 then tail
  else (unlinkPrev hdr header_p header_p).d_prev_p

/-- The call `d_allocator_p->deallocate(address)` made in world `w`: it is
logged; the modelled memory is left as it is. -/
def upstreamDeallocate (w : World) (allocator address : Int) : World :=
  { w with upstream := w.upstream ++ [UpstreamCall.deallocate allocator address] }

/-- Lines 645-704 of `deallocate`: the block passed every check; it is
counted, stamped, unlinked, scribbled over and given back to upstream. -/
def deallocateBlock (P : Platform) (a : TestAllocator) (w : World) (address : Int) :
    DeallocateResult :=
  let header_p := address - P.sizeofBlockHeader
  let size := (w.hdr header_p).d_bytes
  let allocationId := (w.hdr header_p).d_id
  -- lines 652-660: statistics, then the header is stamped
  let a2 : TestAllocator := { a with
    d_numDeallocations := a.d_numDeallocations + 1
    d_lastDeallocatedNumBytes := toInt64 size
    d_numBlocksInUse := a.d_numBlocksInUse + -1
    d_numBytesInUse := toInt64 (a.d_numBytesInUse + toInt64 (-toInt64 size)) }
  let hdr1 := setHdr w.hdr header_p
    (fun b => { b with d_magicNumber := k_DEALLOCATED_MEMORY_MAGIC_NUMBER })
  -- lines 662-679: trace line
  let out :=
    if a2.d_verboseFlag then
      w.stdout ++ [Output.deallocated a2.d_name_p allocationId size address]
    else w.stdout
  -- lines 682-694: unlink the header
  let a3 : TestAllocator := { a2 with
    d_blockListHead_p := unlinkHead hdr1 a2.d_blockListHead_p header_p
    d_blockListTail_p := unlinkTail hdr1 a2.d_blockListTail_p header_p }
  let hdr2 := unlinkHdr hdr1 header_p
  -- line 699: scribble over the user segment
  let byte1 := memset w.byte address k_DEALLOCATED_BYTE size
  let w1 : World := { hdr := hdr2, byte := byte1, upstream := w.upstream, stdout := out }
  -- line 704: give the block back
  ⟨Completion.returned, a3, upstreamDeallocate w1 a3.d_allocator_p header_p⟩

/-- Lines 623-643 of `deallocate`: an error was detected; it is counted and,
unless the allocator is quiet, reported, and the process is aborted unless
no-abort is set. -/
def deallocateReport (P : Platform) (a : TestAllocator) (w : World) (address : Int) :
    DeallocateResult :=
  let header_p := address - P.sizeofBlockHeader
  let a2 : TestAllocator := { a with
    d_numMismatches :=
      if miscError P a w address then a.d_numMismatches + 1 else a.d_numMismatches
    d_numBoundsErrors :=
      if miscError P a w address then a.d_numBoundsErrors else a.d_numBoundsErrors + 1 }
  if a2.d_quietFlag then
    ⟨Completion.returned, a2, w⟩
  else
    let w1 : World := { w with
      stdout := w.stdout ++ [formatInvalidMemoryBlock w header_p a2.thisAddr
        (underrunBy P a w address) (overrunBy P a w address)] }
    if a2.d_noAbortFlag then ⟨Completion.returned, a2, w1⟩
    else ⟨Completion.aborted, a2, w1⟩

/-- Line 546 of `deallocate`: the address is recorded first. -/
def deallocateRecordAddress (a : TestAllocator) (address : Int) : TestAllocator :=
  { a with d_lastDeallocatedAddress_p := address }

/-- Source `TestAllocator::deallocate` (lines 542-705). -/
def deallocate (P : Platform) (a : TestAllocator) (w : World) (address : Int) :
    DeallocateResult :=
  let a1 := deallocateRecordAddress a address
  if 0 = address then
    ⟨Completion.returned,
      { a1 with d_numDeallocations := a1.d_numDeallocations + 1, d_lastDeallocatedNumBytes := 0 },
      w⟩
  else if miscError P a1 w address ∨ overrunBy P a1 w address ≠ 0
      ∨ underrunBy P a1 w address ≠ 0 then
    deallocateReport P a1 w address
  else
    deallocateBlock P a1 w address

/-! ## Destructor and status -/

/-- How the destructor ends; `assertFailed` is a failed `BSLS_ASSERT`
(line 385). -/
inductive DestructorOutcome where
  | returned
  | aborted
  | assertFailed
  deriving DecidableEq, Repr

/-- Outcome and output after the destructor. -/
structure DestructorResult where
  outcome : DestructorOutcome
  world : World

/-- Source `TestAllocator::~TestAllocator` (lines 383-412). -/
def destructor (a : TestAllocator) (w : World) : DestructorResult :=
  if a.d_allocator_p = 0 then ⟨DestructorOutcome.assertFailed, w⟩
  else
    let w1 : World :=
      if a.d_verboseFlag then
        { w with stdout := w.stdout ++ [Output.statistics a.d_numBlocksInUse a.d_numBytesInUse
            a.d_numBlocksMax a.d_numBytesMax a.d_numBlocksTotal a.d_numBytesTotal
            a.d_numMismatches a.d_numBoundsErrors] }
      else w
    if ¬ a.d_quietFlag then
      if a.d_numBytesInUse ≠ 0 ∨ a.d_numBlocksInUse ≠ 0 then
        let w2 : World := { w1 with
          stdout := w1.stdout ++
            [Output.memoryLeak a.d_name_p a.d_numBlocksInUse a.d_numBytesInUse] }
        if ¬ a.d_noAbortFlag then ⟨DestructorOutcome.aborted, w2⟩
        else ⟨DestructorOutcome.returned, w2⟩
      else ⟨DestructorOutcome.returned, w1⟩
    else ⟨DestructorOutcome.returned, w1⟩

/-- Value and state after a call of `status`. -/
structure StatusResult where
  value : Int
  alloc : TestAllocator

/-- Source `TestAllocator::status` (lines 786-803). -/
def status (a : TestAllocator) : StatusResult :=
  let numErrors := toInt64 (a.d_numMismatches + a.d_numBoundsErrors)
  if numErrors > 0 then ⟨toInt32 numErrors, a⟩
  else if a.d_numBlocksInUse ≠ 0 ∨ a.d_numBytesInUse ≠ 0 then ⟨-1, a⟩
  else ⟨0, a⟩

/-! ## Call sequences -/

/-- Sequential calls of `allocate`, one per request (a size and the address
upstream returns if it is called): the outcomes in call order and the state
after the last call. -/
def allocateAll (P : Platform) :
    TestAllocator → World → List (Nat × Nat) → List AllocateOutcome × TestAllocator × World
  | a, w, [] => ([], a, w)
  | a, w, request :: rest =>
    ((allocate P a w request.1 request.2).outcome ::
        (allocateAll P (allocate P a w request.1 request.2).alloc
          (allocate P a w request.1 request.2).world rest).1,
      (allocateAll P (allocate P a w request.1 request.2).alloc
        (allocate P a w request.1 request.2).world rest).2)

/-! ## Reachable states -/

/-- The states an allocator and its environment can be in: after construction
(in any environment), after any call of a manipulator that did not end the
process, and after any byte written by the client. -/
inductive Reachable (P : Platform) : TestAllocator → World → Prop where
  | create (thisAddr : Int) (name : Option String) (verboseFlag : Bool)
      (basicAllocator singleton : Int) (w : World) :
      Reachable P (TestAllocator.create thisAddr name verboseFlag basicAllocator singleton) w
  | setNoAbort {a : TestAllocator} {w : World} (flagValue : Bool) :
      Reachable P a w → Reachable P (setNoAbort a flagValue) w
  | setQuiet {a : TestAllocator} {w : World} (flagValue : Bool) :
      Reachable P a w → Reachable P (setQuiet a flagValue) w
  | setVerbose {a : TestAllocator} {w : World} (flagValue : Bool) :
      Reachable P a w → Reachable P (setVerbose a flagValue) w
  | setAllocationLimit {a : TestAllocator} {w : World} (limit : Int) :
      Reachable P a w → InInt64 limit → Reachable P (setAllocationLimit a limit) w
  | allocate {a : TestAllocator} {w : World} (size up : Nat) :
      Reachable P a w → size < 18446744073709551616 →
      (allocate P a w size up).outcome ≠ AllocateOutcome.assertFailed →
      Reachable P (allocate P a w size up).alloc (allocate P a w size up).world
  | deallocate {a : TestAllocator} {w : World} (address : Int) :
      Reachable P a w →
      (deallocate P a w address).outcome = Completion.returned →
      Reachable P (deallocate P a w address).alloc (deallocate P a w address).world
  | clientWrite {a : TestAllocator} {w : World} (address : Int) (value : Nat) :
      Reachable P a w → value < 256 → Reachable P a (writeByte w address value)

/-! ## The block list -/

/-- `DSeg hdr L prev p nxt last`: following `d_next_p` from `p` visits exactly
the headers `L`, in this order, and then reaches `nxt`; every header visited is
non-null and its `d_prev_p` is the header visited before it (`prev` for the
first one); `last` is the last header visited (`prev` if there is none). -/
def DSeg (hdr : Int → TestAllocator_BlockHeader) : List Int → Int → Int → Int → Int → Prop
  | [], prev, p, nxt, last => p = nxt ∧ last = prev
  | x :: xs, prev, p, nxt, last =>
    p = x ∧ x ≠ 0 ∧ (hdr x).d_prev_p = prev ∧ DSeg hdr xs x (hdr x).d_next_p nxt last

instance DSeg.decidable (hdr : Int → TestAllocator_BlockHeader) :
    ∀ (L : List Int) (prev p nxt last : Int), Decidable (DSeg hdr L prev p nxt last)
  | [], prev, p, nxt, last => inferInstanceAs (Decidable (p = nxt ∧ last = prev))
  | x :: xs, prev, p, nxt, last =>
    have := DSeg.decidable hdr xs x (hdr x).d_next_p nxt last
    inferInstanceAs (Decidable (p = x ∧ x ≠ 0 ∧ (hdr x).d_prev_p = prev ∧
      DSeg hdr xs x (hdr x).d_next_p nxt last))

/-- The block list of allocator `a` in world `w` consists of the headers `L`,
from `d_blockListHead_p` to `d_blockListTail_p`, consistently doubly linked and
without repetition. -/
def BlockList (a : TestAllocator) (w : World) (L : List Int) : Prop :=
  DSeg w.hdr L 0 a.d_blockListHead_p 0 a.d_blockListTail_p ∧ L.Nodup

/-- The header of the block whose user segment starts at `address` is as
`allocate(size)` of allocator `a` left it: the block was returned by
`a.allocate(size)` and has not been deallocated. -/
structure AllocatedBlock (P : Platform) (a : TestAllocator) (w : World) (address : Int)
    (size : Nat) : Prop where
  nonnull : address ≠ 0
  aligned : isAligned (address - P.sizeofBlockHeader) P.k_MAX_ALIGNMENT = true
  magic : (w.hdr (address - P.sizeofBlockHeader)).d_magicNumber
    = k_ALLOCATED_MEMORY_MAGIC_NUMBER
  bytes : (w.hdr (address - P.sizeofBlockHeader)).d_bytes = size
  size_pos : 0 < size
  self : (w.hdr (address - P.sizeofBlockHeader)).d_self_p = a.thisAddr

/-- Both sentinels of the block whose `size`-byte user segment starts at
`address` hold the sentinel byte everywhere. -/
structure SentinelsIntact (P : Platform) (w : World) (address : Int) (size : Nat) : Prop where
  before : ∀ x : Int, address - P.k_SENTINEL_SIZE ≤ x → x < address →
    w.byte x = k_SENTINEL_BYTE
  after : ∀ x : Int, address + size ≤ x → x < address + size + P.k_SENTINEL_SIZE →
    w.byte x = k_SENTINEL_BYTE

/-! ## Concrete states used to exercise the model -/

/-- A world with zeroed memory, no upstream call and no output. -/
def blankWorld : World := ⟨fun _ => ⟨0, 0, 0, 0, 0, 0⟩, fun _ => 0, [], []⟩

/-- A freshly constructed allocator at address 4096 whose upstream allocator
is the singleton at address 8192. -/
def freshAllocator : TestAllocator := TestAllocator.create 4096 none false 0 8192

/-- Scenario: a fresh allocator in no-abort mode hands out a one-byte block
(header at 64, user segment at 128). -/
def oneByteBlock : AllocateResult :=
  allocate linux64 (setNoAbort freshAllocator true) blankWorld 1 64

/-- Scenario, continued: the client writes a zero byte just past the one-byte
segment and then deallocates the block; the overrun is counted and reported,
and the block stays allocated. -/
def overrunReported : DeallocateResult :=
  deallocate linux64 oneByteBlock.alloc (writeByte oneByteBlock.world 129 0) 128

/-- Scenario: a fresh allocator hands out a one-byte block (header at 64, user
segment at 128). -/
def firstBlock : AllocateResult :=
  allocate linux64 freshAllocator blankWorld 1 64

/-- Scenario, continued: with the one-byte block still live, the allocator
hands out a block of `2 ^ 63 - 1` bytes (header at 1024, user segment at
1088). -/
def hugeBlock : AllocateResult :=
  allocate linux64 firstBlock.alloc firstBlock.world 9223372036854775807 1024

/-- Scenario, continued: the huge block is deallocated at once. -/
def hugeBlockReleased : DeallocateResult :=
  deallocate linux64 hugeBlock.alloc hugeBlock.world 1088

/-- Scenario: the client stores the byte 0xB1 just past the one-byte block and
deallocates the block. -/
def sentinelValueStored : DeallocateResult :=
  deallocate linux64 firstBlock.alloc (writeByte firstBlock.world (128 + 1) 0xB1) 128

/-- Scenario: a fresh allocator in quiet mode hands out a one-byte block
(header at 64, user segment at 128). -/
def quietBlock : AllocateResult :=
  allocate linux64 (setQuiet freshAllocator true) blankWorld 1 64

/-- Scenario: a fresh allocator hands out a block of `2 ^ 63` bytes (header at
1024, user segment at 1088). -/
def halfSpaceBlock : AllocateResult :=
  allocate linux64 freshAllocator blankWorld 9223372036854775808 1024

/-- Scenario, continued: the block of `2 ^ 63` bytes is deallocated. -/
def halfSpaceReleased : DeallocateResult :=
  deallocate linux64 halfSpaceBlock.alloc halfSpaceBlock.world 1088

/-- Scenario: a fresh allocator is asked for `2 ^ 64 - 1` bytes and upstream
answers the resulting request with the address 1024. -/
def wrappedRequest : AllocateResult :=
  allocate linux64 freshAllocator blankWorld 18446744073709551615 1024

/-- Scenario: a fresh allocator is asked for `2 ^ 64 - 81` bytes, so that
header, segment and sentinel add up to `2 ^ 64 - 1` bytes, and upstream
returns null. -/
def roundingRequest : AllocateResult :=
  allocate linux64 freshAllocator blankWorld 18446744073709551535 0

/-- Scenario: a fresh allocator hands out three four-byte blocks, with headers
at 64, 256 and 512. -/
def threeBlocks : AllocateResult :=
  allocate linux64
    (allocate linux64 (allocate linux64 freshAllocator blankWorld 4 64).alloc
      (allocate linux64 freshAllocator blankWorld 4 64).world 4 256).alloc
    (allocate linux64 (allocate linux64 freshAllocator blankWorld 4 64).alloc
      (allocate linux64 freshAllocator blankWorld 4 64).world 4 256).world 4 512

/-- The ids given to blocks so far, in allocation order, after a call of
`allocate` with result `r` made when they were `ids`: the id stored in the
header of a returned block (a non-null address) is added at the end. -/
def idsAfterAllocate (P : Platform) (ids : List Int) (r : AllocateResult) : List Int :=
  match r.outcome with
  | AllocateOutcome.returned address =>
    if address = 0 then ids else ids ++ [(r.world.hdr (address - P.sizeofBlockHeader)).d_id]
  | _ => ids

/-- `IdHistory P a w calls ids`: the state `a`, `w` is reached from the
construction of the allocator by calls of its manipulators (with any
arguments) and byte writes of the client; `calls` is the number of calls of
`allocate` made so far and `ids` lists the ids stored in the headers of the
blocks handed out so far, live or not, in allocation order. -/
inductive IdHistory (P : Platform) : TestAllocator → World → Nat → List Int → Prop where
  | create (thisAddr : Int) (name : Option String) (verboseFlag : Bool)
      (basicAllocator singleton : Int) (w : World) :
      IdHistory P (TestAllocator.create thisAddr name verboseFlag basicAllocator singleton)
        w 0 []
  | setNoAbort {a : TestAllocator} {w : World} {calls : Nat} {ids : List Int}
      (flagValue : Bool) :
      IdHistory P a w calls ids → IdHistory P (setNoAbort a flagValue) w calls ids
  | setQuiet {a : TestAllocator} {w : World} {calls : Nat} {ids : List Int}
      (flagValue : Bool) :
      IdHistory P a w calls ids → IdHistory P (setQuiet a flagValue) w calls ids
  | setVerbose {a : TestAllocator} {w : World} {calls : Nat} {ids : List Int}
      (flagValue : Bool) :
      IdHistory P a w calls ids → IdHistory P (setVerbose a flagValue) w calls ids
  | setAllocationLimit {a : TestAllocator} {w : World} {calls : Nat} {ids : List Int}
      (limit : Int) :
      IdHistory P a w calls ids → IdHistory P (setAllocationLimit a limit) w calls ids
  | allocate {a : TestAllocator} {w : World} {calls : Nat} {ids : List Int} (size up : Nat) :
      IdHistory P a w calls ids →
      (allocate P a w size up).outcome ≠ AllocateOutcome.assertFailed →
      IdHistory P (allocate P a w size up).alloc (allocate P a w size up).world (calls + 1)
        (idsAfterAllocate P ids (allocate P a w size up))
  | deallocate {a : TestAllocator} {w : World} {calls : Nat} {ids : List Int}
      (address : Int) :
      IdHistory P a w calls ids →
      (deallocate P a w address).outcome = Completion.returned →
      IdHistory P (deallocate P a w address).alloc (deallocate P a w address).world calls ids
  | clientWrite {a : TestAllocator} {w : World} {calls : Nat} {ids : List Int}
      (address : Int) (value : Nat) :
      IdHistory P a w calls ids → IdHistory P a (writeByte w address value) calls ids

/-- Scenario: a fresh allocator is first asked for 0 bytes and then hands out a
one-byte block (header at 64). -/
def zeroThenOne : AllocateResult :=
  allocate linux64 (allocate linux64 freshAllocator blankWorld 0 0).alloc
    (allocate linux64 freshAllocator blankWorld 0 0).world 1 64

/-! ## Continuations without a new allocation limit -/

/-- `Continues P a w b v`: the state `b`, `v` is reached from the state `a`,
`w` by calls of `allocate`, `deallocate` and the flag setters (with any
arguments) and by byte writes of the client, without any call of
`setAllocationLimit`. -/
inductive Continues (P : Platform) (a : TestAllocator) (w : World) :
    TestAllocator → World → Prop where
  | refl : Continues P a w a w
  | setNoAbort {b : TestAllocator} {v : World} (flagValue : Bool) :
      Continues P a w b v → Continues P a w (setNoAbort b flagValue) v
  | setQuiet {b : TestAllocator} {v : World} (flagValue : Bool) :
      Continues P a w b v → Continues P a w (setQuiet b flagValue) v
  | setVerbose {b : TestAllocator} {v : World} (flagValue : Bool) :
      Continues P a w b v → Continues P a w (setVerbose b flagValue) v
  | allocate {b : TestAllocator} {v : World} (size up : Nat) :
      Continues P a w b v →
      Continues P a w (allocate P b v size up).alloc (allocate P b v size up).world
  | deallocate {b : TestAllocator} {v : World} (address : Int) :
      Continues P a w b v →
      Continues P a w (deallocate P b v address).alloc (deallocate P b v address).world
  | clientWrite {b : TestAllocator} {v : World} (address : Int) (value : Nat) :
      Continues P a w b v → Continues P a w b (writeByte v address value)

/-- Scenario: a fresh allocator whose limit was set to 0 is asked for one
byte. -/
def limitTripped : AllocateResult :=
  allocate linux64 (setAllocationLimit freshAllocator 0) blankWorld 1 64

/-! ## Histories: in-use counts and maxima -/

end bslma

/-!
# bbldc::BasicPsa30360Eom

A shallow embedding of `groups/bbl/bbldc/bbldc_basicpsa30360eom.cpp`.  The
class `bdlt::Date` and `bdlt::SerialDateImpUtil::isLeapYear` are not part of
the translated files: a date is the year, month and day that
`getYearMonthDay` loads, and the leap-year rule is a parameter of every
function.  `int` arithmetic is two's complement on 32 bits.
-/

namespace bbldc

/-- Modelled from the spec: `bdlt::Date` is declared outside the translated
files; a date is represented by the year, month and day that
`getYearMonthDay` loads. -/
structure Date where
  year : Int
  month : Int
  day : Int
  deriving DecidableEq, Repr

/-- Modelled from the spec: the number of days of a month, which
`bdlt::Date::isValidYearMonthDay` (outside the translated files) compares the
day with; `isLeapYear` is the leap-year rule of the calendar. -/
def lastDayOfMonth (isLeapYear : Int → Bool) (year month : Int) : Int :=
  if month = 2 then (if isLeapYear year then 29 else 28)
  else if month = 4 ∨ month = 6 ∨ month = 9 ∨ month = 11 then 30
  else 31

/-- Modelled from the spec: `bdlt::Date::isValidYearMonthDay` is declared
outside the translated files; a valid date has a year in `[1, 9999]`, a month
in `[1, 12]` and a day that exists in that month. -/
def isValidYearMonthDay (isLeapYear : Int → Bool) (year month day : Int) : Bool :=
  decide (1 ≤ year ∧ year ≤ 9999 ∧ 1 ≤ month ∧ month ≤ 12 ∧ 1 ≤ day ∧
    day ≤ lastDayOfMonth isLeapYear year month)

/-- Modelled from the spec: `operator>` of `bdlt::Date` is declared outside the
translated files; it is the chronological order, which on year, month and day
is the lexicographic order. -/
def Date.gt (a b : Date) : Bool :=
  decide (b.year < a.year ∨ (a.year = b.year ∧
    (b.month < a.month ∨ (a.month = b.month ∧ b.day < a.day))))

/-- Modelled from the spec: `bdlt::SerialDateImpUtil::isLeapYear` is not part
of the translated files, and the theorems take the leap-year rule as a
parameter; this proleptic Gregorian rule is used to exercise them. -/
def gregorianLeapYear (year : Int) : Bool :=
  year % 4 == 0 && (year % 100 != 0 || year % 400 == 0)

/-- Addition of two `int` values. -/
def addInt (x y : Int) : Int := bslma.toInt32 (x + y)

/-- Subtraction of two `int` values. -/
def subInt (x y : Int) : Int := bslma.toInt32 (x - y)

/-- Multiplication of two `int` values. -/
def mulInt (x y : Int) : Int := bslma.toInt32 (x * y)

/-- Negation of an `int` value. -/
def negInt (x : Int) : Int := bslma.toInt32 (-x)

/-- Source `isLastDayOfFebruary` (lines 18-30); the `BSLS_ASSERT_SAFE` is
checked in safe builds only. -/
def isLastDayOfFebruary (isLeapYear : Int → Bool) (year month day : Int) : Bool :=
  2 == month && (29 == day || (28 == day && !isLeapYear year))

/-- Source `max` (lines 32-37). -/
def max (lhs rhs : Int) : Int :=
  if lhs > rhs then lhs else rhs

/-- Source `computeDaysDiff` (lines 39-77). -/
def computeDaysDiff (isLeapYear : Int → Bool) (beginDate endDate : Date) : Int :=
  let negationFlag := beginDate.gt endDate
  let y1 := if negationFlag then endDate.year else beginDate.year
  let m1 := if negationFlag then endDate.month else beginDate.month
  let d1 := if negationFlag then endDate.day else beginDate.day
  let y2 := if negationFlag then beginDate.year else endDate.year
  let m2 := if negationFlag then beginDate.month else endDate.month
  let d2 := if negationFlag then beginDate.day else endDate.day
  let d1a := if isLastDayOfFebruary isLeapYear y1 m1 d1 then 30 else d1
  let d1b := if 31 = d1a then 30 else d1a
  let d2a := if 30 = d1b ∧ 31 = d2 then 30 else d2
  let result :=
    max (subInt (addInt (addInt (mulInt (subInt y2 y1) 360) (mulInt (subInt m2 m1) 30)) d2a)
      d1b) 0
  if negationFlag then negInt result else result

/-- Source `BasicPsa30360Eom::daysDiff` (lines 84-88). -/
def daysDiff (isLeapYear : Int → Bool) (beginDate endDate : Date) : Int :=
  computeDaysDiff isLeapYear beginDate endDate

/-- A date is valid. -/
def Date.isValid (isLeapYear : Int → Bool) (d : Date) : Prop :=
  isValidYearMonthDay isLeapYear d.year d.month d.day = true

/-- The date is the last day of February of its year. -/
def Date.isEndOfFebruary (isLeapYear : Int → Bool) (d : Date) : Bool :=
  decide (d.month = 2 ∧ d.day = lastDayOfMonth isLeapYear d.year 2)

/-- The day count of the PSA 30/360 end-of-month convention for
`beginDate <= endDate`, in exact integer arithmetic:
`max((y2 - y1) * 360 + (m2 - m1) * 30 + d2' - d1', 0)`, where `d1'` is 30 if
`beginDate` is the last day of February or its day is 31 (else `d1`), and
`d2'` is 30 if `d1' = 30` and `d2 = 31` (else `d2`). -/
def psaDayCount (isLeapYear : Int → Bool) (beginDate endDate : Date) : Int :=
  let d1' := if beginDate.isEndOfFebruary isLeapYear = true ∨ beginDate.day = 31 then 30
    else beginDate.day
  let d2' := if d1' = 30 ∧ endDate.day = 31 then 30 else endDate.day
  Max.max ((endDate.year - beginDate.year) * 360 + (endDate.month - beginDate.month) * 30
    + d2' - d1') 0

end bbldc

/-!
# baltzo::DataFileLoader: validateTimeZoneId

A shallow embedding of `validateTimeZoneId` of
`groups/bal/baltzo/baltzo_datafileloader.cpp`.  A `char` is its value as an
unsigned byte; a C string is the list of the bytes stored from the address
passed, the terminating NUL being the first zero byte of the list, or the byte
just past the list if the list has none.
-/

namespace baltzo

/-- The string literal `VALID_CHAR` of `validateTimeZoneId` (lines 104-106),
without its terminating NUL. -/
def VALID_CHAR : List Nat :=
  ("ABCDEFGHIJKLMNOPQRSTUVWXYZ" ++ "abcdefghijklmnopqrstuvwxyz" ++ "1234567890/_+-").toList.map
    Char.toNat

/-- Modelled from the spec: `bsl::strchr` is the C library function, outside
the translated files; the result says whether it returns a non-null pointer:
the character occurs in the string, or is the terminating NUL. -/
def strchr (s : List Nat) (c : Nat) : Bool :=
  decide (c ∈ s) || c == 0

/-- The loop of `validateTimeZoneId` (lines 108-112) from the position at
which the bytes listed are stored. -/
def validateLoop : List Nat → Int
  | [] => 0
  | c :: rest =>
    if c = 0 then 0
    else if ¬ strchr VALID_CHAR c then -2
    else validateLoop rest

/-- Source `validateTimeZoneId` (lines 95-117). -/
def validateTimeZoneId (timeZoneId : List Nat) : Int :=
  if '/'.toNat = timeZoneId.headD 0 then -1
  else validateLoop timeZoneId

/-- The characters that the claim allows in a time-zone identifier: ASCII
letters, decimal digits, and `/`, `_`, `+`, `-`. -/
def isAllowedChar (c : Nat) : Prop :=
  ('A'.toNat ≤ c ∧ c ≤ 'Z'.toNat) ∨ ('a'.toNat ≤ c ∧ c ≤ 'z'.toNat) ∨
  ('0'.toNat ≤ c ∧ c ≤ '9'.toNat) ∨
  c = '/'.toNat ∨ c = '_'.toNat ∨ c = '+'.toNat ∨ c = '-'.toNat

/-- The bytes of a Lean string, to write identifiers down. -/
def cString (s : String) : List Nat :=
  s.toList.map Char.toNat

end baltzo

/-!
# bdlc::IndexClerk: areInvariantsPreserved

A shallow embedding of `IndexClerk::areInvariantsPreserved` of
`groups/bdl/bdlc/bdlc_indexclerk.cpp`.  Values of type `int` that are combined
bitwise are represented by their 32-bit patterns (naturals below `2 ^ 32`), a
`char` by its byte.  Whether `char` is signed is a parameter.
-/

namespace bdlc

/-- The conversion `(unsigned int) x` of an `int`. -/
def toUnsigned (x : Int) : Nat :=
  (x % 4294967296).toNat

/-- The 32-bit pattern of the `int` to which a `char` holding the byte `v` is
promoted: the sign is extended when `char` is a signed type. -/
def charToInt (signedChar : Bool) (v : Nat) : Nat :=
  if signedChar = true ∧ 128 ≤ v then v + 4294967040 else v

/-- The local variables of `areInvariantsPreserved` that the loop updates;
`bin` gives the byte stored at each index of the vector. -/
structure LoopState where
  indicesInvalid : Nat
  indicesNotUnique : Nat
  bin : Int → Nat

/-- One iteration of the loop of lines 46-53, on the element `x` of
`unusedStack`. -/
def loopBody (signedChar : Bool) (nextNewIndex : Int) (s : LoopState) (x : Int) : LoopState :=
  let indicesInvalid :=
    s.indicesInvalid ||| (if toUnsigned x ≥ toUnsigned nextNewIndex then 1 else 0)
  if indicesInvalid = 0 then
    let v := (s.bin x + 1) % 256
    { indicesInvalid := indicesInvalid
      indicesNotUnique := s.indicesNotUnique ||| charToInt signedChar v
      bin := Function.update s.bin x v }
  else
    { s with indicesInvalid := indicesInvalid }

/-- Source `IndexClerk::areInvariantsPreserved` (lines 34-61). -/
def areInvariantsPreserved (signedChar : Bool) (unusedStack : List Int) (nextNewIndex : Int) :
    Bool :=
  let s := unusedStack.foldl (loopBody signedChar nextNewIndex) ⟨0, 0, fun _ => 0⟩
  if s.indicesInvalid ≠ 0 ∨ (s.indicesNotUnique &&& 2) ≠ 0 then false else true

/-- The loop has seen exactly the indices `seen`, all valid and all
different. -/
def Clean (seen : List Int) (s : LoopState) : Prop :=
  s.indicesInvalid = 0 ∧ s.indicesNotUnique ≤ 1 ∧ ∀ j : Int, s.bin j = if j ∈ seen then 1 else 0

/-- The loop has seen an invalid index or a repeated one: the function will
return `false`. -/
def Dirty (s : LoopState) : Prop :=
  s.indicesInvalid ≠ 0 ∨ s.indicesNotUnique.testBit 1 = true

end bdlc

/-!
# ball::RecordJsonFormatter: the format specification

A shallow embedding of the parser of the format specification in
`groups/bal/ball/ball_recordjsonformatter.cpp`: the `parse` functions of the
field formatters, `DatumParser` and `RecordJsonFormatter::setFormat`.  The
class `bdld::Datum`, the function `baljsn::DatumUtil::decode` and the macro
`BSLS_ASSERT` are defined outside the translated files: a datum is a value
of an inductive type with the kinds the parser distinguishes, the decoder is
a parameter of `setFormat`, and whether assertions are checked is a
parameter of every function that reaches one.
-/

namespace ball

/-- Modelled from the spec: `bdld::Datum`, whose declaration is outside the
translated files, as far as the parser inspects it: a datum is a string
(`isString`, `theString`), a map, i.e. a sequence of key/value entries
(`isMap`, `theMap`, `size`, `operator[]`), an array (`isArray`, `theArray`),
or a value of any other kind (null, number, boolean, ...). -/
inductive Datum where
  | string (theString : String)
  | map (theMap : List (String × Datum))
  | array (theArray : List Datum)
  | other

/-- `bdld::Datum::isString`. -/
def Datum.isString : Datum → Bool
  | Datum.string _ => true
  | _ => false

/-- `bdld::Datum::isMap`. -/
def Datum.isMap : Datum → Bool
  | Datum.map _ => true
  | _ => false

/-- `bdld::Datum::isArray`. -/
def Datum.isArray : Datum → Bool
  | Datum.array _ => true
  | _ => false

/-- How a call ends: it returns a value, or a `BSLS_ASSERT` fails on the
way. -/
inductive Outcome (α : Type) where
  | returned (value : α)
  | assertFailed
  deriving DecidableEq, Repr

def k_KEY_TIMESTAMP : String := "timestamp"
def k_KEY_PROCESS_ID : String := "pid"
def k_KEY_THREAD_ID : String := "tid"
def k_KEY_SEVERITY : String := "severity"
def k_KEY_FILE : String := "file"
def k_KEY_LINE : String := "line"
def k_KEY_CATEGORY : String := "category"
def k_KEY_MESSAGE : String := "message"
def k_KEY_ATTRIBUTES : String := "attributes"
def k_KEY_NAME : String := "name"
def k_KEY_TIME_ZONE : String := "timeZone"
def k_KEY_FORMAT : String := "format"
def k_KEY_PRECISION : String := "fractionalSecPrecision"
def k_KEY_PATH : String := "path"
def k_VALUE_LOCAL : String := "local"
def k_VALUE_UTC : String := "utc"
def k_VALUE_BDE_PRINT : String := "bdePrint"
def k_VALUE_ISO_8601 : String := "iso8601"
def k_VALUE_PRECISION_NONE : String := "none"
def k_VALUE_PRECISION_MS : String := "milliseconds"
def k_VALUE_PRECISION_US : String := "microseconds"
def k_VALUE_DECIMAL : String := "decimal"
def k_VALUE_HEXADECIMAL : String := "hex"
def k_VALUE_FILE : String := "file"
def k_VALUE_FULL : String := "full"

/-- `TimestampFormatter::FractionalSecondPrecision`. -/
inductive FractionalSecondPrecision where
  | e_FSP_NONE | e_FSP_MILLISECONDS | e_FSP_MICROSECONDS
  deriving DecidableEq, Repr

/-- `TimestampFormatter::TimeZone`. -/
inductive TimeZone where
  | e_TZ_LOCAL | e_TZ_UTC
  deriving DecidableEq, Repr

/-- `TimestampFormatter::Format`. -/
inductive TimestampFormat where
  | e_FORMAT_BDE_PRINT | e_FORMAT_ISO_8601
  deriving DecidableEq, Repr

/-- The data members of `TimestampFormatter`. -/
structure TimestampFormatter where
  d_name : String
  d_format : TimestampFormat
  d_timeZone : TimeZone
  d_precision : FractionalSecondPrecision
  deriving DecidableEq, Repr

/-- The constructor of `TimestampFormatter` (lines 394-399). -/
def TimestampFormatter.create : TimestampFormatter :=
  ⟨k_KEY_TIMESTAMP, TimestampFormat.e_FORMAT_ISO_8601, TimeZone.e_TZ_UTC,
    FractionalSecondPrecision.e_FSP_MILLISECONDS⟩

/-- `TimestampFormatter::parse` (lines 1017-1064): the return code and the
formatter as the call leaves it; the recursion is the loop over the entries
of `v`. -/
def TimestampFormatter.parse (self : TimestampFormatter) :
    List (String × Datum) → Int × TimestampFormatter
  | [] => (0, self)
  | (key, Datum.string value) :: rest =>
    if k_KEY_NAME = key then
      TimestampFormatter.parse { self with d_name := value } rest
    else if k_KEY_PRECISION = key then
      if k_VALUE_PRECISION_NONE = value then
        TimestampFormatter.parse
          { self with d_precision := FractionalSecondPrecision.e_FSP_NONE } rest
      else if k_VALUE_PRECISION_MS = value then
        TimestampFormatter.parse
          { self with d_precision := FractionalSecondPrecision.e_FSP_MILLISECONDS } rest
      else if k_VALUE_PRECISION_US = value then
        TimestampFormatter.parse
          { self with d_precision := FractionalSecondPrecision.e_FSP_MICROSECONDS } rest
      else (-1, self)
    else if k_KEY_TIME_ZONE = key then
      if k_VALUE_LOCAL = value then
        TimestampFormatter.parse { self with d_timeZone := TimeZone.e_TZ_LOCAL } rest
      else if k_VALUE_UTC = value then
        TimestampFormatter.parse { self with d_timeZone := TimeZone.e_TZ_UTC } rest
      else (-1, self)
    else if k_KEY_FORMAT = key then
      if k_VALUE_BDE_PRINT = value then
        TimestampFormatter.parse
          { self with d_format := TimestampFormat.e_FORMAT_BDE_PRINT } rest
      else if k_VALUE_ISO_8601 = value then
        TimestampFormatter.parse
          { self with d_format := TimestampFormat.e_FORMAT_ISO_8601 } rest
      else (-1, self)
    else TimestampFormatter.parse self rest
  | _ :: _ => (-1, self)

/-- `ThreadIdFormatter::Format`. -/
inductive ThreadIdFormat where
  | e_DECIMAL | e_HEXADECIMAL
  deriving DecidableEq, Repr

/-- The data members of `ThreadIdFormatter`. -/
structure ThreadIdFormatter where
  d_name : String
  d_format : ThreadIdFormat
  deriving DecidableEq, Repr

/-- The constructor of `ThreadIdFormatter` (lines 447-450). -/
def ThreadIdFormatter.create : ThreadIdFormatter :=
  ⟨k_KEY_THREAD_ID, ThreadIdFormat.e_DECIMAL⟩

/-- `ThreadIdFormatter::parse` (lines 1110-1132). -/
def ThreadIdFormatter.parse (self : ThreadIdFormatter) :
    List (String × Datum) → Int × ThreadIdFormatter
  | [] => (0, self)
  | (key, Datum.string value) :: rest =>
    if k_KEY_NAME = key then
      ThreadIdFormatter.parse { self with d_name := value } rest
    else if k_KEY_FORMAT = key then
      if k_VALUE_DECIMAL = value then
        ThreadIdFormatter.parse { self with d_format := ThreadIdFormat.e_DECIMAL } rest
      else if k_VALUE_HEXADECIMAL = value then
        ThreadIdFormatter.parse { self with d_format := ThreadIdFormat.e_HEXADECIMAL } rest
      else (-1, self)
    else ThreadIdFormatter.parse self rest
  | _ :: _ => (-1, self)

/-- The data member of `FixedFieldFormatter`, the base class of the `pid`,
`line`, `category`, `severity` and `message` formatters. -/
structure FixedFieldFormatter where
  d_name : String
  deriving DecidableEq, Repr

/-- `FixedFieldFormatter::parse` (lines 1140-1151). -/
def FixedFieldFormatter.parse (self : FixedFieldFormatter) :
    List (String × Datum) → Int × FixedFieldFormatter
  | [] => (0, self)
  | (key, Datum.string value) :: rest =>
    if k_KEY_NAME = key then
      FixedFieldFormatter.parse { self with d_name := value } rest
    else FixedFieldFormatter.parse self rest
  | _ :: _ => (-1, self)

/-- `FileFormatter::Path`. -/
inductive Path where
  | e_FILE | e_FULL
  deriving DecidableEq, Repr

/-- The data members of `FileFormatter`. -/
structure FileFormatter where
  d_name : String
  d_path : Path
  deriving DecidableEq, Repr

/-- The constructor of `FileFormatter` (lines 698-701). -/
def FileFormatter.create : FileFormatter := ⟨k_KEY_FILE, Path.e_FULL⟩

/-- `FileFormatter::parse` (lines 1279-1301). -/
def FileFormatter.parse (self : FileFormatter) :
    List (String × Datum) → Int × FileFormatter
  | [] => (0, self)
  | (key, Datum.string value) :: rest =>
    if k_KEY_NAME = key then
      FileFormatter.parse { self with d_name := value } rest
    else if k_KEY_PATH = key then
      if k_VALUE_FULL = value then
        FileFormatter.parse { self with d_path := Path.e_FULL } rest
      else if k_VALUE_FILE = value then
        FileFormatter.parse { self with d_path := Path.e_FILE } rest
      else (-1, self)
    else FileFormatter.parse self rest
  | _ :: _ => (-1, self)

/-- The data members of `AttributeFormatter`; `k_UNSET` is `-1`. -/
structure AttributeFormatter where
  d_key : String
  d_index : Int
  deriving DecidableEq, Repr

/-- The constructor of `AttributeFormatter` (lines 741-747). -/
def AttributeFormatter.create (key : String) : AttributeFormatter := ⟨key, -1⟩

/-- `AttributeFormatter::parse` (lines 1343-1354). -/
def AttributeFormatter.parse (self : AttributeFormatter) :
    List (String × Datum) → Int × AttributeFormatter
  | [] => (0, self)
  | (key, Datum.string value) :: rest =>
    if k_KEY_NAME = key then
      AttributeFormatter.parse { self with d_key := value } rest
    else AttributeFormatter.parse self rest
  | _ :: _ => (-1, self)

/-- The data members of `AttributesFormatter` that belong to the object
itself; the set behind `d_skipAttributes_sp` is shared with the parser and
is kept in `DatumParser`. -/
structure AttributesFormatter where
  d_cache : List (String × Bool)
  deriving DecidableEq, Repr

/-- `AttributesFormatter::parse` (lines 1414-1419).  The macro `BSLS_ASSERT`
is defined outside the translated files: the parameter `assertActive` tells
whether the build compiles its check in, and a failed check ends the call. -/
def AttributesFormatter.parse (assertActive : Bool) (self : AttributesFormatter)
    (v : List (String × Datum)) : Outcome (Int × AttributesFormatter) :=
  if assertActive = true ∧ ¬ (0 = v.length) then Outcome.assertFailed
  else Outcome.returned (0, self)

/-- The classes derived from `FixedFieldFormatter`. -/
inductive FixedField where
  | processId | line | category | severity | message
  deriving DecidableEq, Repr

/-- An object of one of the classes derived from
`RecordJsonFormatter_FieldFormatter`. -/
inductive FieldFormatter where
  | timestamp (f : TimestampFormatter)
  | threadId (f : ThreadIdFormatter)
  | fixedField (c : FixedField) (f : FixedFieldFormatter)
  | file (f : FileFormatter)
  | attribute (f : AttributeFormatter)
  | attributes (f : AttributesFormatter)
  deriving DecidableEq, Repr

/-- The virtual call `formatter->parse(v)`. -/
def FieldFormatter.parse (assertActive : Bool) (self : FieldFormatter)
    (v : List (String × Datum)) : Outcome (Int × FieldFormatter) :=
  match self with
  | FieldFormatter.timestamp f =>
    Outcome.returned ((f.parse v).1, FieldFormatter.timestamp (f.parse v).2)
  | FieldFormatter.threadId f =>
    Outcome.returned ((f.parse v).1, FieldFormatter.threadId (f.parse v).2)
  | FieldFormatter.fixedField c f =>
    Outcome.returned ((f.parse v).1, FieldFormatter.fixedField c (f.parse v).2)
  | FieldFormatter.file f =>
    Outcome.returned ((f.parse v).1, FieldFormatter.file (f.parse v).2)
  | FieldFormatter.attribute f =>
    Outcome.returned ((f.parse v).1, FieldFormatter.attribute (f.parse v).2)
  | FieldFormatter.attributes f =>
    match f.parse assertActive v with
    | Outcome.returned r => Outcome.returned (r.1, FieldFormatter.attributes r.2)
    | Outcome.assertFailed => Outcome.assertFailed

/-- The data of `DatumParser`: `d_skipAttributes_sp` is null (`none`) or
points to the set of attribute names, kept as a list without repetition. -/
structure DatumParser where
  d_skipAttributes_sp : Option (List String)
  deriving DecidableEq, Repr

/-- The constructor of `DatumParser` (lines 886-889). -/
def DatumParser.create : DatumParser := ⟨none⟩

/-- The statement `if (!d_skipAttributes_sp) d_skipAttributes_sp =
allocate_shared<SkipAttributes>(...)` of lines 1456-1459 and 1464-1467. -/
def DatumParser.ensureSkipAttributes (self : DatumParser) : DatumParser :=
  match self.d_skipAttributes_sp with
  | none => { self with d_skipAttributes_sp := some [] }
  | some _ => self

/-- `DatumParser::make(const bslstl::StringRef&)` (lines 1427-1482): the
formatter created, which is never null, and the parser afterwards. -/
def DatumParser.make (self : DatumParser) (v : String) : FieldFormatter × DatumParser :=
  if k_KEY_TIMESTAMP = v then (FieldFormatter.timestamp TimestampFormatter.create, self)
  else if k_KEY_PROCESS_ID = v then
    (FieldFormatter.fixedField FixedField.processId ⟨k_KEY_PROCESS_ID⟩, self)
  else if k_KEY_THREAD_ID = v then (FieldFormatter.threadId ThreadIdFormatter.create, self)
  else if k_KEY_SEVERITY = v then
    (FieldFormatter.fixedField FixedField.severity ⟨k_KEY_SEVERITY⟩, self)
  else if k_KEY_FILE = v then (FieldFormatter.file FileFormatter.create, self)
  else if k_KEY_LINE = v then
    (FieldFormatter.fixedField FixedField.line ⟨k_KEY_LINE⟩, self)
  else if k_KEY_CATEGORY = v then
    (FieldFormatter.fixedField FixedField.category ⟨k_KEY_CATEGORY⟩, self)
  else if k_KEY_MESSAGE = v then
    (FieldFormatter.fixedField FixedField.message ⟨k_KEY_MESSAGE⟩, self)
  else if k_KEY_ATTRIBUTES = v then
    (FieldFormatter.attributes ⟨[]⟩, self.ensureSkipAttributes)
  else
    let formatter_mp := AttributeFormatter.create v
    (FieldFormatter.attribute formatter_mp,
      match self.ensureSkipAttributes.d_skipAttributes_sp with
      | some skip =>
        if v ∉ skip then { d_skipAttributes_sp := some (skip ++ [formatter_mp.d_key]) }
        else self.ensureSkipAttributes
      | none => self.ensureSkipAttributes)

/-- `DatumParser::make(bdld::DatumMapRef)` (lines 1484-1495): the formatter
created, or `none` for the null pointer, and the parser afterwards. -/
def DatumParser.makeFromMap (assertActive : Bool) (self : DatumParser)
    (v : List (String × Datum)) : Outcome (Option FieldFormatter × DatumParser) :=
  match v with
  | [(key, Datum.map theMap)] =>
    match (self.make key).1.parse assertActive theMap with
    | Outcome.returned r =>
      if 0 ≠ r.1 then Outcome.returned (none, (self.make key).2)
      else Outcome.returned (some r.2, (self.make key).2)
    | Outcome.assertFailed => Outcome.assertFailed
  | _ => Outcome.returned (none, self)

/-- The loop of `DatumParser::parse` (lines 1506-1524) over the elements
that are left. -/
def DatumParser.parseLoop (assertActive : Bool) :
    DatumParser → List FieldFormatter → List Datum →
      Outcome (Int × List FieldFormatter × DatumParser)
  | self, formatters, [] => Outcome.returned (0, formatters, self)
  | self, formatters, Datum.string theString :: rest =>
    DatumParser.parseLoop assertActive (self.make theString).2
      (formatters ++ [(self.make theString).1]) rest
  | self, formatters, Datum.map theMap :: rest =>
    match self.makeFromMap assertActive theMap with
    | Outcome.returned (some formatter, self1) =>
      DatumParser.parseLoop assertActive self1 (formatters ++ [formatter]) rest
    | Outcome.returned (none, self1) =>
      DatumParser.parseLoop assertActive self1 formatters rest
    | Outcome.assertFailed => Outcome.assertFailed
  | self, formatters, _ :: _ => Outcome.returned (-1, formatters, self)

/-- `DatumParser::parse` (lines 1497-1526): the return code, the vector
`*formatters` and the parser as the call leaves them. -/
def DatumParser.parse (assertActive : Bool) (self : DatumParser)
    (formatters : List FieldFormatter) (v : Datum) :
    Outcome (Int × List FieldFormatter × DatumParser) :=
  match v with
  | Datum.array theArray => DatumParser.parseLoop assertActive self formatters theArray
  | _ => Outcome.returned (-1, formatters, self)

/-- The data members of `RecordJsonFormatter` that `setFormat` touches. -/
structure RecordJsonFormatter where
  d_formatSpec : String
  d_fieldFormatters : List FieldFormatter
  deriving DecidableEq, Repr

/-- `RecordJsonFormatter::setFormat` (lines 1620-1643).  The function
`baljsn::DatumUtil::decode` is defined outside the translated files: it is
the parameter `decode`, which gives the return code and the datum loaded for
a format string. -/
def RecordJsonFormatter.setFormat (decode : String → Int × Datum) (assertActive : Bool)
    (self : RecordJsonFormatter) (format : String) : Outcome (Int × RecordJsonFormatter) :=
  if format.isEmpty then Outcome.returned (-1, self)
  else if 0 ≠ (decode format).1 then Outcome.returned ((decode format).1, self)
  else
    match DatumParser.create.parse assertActive [] (decode format).2 with
    | Outcome.returned (rc, formatters, _) =>
      if 0 = rc then
        Outcome.returned (rc, { d_formatSpec := format, d_fieldFormatters := formatters })
      else Outcome.returned (rc, self)
    | Outcome.assertFailed => Outcome.assertFailed

/-- Whether an array element is neither a string nor a map. -/
def isRejected (v : Datum) : Bool := !v.isString && !v.isMap

/-- Whether an array element is a single-entry map `{"attributes": m}` with
`m` a non-empty map, in a build that checks `BSLS_ASSERT`. -/
def tripsAssertion (assertActive : Bool) : Datum → Bool
  | Datum.map [(key, Datum.map theMap)] =>
    assertActive && decide (key = k_KEY_ATTRIBUTES) && !theMap.isEmpty
  | _ => false

/-- Whether an array element ends the loop of `DatumParser::parse`. -/
def stops (assertActive : Bool) (v : Datum) : Bool :=
  isRejected v || tripsAssertion assertActive v

/-- Whether a map element is skipped: it is not a single-entry map whose
value is a map, or the `parse` of the formatter selected by its key returns a
non-zero value. -/
def isSkipped (assertActive : Bool) : Datum → Bool
  | Datum.map [(key, Datum.map theMap)] =>
    match (DatumParser.create.make key).1.parse assertActive theMap with
    | Outcome.returned r => decide (r.1 ≠ 0)
    | Outcome.assertFailed => false
  | Datum.map _ => true
  | _ => false

/-- A decoder that answers every format string with the same return code
and datum. -/
def constantDecode (rc : Int) (datum : Datum) : String → Int × Datum :=
  fun _ => (rc, datum)

end ball

namespace bslma

/-! ## Machine integer lemmas -/

theorem inInt64_toInt64 (x : Int) : InInt64 (toInt64 x) := by
  unfold InInt64 toInt64
  omega

theorem inInt64_zero : InInt64 0 := by
  unfold InInt64
  omega

theorem toInt64_add_neg_cancel {u : Int} (n : Int) (h : InInt64 u) :
    toInt64 (toInt64 (u + toInt64 n) + toInt64 (-toInt64 n)) = u := by
  unfold InInt64 at h
  unfold toInt64
  omega

/-! ## Frame lemmas for allocate and deallocate -/

theorem allocate_numMismatches (P : Platform) (a : TestAllocator) (w : World) (size up : Nat) :
    (allocate P a w size up).alloc.d_numMismatches = a.d_numMismatches := by
  unfold allocate
  dsimp only
  split_ifs <;> rfl

theorem allocate_numBoundsErrors (P : Platform) (a : TestAllocator) (w : World) (size up : Nat) :
    (allocate P a w size up).alloc.d_numBoundsErrors = a.d_numBoundsErrors := by
  unfold allocate
  dsimp only
  split_ifs <;> rfl

theorem deallocate_numMismatches_ge (P : Platform) (a : TestAllocator) (w : World)
    (address : Int) :
    a.d_numMismatches ≤ (deallocate P a w address).alloc.d_numMismatches := by
  unfold deallocate deallocateReport
  dsimp only
  split_ifs <;> simp [deallocateBlock, deallocateRecordAddress]

theorem deallocate_numBoundsErrors_ge (P : Platform) (a : TestAllocator) (w : World)
    (address : Int) :
    a.d_numBoundsErrors ≤ (deallocate P a w address).alloc.d_numBoundsErrors := by
  unfold deallocate deallocateReport
  dsimp only
  split_ifs <;> simp [deallocateBlock, deallocateRecordAddress]

/-- The allocation limit trips exactly when it is zero. -/
theorem limit_trips_iff (a : TestAllocator) (size : Nat) :
    (0 ≤ (allocateRecordRequest a size).d_allocationLimit ∧
      0 > (allocateConsumeLimit (allocateRecordRequest a size)).d_allocationLimit)
    ↔ a.d_allocationLimit = 0 := by
  simp only [allocateRecordRequest, allocateConsumeLimit]
  split_ifs <;> omega

theorem allocate_of_limit_zero (P : Platform) (a : TestAllocator) (w : World) (size up : Nat)
    (hlimit : a.d_allocationLimit = 0) :
    allocate P a w size up =
      ⟨AllocateOutcome.testAllocatorException (toInt32 size),
        allocateConsumeLimit (allocateRecordRequest a size), w⟩ := by
  unfold allocate
  dsimp only
  rw [if_pos ((limit_trips_iff a size).2 hlimit)]

theorem allocate_of_size_zero (P : Platform) (a : TestAllocator) (w : World) (up : Nat)
    (hlimit : a.d_allocationLimit ≠ 0) :
    allocate P a w 0 up =
      ⟨AllocateOutcome.returned 0, allocateConsumeLimit (allocateRecordRequest a 0), w⟩ := by
  unfold allocate
  dsimp only
  rw [if_neg (fun h => hlimit ((limit_trips_iff a 0).1 h)), if_pos rfl]

theorem allocate_of_upstream_null (P : Platform) (a : TestAllocator) (w : World) (size : Nat)
    (hlimit : a.d_allocationLimit ≠ 0) (hsize : size ≠ 0) :
    allocate P a w size 0 =
      ⟨AllocateOutcome.badAlloc, allocateConsumeLimit (allocateRecordRequest a size),
        allocateUpstream P (allocateConsumeLimit (allocateRecordRequest a size)) w size⟩ := by
  unfold allocate
  dsimp only
  rw [if_neg (fun h => hlimit ((limit_trips_iff a size).1 h)),
    if_neg (fun h => hsize h.symm), if_pos (by simp)]

theorem allocate_of_misaligned (P : Platform) (a : TestAllocator) (w : World) (size up : Nat)
    (hlimit : a.d_allocationLimit ≠ 0) (hsize : size ≠ 0) (hup : up ≠ 0)
    (halign : isAligned up P.k_MAX_ALIGNMENT = false) :
    allocate P a w size up =
      ⟨AllocateOutcome.assertFailed, allocateConsumeLimit (allocateRecordRequest a size),
        allocateUpstream P (allocateConsumeLimit (allocateRecordRequest a size)) w size⟩ := by
  unfold allocate
  dsimp only
  rw [if_neg (fun h => hlimit ((limit_trips_iff a size).1 h)),
    if_neg (fun h => hsize h.symm), if_neg (by exact_mod_cast hup), if_pos (by simp [halign])]

theorem allocate_of_success (P : Platform) (a : TestAllocator) (w : World) (size up : Nat)
    (hlimit : a.d_allocationLimit ≠ 0) (hsize : size ≠ 0) (hup : up ≠ 0)
    (halign : isAligned up P.k_MAX_ALIGNMENT = true) :
    allocate P a w size up =
      allocateBlock P (allocateConsumeLimit (allocateRecordRequest a size))
        (allocateUpstream P (allocateConsumeLimit (allocateRecordRequest a size)) w size)
        size up := by
  unfold allocate
  dsimp only
  rw [if_neg (fun h => hlimit ((limit_trips_iff a size).1 h)),
    if_neg (fun h => hsize h.symm), if_neg (by exact_mod_cast hup), if_neg (by simp [halign])]

/-! ## Blocks after allocate -/

theorem allocateBlock_outcome (P : Platform) (a : TestAllocator) (w : World) (size : Nat)
    (header_p : Int) :
    (allocateBlock P a w size header_p).outcome
      = AllocateOutcome.returned (header_p + P.sizeofBlockHeader) := rfl

theorem allocateBlock_hdr_self (P : Platform) (a : TestAllocator) (w : World) (size : Nat)
    (header_p : Int) :
    ((allocateBlock P a w size header_p).world.hdr header_p).d_magicNumber
      = k_ALLOCATED_MEMORY_MAGIC_NUMBER ∧
    ((allocateBlock P a w size header_p).world.hdr header_p).d_bytes = size ∧
    ((allocateBlock P a w size header_p).world.hdr header_p).d_self_p = a.thisAddr ∧
    ((allocateBlock P a w size header_p).world.hdr header_p).d_id = a.d_numAllocations - 1 := by
  unfold allocateBlock
  simp only [setHdr, Function.update_same]
  by_cases htail : a.d_blockListTail_p = header_p
  · subst htail
    split_ifs <;> simp
  · have htail' : header_p ≠ a.d_blockListTail_p := fun h => htail h.symm
    split_ifs <;> simp [Function.update_apply, htail, htail']

theorem allocateBlock_byte (P : Platform) (a : TestAllocator) (w : World) (size : Nat)
    (header_p : Int) (x : Int) :
    (allocateBlock P a w size header_p).world.byte x =
      if (header_p + P.sizeofBlockHeader - P.k_SENTINEL_SIZE ≤ x
            ∧ x < header_p + P.sizeofBlockHeader)
          ∨ (header_p + P.sizeofBlockHeader + size ≤ x
            ∧ x < header_p + P.sizeofBlockHeader + size + P.k_SENTINEL_SIZE)
      then k_SENTINEL_BYTE else w.byte x := by
  unfold allocateBlock memset
  dsimp only
  split_ifs <;> first | rfl | omega

/-! ## The checks of deallocate -/

theorem underrunLoop_intact (byte : Int → Nat) (pcBegin : Int) :
    ∀ (n : Nat) (pc : Int), (∀ x : Int, pc - n < x → x ≤ pc → byte x = k_SENTINEL_BYTE) →
      underrunLoop byte pcBegin pc n = 0
  | 0, _, _ => rfl
  | n + 1, pc, h => by
    have hpc : byte pc = k_SENTINEL_BYTE := h pc (by push_cast; omega) (le_refl _)
    have hrest := underrunLoop_intact byte pcBegin n (pc - 1)
      (fun x h1 h2 => h x (by push_cast; omega) (by omega))
    simp [underrunLoop, hpc, hrest]

theorem overrunLoop_intact (byte : Int → Nat) (pcBegin : Int) :
    ∀ (n : Nat) (pc : Int), (∀ x : Int, pc ≤ x → x < pc + n → byte x = k_SENTINEL_BYTE) →
      overrunLoop byte pcBegin pc n = 0
  | 0, _, _ => rfl
  | n + 1, pc, h => by
    have hpc : byte pc = k_SENTINEL_BYTE := h pc (le_refl _) (by push_cast; omega)
    have hrest := overrunLoop_intact byte pcBegin n (pc + 1)
      (fun x h1 h2 => h x (by omega) (by push_cast; omega))
    simp [overrunLoop, hpc, hrest]

theorem miscError_of_allocatedBlock {P : Platform} {a : TestAllocator} {w : World}
    {address : Int} {size : Nat} (h : AllocatedBlock P a w address size) :
    miscError P a w address = false := by
  have hsize : ¬ (w.hdr (address - P.sizeofBlockHeader)).d_bytes ≤ 0 := by
    rw [h.bytes]
    exact Nat.not_le.2 h.size_pos
  unfold miscError
  simp [h.aligned, h.magic, h.self, hsize]

theorem miscError_of_wrong_allocator {P : Platform} {a b : TestAllocator} {w : World}
    {address : Int} {size : Nat} (h : AllocatedBlock P a w address size)
    (hab : a.thisAddr ≠ b.thisAddr) :
    miscError P b w address = true := by
  have hba : b.thisAddr ≠ a.thisAddr := fun e => hab e.symm
  unfold miscError
  simp [h.aligned, h.magic, h.self, hba]

theorem underrunBy_of_intact {P : Platform} {a : TestAllocator} {w : World}
    {address : Int} {size : Nat} (h : SentinelsIntact P w address size) :
    underrunBy P a w address = 0 := by
  unfold underrunBy
  split_ifs
  · rfl
  · exact underrunLoop_intact _ _ _ _ (fun x h1 h2 => h.before x (by omega) (by omega))

theorem overrunBy_of_intact {P : Platform} {a : TestAllocator} {w : World}
    {address : Int} {size : Nat} (hblock : AllocatedBlock P a w address size)
    (h : SentinelsIntact P w address size) :
    overrunBy P a w address = 0 := by
  unfold overrunBy
  dsimp only
  rw [hblock.bytes]
  split_ifs
  · rfl
  · rfl
  · exact overrunLoop_intact _ _ _ _ (fun x h1 h2 => h.after x h1 h2)

theorem miscError_congr (P : Platform) {a b : TestAllocator} (w : World) (address : Int)
    (hab : a.thisAddr = b.thisAddr) : miscError P a w address = miscError P b w address := by
  unfold miscError
  rw [hab]

theorem underrunBy_congr (P : Platform) {a b : TestAllocator} (w : World) (address : Int)
    (hab : a.thisAddr = b.thisAddr) : underrunBy P a w address = underrunBy P b w address := by
  unfold underrunBy
  rw [miscError_congr P w address hab]

theorem overrunBy_congr (P : Platform) {a b : TestAllocator} (w : World) (address : Int)
    (hab : a.thisAddr = b.thisAddr) : overrunBy P a w address = overrunBy P b w address := by
  unfold overrunBy
  rw [miscError_congr P w address hab, underrunBy_congr P w address hab]

theorem miscError_recordAddress (P : Platform) (a : TestAllocator) (w : World)
    (address q : Int) :
    miscError P (deallocateRecordAddress a q) w address = miscError P a w address :=
  miscError_congr P w address rfl

theorem underrunBy_recordAddress (P : Platform) (a : TestAllocator) (w : World)
    (address q : Int) :
    underrunBy P (deallocateRecordAddress a q) w address = underrunBy P a w address :=
  underrunBy_congr P w address rfl

theorem overrunBy_recordAddress (P : Platform) (a : TestAllocator) (w : World)
    (address q : Int) :
    overrunBy P (deallocateRecordAddress a q) w address = overrunBy P a w address :=
  overrunBy_congr P w address rfl

/-- A call of `deallocate` on a non-null address for which an error is
detected goes through the reporting path. -/
theorem deallocate_of_error (P : Platform) (a : TestAllocator) (w : World) (address : Int)
    (hnonnull : address ≠ 0)
    (herror : miscError P a w address = true ∨ overrunBy P a w address ≠ 0
      ∨ underrunBy P a w address ≠ 0) :
    deallocate P a w address =
      deallocateReport P (deallocateRecordAddress a address) w address := by
  unfold deallocate
  dsimp only
  rw [if_neg (fun h => hnonnull h.symm), miscError_recordAddress, overrunBy_recordAddress,
    underrunBy_recordAddress, if_pos herror]

/-- A call of `deallocate` on a non-null address for which no error is detected
goes through the releasing path. -/
theorem deallocate_of_valid (P : Platform) (a : TestAllocator) (w : World) (address : Int)
    (hnonnull : address ≠ 0) (hmisc : miscError P a w address = false)
    (hover : overrunBy P a w address = 0) (hunder : underrunBy P a w address = 0) :
    deallocate P a w address =
      deallocateBlock P (deallocateRecordAddress a address) w address := by
  unfold deallocate
  dsimp only
  rw [if_neg (fun h => hnonnull h.symm), miscError_recordAddress, overrunBy_recordAddress,
    underrunBy_recordAddress, hmisc, hover, hunder, if_neg (by simp)]

/-- A successful `allocate(size)` returns the address just past the header
obtained from upstream and leaves an allocated block with intact sentinels. -/
theorem allocate_success_block (P : Platform) (a : TestAllocator) (w : World) (size up : Nat)
    (hlimit : a.d_allocationLimit ≠ 0) (hsize : size ≠ 0) (hup : up ≠ 0)
    (halign : isAligned up P.k_MAX_ALIGNMENT = true) :
    (allocate P a w size up).outcome
      = AllocateOutcome.returned ((up : Int) + P.sizeofBlockHeader) ∧
    AllocatedBlock P (allocate P a w size up).alloc (allocate P a w size up).world
      ((up : Int) + P.sizeofBlockHeader) size ∧
    SentinelsIntact P (allocate P a w size up).world ((up : Int) + P.sizeofBlockHeader) size := by
  rw [allocate_of_success P a w size up hlimit hsize hup halign]
  have hback : (up : Int) + P.sizeofBlockHeader - P.sizeofBlockHeader = up := by omega
  obtain ⟨hmagic, hbytes, hself, _⟩ := allocateBlock_hdr_self P
    (allocateConsumeLimit (allocateRecordRequest a size))
    (allocateUpstream P (allocateConsumeLimit (allocateRecordRequest a size)) w size) size up
  refine ⟨rfl, ⟨?_, ?_, ?_, ?_, ?_, ?_⟩, ⟨?_, ?_⟩⟩
  · omega
  · rw [hback]; exact halign
  · rw [hback]; exact hmagic
  · rw [hback]; exact hbytes
  · omega
  · rw [hback]; exact hself
  · intro x h1 h2
    rw [allocateBlock_byte, if_pos (Or.inl ⟨h1, h2⟩)]
  · intro x h1 h2
    rw [allocateBlock_byte, if_pos (Or.inr ⟨h1, h2⟩)]

theorem overrunLoop_first (byte : Int → Nat) (pcBegin pc : Int) (n : Nat)
    (hbyte : byte pc ≠ k_SENTINEL_BYTE) (hn : 0 < n) :
    overrunLoop byte pcBegin pc n = toInt32 (pc + 1 - pcBegin) := by
  obtain ⟨m, rfl⟩ : ∃ m, n = m + 1 := ⟨n - 1, by omega⟩
  have hne : k_SENTINEL_BYTE ≠ byte pc := fun h => hbyte h.symm
  simp [overrunLoop, hne]

theorem deallocateReport_numBoundsErrors (P : Platform) (a : TestAllocator) (w : World)
    (address : Int) :
    (deallocateReport P a w address).alloc.d_numBoundsErrors =
      if miscError P a w address then a.d_numBoundsErrors else a.d_numBoundsErrors + 1 := by
  unfold deallocateReport
  dsimp only
  split_ifs <;> rfl

theorem deallocateReport_numMismatches (P : Platform) (a : TestAllocator) (w : World)
    (address : Int) :
    (deallocateReport P a w address).alloc.d_numMismatches =
      if miscError P a w address then a.d_numMismatches + 1 else a.d_numMismatches := by
  unfold deallocateReport
  dsimp only
  split_ifs <;> rfl

/-- The byte statistics of `allocate` stay in the 64-bit range. -/
theorem allocate_byteCounts_inInt64 (P : Platform) (a : TestAllocator) (w : World)
    (size up : Nat)
    (h : InInt64 a.d_numBytesInUse ∧ InInt64 a.d_numBytesMax ∧ InInt64 a.d_numBytesTotal) :
    InInt64 (allocate P a w size up).alloc.d_numBytesInUse ∧
    InInt64 (allocate P a w size up).alloc.d_numBytesMax ∧
    InInt64 (allocate P a w size up).alloc.d_numBytesTotal := by
  unfold allocate
  dsimp only
  split_ifs
  · exact h
  · exact h
  · exact h
  · refine ⟨inInt64_toInt64 _, ?_, inInt64_toInt64 _⟩
    unfold allocateBlock
    dsimp only
    split_ifs
    · exact inInt64_toInt64 _
    · exact h.2.1
  · exact h

/-- The byte statistics of `deallocate` stay in the 64-bit range. -/
theorem deallocate_byteCounts_inInt64 (P : Platform) (a : TestAllocator) (w : World)
    (address : Int)
    (h : InInt64 a.d_numBytesInUse ∧ InInt64 a.d_numBytesMax ∧ InInt64 a.d_numBytesTotal) :
    InInt64 (deallocate P a w address).alloc.d_numBytesInUse ∧
    InInt64 (deallocate P a w address).alloc.d_numBytesMax ∧
    InInt64 (deallocate P a w address).alloc.d_numBytesTotal := by
  unfold deallocate
  dsimp only
  split_ifs
  · exact h
  · unfold deallocateReport
    dsimp only
    split_ifs <;> exact h
  · exact ⟨inInt64_toInt64 _, h.2.1, h.2.2⟩

/-- The byte statistics of a reachable allocator are 64-bit integers. -/
theorem Reachable.byteCounts_inInt64 {P : Platform} {a : TestAllocator} {w : World}
    (h : Reachable P a w) :
    InInt64 a.d_numBytesInUse ∧ InInt64 a.d_numBytesMax ∧ InInt64 a.d_numBytesTotal := by
  induction h with
  | create => exact ⟨inInt64_zero, inInt64_zero, inInt64_zero⟩
  | setNoAbort _ _ ih => exact ih
  | setQuiet _ _ ih => exact ih
  | setVerbose _ _ ih => exact ih
  | setAllocationLimit _ _ _ ih => exact ih
  | allocate size up _ _ _ ih => exact allocate_byteCounts_inInt64 _ _ _ _ _ ih
  | deallocate address _ _ ih => exact deallocate_byteCounts_inInt64 _ _ _ _ ih
  | clientWrite _ _ _ _ ih => exact ih

/-! ## Doubly linked segments -/

theorem setHdr_same (hdr : Int → TestAllocator_BlockHeader) (p : Int)
    (f : TestAllocator_BlockHeader → TestAllocator_BlockHeader) :
    setHdr hdr p f p = f (hdr p) := by
  unfold setHdr
  exact Function.update_same _ _ _

theorem setHdr_of_ne (hdr : Int → TestAllocator_BlockHeader) (p : Int)
    (f : TestAllocator_BlockHeader → TestAllocator_BlockHeader) {x : Int} (hx : x ≠ p) :
    setHdr hdr p f x = hdr x := by
  unfold setHdr
  exact Function.update_noteq hx _ _

/-- A segment only depends on the links of its own headers. -/
theorem DSeg.congr {hdr hdr' : Int → TestAllocator_BlockHeader} :
    ∀ {L : List Int} {prev p nxt last : Int},
      (∀ x ∈ L, (hdr' x).d_prev_p = (hdr x).d_prev_p ∧ (hdr' x).d_next_p = (hdr x).d_next_p) →
      DSeg hdr L prev p nxt last → DSeg hdr' L prev p nxt last
  | [], _, _, _, _, _, h => h
  | x :: xs, _, _, _, _, hlinks, h => by
    obtain ⟨hp, hx, hprev, hrest⟩ := h
    obtain ⟨h1, h2⟩ := hlinks x (List.mem_cons_self _ _)
    refine ⟨hp, hx, by rw [h1]; exact hprev, ?_⟩
    rw [h2]
    exact DSeg.congr (fun y hy => hlinks y (List.mem_cons_of_mem _ hy)) hrest

theorem DSeg.append {hdr : Int → TestAllocator_BlockHeader} :
    ∀ {l1 l2 : List Int} {prev p nxt last : Int},
      DSeg hdr (l1 ++ l2) prev p nxt last ↔
        ∃ mid midLast, DSeg hdr l1 prev p mid midLast ∧ DSeg hdr l2 midLast mid nxt last
  | [], l2, prev, p, nxt, last => by
    constructor
    · intro h
      exact ⟨p, prev, ⟨rfl, rfl⟩, h⟩
    · rintro ⟨mid, midLast, ⟨h1, h2⟩, h⟩
      subst h1 h2
      exact h
  | x :: xs, l2, prev, p, nxt, last => by
    constructor
    · rintro ⟨hp, hx, hprev, hrest⟩
      obtain ⟨mid, midLast, h1, h2⟩ := DSeg.append.1 hrest
      exact ⟨mid, midLast, ⟨hp, hx, hprev, h1⟩, h2⟩
    · rintro ⟨mid, midLast, ⟨hp, hx, hprev, h1⟩, h2⟩
      exact ⟨hp, hx, hprev, DSeg.append.2 ⟨mid, midLast, h1, h2⟩⟩

theorem DSeg.ne_zero {hdr : Int → TestAllocator_BlockHeader} :
    ∀ {L : List Int} {prev p nxt last : Int}, DSeg hdr L prev p nxt last →
      ∀ x ∈ L, x ≠ 0
  | [], _, _, _, _, _, _, hx => absurd hx (List.not_mem_nil _)
  | y :: ys, _, _, _, _, h, x, hx => by
    obtain ⟨_, hy, _, hrest⟩ := h
    rcases List.mem_cons.1 hx with rfl | hx'
    · exact hy
    · exact DSeg.ne_zero hrest x hx'

/-- The last header of a non-empty segment belongs to it and points to the
successor of the segment. -/
theorem DSeg.last_spec {hdr : Int → TestAllocator_BlockHeader} :
    ∀ {L : List Int} {prev p nxt last : Int}, DSeg hdr L prev p nxt last → L ≠ [] →
      last ∈ L ∧ (hdr last).d_next_p = nxt
  | [], _, _, _, _, _, hne => absurd rfl hne
  | [x], _, _, _, _, h, _ => by
    obtain ⟨_, _, _, hnext, hlast⟩ := h
    subst hlast
    exact ⟨List.mem_singleton.2 rfl, hnext⟩
  | x :: y :: ys, _, _, _, _, h, _ => by
    obtain ⟨_, _, _, hrest⟩ := h
    obtain ⟨hmem, hnext⟩ := DSeg.last_spec hrest (List.cons_ne_nil _ _)
    exact ⟨List.mem_cons_of_mem _ hmem, hnext⟩

/-- Redirecting the `d_next_p` of the last header of a segment redirects the
segment. -/
theorem DSeg.set_last_next {hdr : Int → TestAllocator_BlockHeader} (n : Int) :
    ∀ {L : List Int} {prev p nxt last : Int}, DSeg hdr L prev p nxt last → L ≠ [] →
      L.Nodup →
      DSeg (setHdr hdr last (fun b => { b with d_next_p := n })) L prev p n last
  | [], _, _, _, _, _, hne, _ => absurd rfl hne
  | [x], _, _, _, _, h, _, _ => by
    obtain ⟨hp, hx, hprev, _, hlast⟩ := h
    subst hlast
    refine ⟨hp, hx, ?_, ?_, rfl⟩
    · rw [setHdr_same]; exact hprev
    · rw [setHdr_same]
  | x :: y :: ys, _, _, _, last, h, _, hnodup => by
    obtain ⟨hp, hx, hprev, hrest⟩ := h
    have hnodup' : (y :: ys).Nodup := (List.nodup_cons.1 hnodup).2
    have hxnot : x ∉ y :: ys := (List.nodup_cons.1 hnodup).1
    obtain ⟨hmem, _⟩ := DSeg.last_spec hrest (List.cons_ne_nil _ _)
    have hxl : x ≠ last := fun e => hxnot (e ▸ hmem)
    have hIH := DSeg.set_last_next n hrest (List.cons_ne_nil _ _) hnodup'
    refine ⟨hp, hx, ?_, ?_⟩
    · rw [setHdr_of_ne _ _ _ hxl]; exact hprev
    · rw [setHdr_of_ne _ _ _ hxl]; exact hIH

/-- Redirecting the `d_prev_p` of the first header of a segment changes the
predecessor of the segment. -/
theorem DSeg.set_first_prev {hdr : Int → TestAllocator_BlockHeader} (q : Int)
    {y : Int} {ys : List Int} {prev p nxt last : Int}
    (h : DSeg hdr (y :: ys) prev p nxt last) (hnodup : (y :: ys).Nodup) :
    DSeg (setHdr hdr y (fun b => { b with d_prev_p := q })) (y :: ys) q p nxt last := by
  obtain ⟨hp, hy, _, hrest⟩ := h
  have hynot : y ∉ ys := (List.nodup_cons.1 hnodup).1
  refine ⟨hp, hy, ?_, ?_⟩
  · rw [setHdr_same]
  · rw [setHdr_same]
    refine DSeg.congr (fun x hx => ?_) hrest
    have hxy : x ≠ y := fun e => hynot (e ▸ hx)
    rw [setHdr_of_ne _ _ _ hxy]
    exact ⟨rfl, rfl⟩

/-- Unlinking a header of a well-formed list (lines 682-694) leaves the list
without that header, the order of the other headers being kept. -/
theorem unlink_dseg {hdr : Int → TestAllocator_BlockHeader} {head tail h : Int}
    {l1 l2 : List Int} (hseg : DSeg hdr (l1 ++ h :: l2) 0 head 0 tail)
    (hnodup : (l1 ++ h :: l2).Nodup) :
    DSeg (unlinkHdr hdr h) (l1 ++ l2) 0 (unlinkHead hdr head h) 0 (unlinkTail hdr tail h) := by
  obtain ⟨hn1, hn2, hdisj⟩ := List.nodup_append.1 hnodup
  obtain ⟨hh2, hn2'⟩ := List.nodup_cons.1 hn2
  have hh1 : h ∉ l1 := fun hm => hdisj hm (List.mem_cons_self _ _)
  have hdisj' : ∀ x ∈ l1, x ∉ l2 := fun x hx hx2 => hdisj hx (List.mem_cons_of_mem _ hx2)
  obtain ⟨mid, ml, hS1, hS2⟩ := DSeg.append.1 hseg
  obtain ⟨hmid, hh0, hprev, hS3⟩ := hS2
  subst hmid
  by_cases hl1 : l1 = []
  · -- the header is the first of the list
    subst hl1
    obtain ⟨hhead, hml⟩ := hS1
    subst hml
    have hUP : unlinkPrev hdr mid = hdr := by
      unfold unlinkPrev
      rw [if_neg (by rw [hprev]; simp)]
    have hUH : unlinkHead hdr head mid = (hdr mid).d_next_p := by
      unfold unlinkHead
      rw [if_neg (by rw [hprev]; simp)]
    rw [hUH]
    unfold unlinkHdr unlinkTail
    rw [hUP]
    cases l2 with
    | nil =>
      obtain ⟨hnext, htail⟩ := hS3
      rw [if_neg (by rw [hnext]; simp), if_neg (by rw [hnext]; simp)]
      exact ⟨hnext, hprev⟩
    | cons y ys =>
      have hy : (hdr mid).d_next_p = y := hS3.1
      have hy0 : y ≠ 0 := hS3.2.1
      rw [if_pos (by rw [hy]; exact hy0), if_pos (by rw [hy]; exact hy0), hy, hprev]
      rw [hy] at hS3
      exact DSeg.set_first_prev 0 hS3 hn2'
  · -- the header has a predecessor, the last header of `l1`
    obtain ⟨hmlmem, hmlnext⟩ := DSeg.last_spec hS1 hl1
    have hml0 : ml ≠ 0 := DSeg.ne_zero hS1 ml hmlmem
    have hmlh : mid ≠ ml := fun e => hh1 (e ▸ hmlmem)
    have hUP : unlinkPrev hdr mid
        = setHdr hdr ml (fun b => { b with d_next_p := (hdr mid).d_next_p }) := by
      unfold unlinkPrev
      rw [if_pos (by rw [hprev]; exact hml0), hprev]
    have hUH : unlinkHead hdr head mid = head := by
      unfold unlinkHead
      rw [if_pos (by rw [hprev]; exact hml0)]
    have hself : unlinkPrev hdr mid mid = hdr mid := by
      rw [hUP, setHdr_of_ne _ _ _ hmlh]
    have hS1' : DSeg (unlinkPrev hdr mid) l1 0 head (hdr mid).d_next_p ml := by
      rw [hUP]
      exact DSeg.set_last_next _ hS1 hl1 hn1
    have hS3' : DSeg (unlinkPrev hdr mid) l2 mid (hdr mid).d_next_p 0 tail := by
      refine DSeg.congr (fun x hx => ?_) hS3
      have hxml : x ≠ ml := fun e => hdisj' ml hmlmem (e ▸ hx)
      rw [hUP, setHdr_of_ne _ _ _ hxml]
      exact ⟨rfl, rfl⟩
    rw [hUH]
    unfold unlinkHdr unlinkTail
    rw [hself]
    cases l2 with
    | nil =>
      obtain ⟨hnext, htail⟩ := hS3
      rw [if_neg (by rw [hnext]; simp), if_neg (by rw [hnext]; simp), hprev]
      rw [hnext] at hS1'
      exact DSeg.append.2 ⟨0, ml, hS1', rfl, rfl⟩
    | cons y ys =>
      have hy : (hdr mid).d_next_p = y := hS3.1
      have hy0 : y ≠ 0 := hS3.2.1
      rw [if_pos (by rw [hy]; exact hy0), if_pos (by rw [hy]; exact hy0), hy, hprev]
      rw [hy] at hS1' hS3'
      refine DSeg.append.2 ⟨y, ml, ?_, DSeg.set_first_prev ml hS3' hn2'⟩
      refine DSeg.congr (fun x hx => ?_) hS1'
      have hxy : x ≠ y := fun e => hdisj' x hx (e ▸ List.mem_cons_self _ _)
      rw [setHdr_of_ne _ _ _ hxy]
      exact ⟨rfl, rfl⟩

/-- Unlinking changes links only: every magic number stays. -/
theorem unlinkHdr_magic (hdr : Int → TestAllocator_BlockHeader) (h x : Int) :
    (unlinkHdr hdr h x).d_magicNumber = (hdr x).d_magicNumber := by
  have hset : ∀ (g : Int → TestAllocator_BlockHeader) (q y : Int)
      (f : TestAllocator_BlockHeader → TestAllocator_BlockHeader),
      (∀ b, (f b).d_magicNumber = b.d_magicNumber) →
      (setHdr g q f y).d_magicNumber = (g y).d_magicNumber := by
    intro g q y f hf
    by_cases hy : y = q
    · subst hy
      rw [setHdr_same, hf]
    · rw [setHdr_of_ne _ _ _ hy]
  have hprev : ∀ y, (unlinkPrev hdr h y).d_magicNumber = (hdr y).d_magicNumber := by
    intro y
    unfold unlinkPrev
    split_ifs
    · refine hset _ _ _ _ ?_
      intro b
      rfl
    · rfl
  unfold unlinkHdr
  split_ifs
  · refine Eq.trans (hset _ _ _ _ ?_) (hprev x)
    intro b
    rfl
  · exact hprev x

theorem miscError_of_magic {P : Platform} {a : TestAllocator} {w : World} {address : Int}
    (hmagic : (w.hdr (address - P.sizeofBlockHeader)).d_magicNumber
      ≠ k_ALLOCATED_MEMORY_MAGIC_NUMBER) :
    miscError P a w address = true := by
  have hmagic' : k_ALLOCATED_MEMORY_MAGIC_NUMBER
      ≠ (w.hdr (address - P.sizeofBlockHeader)).d_magicNumber := fun e => hmagic e.symm
  unfold miscError
  dsimp only
  split_ifs <;> rfl

/-- In quiet mode a call of `deallocate` that finds a header error only counts a
mismatch (and records the address). -/
theorem deallocate_quiet_mismatch (P : Platform) (a : TestAllocator) (w : World)
    (address : Int) (hnonnull : address ≠ 0) (hmisc : miscError P a w address = true)
    (hquiet : a.d_quietFlag = true) :
    deallocate P a w address =
      ⟨Completion.returned,
        { a with d_lastDeallocatedAddress_p := address,
                 d_numMismatches := a.d_numMismatches + 1 }, w⟩ := by
  rw [deallocate_of_error P a w address hnonnull (Or.inl hmisc)]
  have hmisc' : miscError P (deallocateRecordAddress a address) w address = true := by
    rw [miscError_recordAddress]; exact hmisc
  have hquiet' : (deallocateRecordAddress a address).d_quietFlag = true := hquiet
  unfold deallocateReport
  dsimp only
  rw [if_pos hquiet', if_pos hmisc', if_pos hmisc']
  rfl

/-- Releasing a header of the block list leaves the list without it. -/
theorem deallocateBlock_blockList (P : Platform) (a : TestAllocator) (w : World)
    (address : Int) (L : List Int) (hlist : BlockList a w L)
    (hmem : address - P.sizeofBlockHeader ∈ L) :
    BlockList (deallocateBlock P a w address).alloc (deallocateBlock P a w address).world
      (L.erase (address - P.sizeofBlockHeader)) := by
  obtain ⟨hseg, hnodup⟩ := hlist
  refine ⟨?_, hnodup.erase _⟩
  obtain ⟨l1, l2, rfl⟩ := List.append_of_mem hmem
  have hh1 : address - P.sizeofBlockHeader ∉ l1 := fun hm =>
    (List.nodup_append.1 hnodup).2.2 hm (List.mem_cons_self _ _)
  rw [List.erase_append_right _ hh1, List.erase_cons_head]
  have hseg1 : DSeg (setHdr w.hdr (address - P.sizeofBlockHeader)
      (fun b => { b with d_magicNumber := k_DEALLOCATED_MEMORY_MAGIC_NUMBER }))
      (l1 ++ (address - P.sizeofBlockHeader) :: l2) 0 a.d_blockListHead_p 0
      a.d_blockListTail_p := by
    refine DSeg.congr (fun x _ => ?_) hseg
    by_cases hx : x = address - P.sizeofBlockHeader
    · subst hx
      rw [setHdr_same]
      exact ⟨rfl, rfl⟩
    · rw [setHdr_of_ne _ _ _ hx]
      exact ⟨rfl, rfl⟩
  exact unlink_dseg hseg1 hnodup

/-- Every call of `allocate` decrements a non-negative allocation limit by one
and leaves a negative one alone. -/
theorem allocate_allocationLimit (P : Platform) (a : TestAllocator) (w : World)
    (size up : Nat) :
    (allocate P a w size up).alloc.d_allocationLimit =
      if 0 ≤ a.d_allocationLimit then a.d_allocationLimit - 1 else a.d_allocationLimit := by
  have h : (allocate P a w size up).alloc.d_allocationLimit
      = (allocateConsumeLimit (allocateRecordRequest a size)).d_allocationLimit := by
    unfold allocate
    dsimp only
    split_ifs <;> rfl
  rw [h]
  rfl

/-- When the limit does not trip and upstream succeeds, `allocate` returns. -/
theorem allocate_returns (P : Platform) (a : TestAllocator) (w : World) (size up : Nat)
    (hlimit : a.d_allocationLimit ≠ 0) (hup : up ≠ 0)
    (halign : isAligned up P.k_MAX_ALIGNMENT = true) :
    ∃ p, (allocate P a w size up).outcome = AllocateOutcome.returned p := by
  by_cases hsize : size = 0
  · subst hsize
    rw [allocate_of_size_zero P a w up hlimit]
    exact ⟨0, rfl⟩
  · rw [allocate_of_success P a w size up hlimit hsize hup halign]
    exact ⟨_, rfl⟩

/-- With the limit at `k`, `k` calls served by upstream all return and leave
the limit at 0. -/
theorem allocateAll_within_limit (P : Platform) :
    ∀ (requests : List (Nat × Nat)) (a : TestAllocator) (w : World) (k : Nat),
      a.d_allocationLimit = k → requests.length = k →
      (∀ request ∈ requests,
        request.2 ≠ 0 ∧ isAligned request.2 P.k_MAX_ALIGNMENT = true) →
      (∀ o ∈ (allocateAll P a w requests).1, ∃ p, o = AllocateOutcome.returned p) ∧
      (allocateAll P a w requests).1.length = k ∧
      (allocateAll P a w requests).2.1.d_allocationLimit = 0
  | [], a, w, k, hlimit, hlen, _ => by
    have hk : k = 0 := by simpa using hlen.symm
    subst hk
    refine ⟨fun o ho => absurd ho (List.not_mem_nil _), rfl, ?_⟩
    simpa [allocateAll] using hlimit
  | request :: rest, a, w, k, hlimit, hlen, hup => by
    obtain ⟨j, rfl⟩ : ∃ j, k = j + 1 := ⟨rest.length, by simpa using hlen.symm⟩
    have hlimit0 : a.d_allocationLimit ≠ 0 := by rw [hlimit]; push_cast; omega
    obtain ⟨hup1, halign1⟩ := hup request (List.mem_cons_self _ _)
    have hnext : (allocate P a w request.1 request.2).alloc.d_allocationLimit = (j : Nat) := by
      rw [allocate_allocationLimit, hlimit]
      push_cast
      rw [if_pos (by omega)]
      omega
    obtain ⟨hall, hlen', hfinal⟩ := allocateAll_within_limit P rest
      (allocate P a w request.1 request.2).alloc (allocate P a w request.1 request.2).world j
      hnext (by simpa using hlen) (fun r hr => hup r (List.mem_cons_of_mem _ hr))
    refine ⟨?_, ?_, hfinal⟩
    · intro o ho
      rcases List.mem_cons.1 ho with rfl | ho'
      · exact allocate_returns P a w request.1 request.2 hlimit0 hup1 halign1
      · exact hall o ho'
    · show (List.length _) + 1 = j + 1
      rw [hlen']

/-- The error counters of a reachable allocator are counts. -/
theorem Reachable.errorCounts_nonneg {P : Platform} {a : TestAllocator} {w : World}
    (h : Reachable P a w) : 0 ≤ a.d_numMismatches ∧ 0 ≤ a.d_numBoundsErrors := by
  induction h with
  | create => exact ⟨le_refl _, le_refl _⟩
  | setNoAbort _ _ ih => exact ih
  | setQuiet _ _ ih => exact ih
  | setVerbose _ _ ih => exact ih
  | setAllocationLimit _ _ _ ih => exact ih
  | allocate size up _ _ _ ih =>
    rw [allocate_numMismatches, allocate_numBoundsErrors]
    exact ih
  | deallocate address _ _ ih =>
    exact ⟨le_trans ih.1 (deallocate_numMismatches_ge _ _ _ _),
      le_trans ih.2 (deallocate_numBoundsErrors_ge _ _ _ _)⟩
  | clientWrite _ _ _ _ ih => exact ih

/-! ## Statistics of successful calls -/

theorem toInt64_add_of_inInt64 (u : Int) (n : Nat) (h : InInt64 (u + n)) :
    toInt64 (u + toInt64 n) = u + n := by
  unfold InInt64 at h
  unfold toInt64
  omega

theorem toInt64_sub_of_inInt64 (u : Int) (n : Nat) (h : InInt64 (u - n)) :
    toInt64 (u + toInt64 (-toInt64 n)) = u - n := by
  unfold InInt64 at h
  unfold toInt64
  omega

/-- A call of `deallocate` on a live block with intact sentinels goes through
the releasing path. -/
theorem deallocate_of_live {P : Platform} {a : TestAllocator} {w : World} {p : Int}
    {size : Nat} (hblock : AllocatedBlock P a w p size) (hsent : SentinelsIntact P w p size) :
    deallocate P a w p = deallocateBlock P (deallocateRecordAddress a p) w p :=
  deallocate_of_valid P a w p hblock.nonnull (miscError_of_allocatedBlock hblock)
    (overrunBy_of_intact hblock hsent) (underrunBy_of_intact hsent)

/-! ## The upstream request -/

/-- Rounding up to the maximal alignment, when `size + k_MAX_ALIGNMENT - 1`
does not wrap. -/
theorem roundUpToMaximalAlignment_spec (P : Platform) (size : Nat)
    (hround : size + P.k_MAX_ALIGNMENT - 1 < 18446744073709551616) :
    P.k_MAX_ALIGNMENT ∣ roundUpToMaximalAlignment P size ∧
    size ≤ roundUpToMaximalAlignment P size ∧
    roundUpToMaximalAlignment P size < size + P.k_MAX_ALIGNMENT := by
  have hA := P.alignment_pos
  have hdm := Nat.div_add_mod (size + P.k_MAX_ALIGNMENT - 1) P.k_MAX_ALIGNMENT
  have hmod := Nat.mod_lt (size + P.k_MAX_ALIGNMENT - 1) hA
  have hcomm : P.k_MAX_ALIGNMENT * ((size + P.k_MAX_ALIGNMENT - 1) / P.k_MAX_ALIGNMENT)
      = (size + P.k_MAX_ALIGNMENT - 1) / P.k_MAX_ALIGNMENT * P.k_MAX_ALIGNMENT :=
    Nat.mul_comm _ _
  rw [hcomm] at hdm
  have h1 : toSizeT (size + P.k_MAX_ALIGNMENT - 1) = size + P.k_MAX_ALIGNMENT - 1 :=
    Nat.mod_eq_of_lt hround
  have hle : (size + P.k_MAX_ALIGNMENT - 1) / P.k_MAX_ALIGNMENT * P.k_MAX_ALIGNMENT
      ≤ size + P.k_MAX_ALIGNMENT - 1 := by omega
  have h2 : roundUpToMaximalAlignment P size
      = (size + P.k_MAX_ALIGNMENT - 1) / P.k_MAX_ALIGNMENT * P.k_MAX_ALIGNMENT := by
    unfold roundUpToMaximalAlignment
    rw [h1]
    exact Nat.mod_eq_of_lt (by omega)
  rw [h2]
  refine ⟨Nat.dvd_mul_left _ _, ?_, ?_⟩ <;> omega

/-- When the limit does not trip and the size is not 0, `allocate` makes
exactly one upstream call, whatever upstream answers. -/
theorem allocate_upstream_log (P : Platform) (a : TestAllocator) (w : World) (size up : Nat)
    (hlimit : a.d_allocationLimit ≠ 0) (hsize : size ≠ 0) :
    (allocate P a w size up).world.upstream =
      w.upstream ++ [UpstreamCall.allocate a.d_allocator_p
        (roundUpToMaximalAlignment P
          (toSizeT (P.sizeofBlockHeader + size + P.k_SENTINEL_SIZE)))] := by
  unfold allocate
  dsimp only
  rw [if_neg (fun h => hlimit ((limit_trips_iff a size).1 h)), if_neg (fun h => hsize h.symm)]
  split_ifs <;> rfl

/-- When the size computation does not wrap, a successful `allocate` leaves
both sentinels filled and inside the block obtained from upstream, writes no
byte of the user segment, and an immediate `deallocate` finds neither an
underrun nor an overrun. -/
theorem allocate_sentinels (P : Platform) (a : TestAllocator) (w : World) (size up : Nat)
    (hlimit : a.d_allocationLimit ≠ 0) (hsize : 0 < size) (hup : up ≠ 0)
    (halign : isAligned up P.k_MAX_ALIGNMENT = true)
    (hnowrap : P.sizeofBlockHeader + size + P.k_SENTINEL_SIZE + P.k_MAX_ALIGNMENT - 1
      < 18446744073709551616) :
    SentinelsIntact P (allocate P a w size up).world ((up : Int) + P.sizeofBlockHeader) size ∧
    (up : Int) ≤ (up : Int) + P.sizeofBlockHeader - P.k_SENTINEL_SIZE ∧
    (up : Int) + P.sizeofBlockHeader + size + P.k_SENTINEL_SIZE
      ≤ (up : Int) + roundUpToMaximalAlignment P
          (toSizeT (P.sizeofBlockHeader + size + P.k_SENTINEL_SIZE)) ∧
    (∀ x : Int, (up : Int) + P.sizeofBlockHeader ≤ x →
      x < (up : Int) + P.sizeofBlockHeader + size →
      (allocate P a w size up).world.byte x = w.byte x) ∧
    underrunBy P (allocate P a w size up).alloc (allocate P a w size up).world
      ((up : Int) + P.sizeofBlockHeader) = 0 ∧
    overrunBy P (allocate P a w size up).alloc (allocate P a w size up).world
      ((up : Int) + P.sizeofBlockHeader) = 0 := by
  obtain ⟨_, hblock, hsent⟩ := allocate_success_block P a w size up hlimit (by omega) hup halign
  have hA := P.alignment_pos
  have hsum : toSizeT (P.sizeofBlockHeader + size + P.k_SENTINEL_SIZE)
      = P.sizeofBlockHeader + size + P.k_SENTINEL_SIZE := Nat.mod_eq_of_lt (by omega)
  obtain ⟨_, hge, _⟩ := roundUpToMaximalAlignment_spec P
    (toSizeT (P.sizeofBlockHeader + size + P.k_SENTINEL_SIZE)) (by rw [hsum]; omega)
  rw [hsum] at hge
  have hlt := P.sentinel_lt_header
  refine ⟨hsent, by omega, ?_, ?_, underrunBy_of_intact hsent, overrunBy_of_intact hblock hsent⟩
  · rw [hsum]
    have : ((P.sizeofBlockHeader + size + P.k_SENTINEL_SIZE : Nat) : Int)
        ≤ roundUpToMaximalAlignment P (P.sizeofBlockHeader + size + P.k_SENTINEL_SIZE) := by
      exact_mod_cast hge
    push_cast at this
    omega
  · intro x h1 h2
    rw [allocate_of_success P a w size up hlimit (by omega) hup halign, allocateBlock_byte,
      if_neg (by omega)]
    rfl

/-! ## The block list after allocate -/

theorem allocateBlock_hdr_other (P : Platform) (a : TestAllocator) (w : World) (size : Nat)
    (header_p : Int) {x : Int} (hx : x ≠ header_p)
    (htail : a.d_blockListHead_p = 0 ∨ x ≠ a.d_blockListTail_p) :
    (allocateBlock P a w size header_p).world.hdr x = w.hdr x := by
  unfold allocateBlock
  dsimp only
  rw [setHdr_of_ne _ _ _ hx]
  split_ifs with hhead
  · have hxt : x ≠ a.d_blockListTail_p := by
      rcases htail with h | h
      · exact absurd h hhead
      · exact h
    rw [setHdr_of_ne _ _ _ hxt, setHdr_of_ne _ _ _ hx, setHdr_of_ne _ _ _ hx,
      setHdr_of_ne _ _ _ hx]
  · rw [setHdr_of_ne _ _ _ hx, setHdr_of_ne _ _ _ hx, setHdr_of_ne _ _ _ hx]

theorem allocateBlock_hdr_tail (P : Platform) (a : TestAllocator) (w : World) (size : Nat)
    (header_p : Int) (hhead : a.d_blockListHead_p ≠ 0) (htail : a.d_blockListTail_p ≠ header_p) :
    (allocateBlock P a w size header_p).world.hdr a.d_blockListTail_p
      = { w.hdr a.d_blockListTail_p with d_next_p := header_p } := by
  unfold allocateBlock
  dsimp only
  rw [setHdr_of_ne _ _ _ htail, if_pos hhead, setHdr_same, setHdr_of_ne _ _ _ htail,
    setHdr_of_ne _ _ _ htail, setHdr_of_ne _ _ _ htail]

theorem allocateBlock_hdr_new_links (P : Platform) (a : TestAllocator) (w : World) (size : Nat)
    (header_p : Int) (htail : a.d_blockListHead_p = 0 ∨ a.d_blockListTail_p ≠ header_p) :
    ((allocateBlock P a w size header_p).world.hdr header_p).d_next_p = 0 ∧
    ((allocateBlock P a w size header_p).world.hdr header_p).d_prev_p
      = if a.d_blockListHead_p ≠ 0 then a.d_blockListTail_p else 0 := by
  unfold allocateBlock
  dsimp only
  rw [setHdr_same]
  split_ifs with hhead
  · have hne : header_p ≠ a.d_blockListTail_p := by
      rcases htail with h | h
      · exact absurd h hhead
      · exact fun e => h e.symm
    rw [setHdr_of_ne _ _ _ hne, setHdr_same, setHdr_same, setHdr_same]
    exact ⟨rfl, rfl⟩
  · rw [setHdr_same, setHdr_same, setHdr_same]
    exact ⟨rfl, rfl⟩

/-- A non-empty list has a non-null head. -/
theorem DSeg.head_eq_zero_iff {hdr : Int → TestAllocator_BlockHeader} {L : List Int}
    {prev p last : Int} (h : DSeg hdr L prev p 0 last) : p = 0 ↔ L = [] := by
  cases L with
  | nil => exact ⟨fun _ => rfl, fun _ => h.1⟩
  | cons x xs =>
    constructor
    · intro hp
      exact absurd (h.1.symm.trans hp) h.2.1
    · intro hnil
      exact absurd hnil (List.cons_ne_nil _ _)

/-- Linking a fresh header at the tail (lines 478-487) appends it to the
list. -/
theorem allocateBlock_blockList (P : Platform) (a : TestAllocator) (w : World) (size : Nat)
    (header_p : Int) (L : List Int) (hlist : BlockList a w L) (hnonnull : header_p ≠ 0)
    (hfresh : header_p ∉ L) :
    BlockList (allocateBlock P a w size header_p).alloc
      (allocateBlock P a w size header_p).world (L ++ [header_p]) := by
  obtain ⟨hseg, hnodup⟩ := hlist
  have hnodup' : (L ++ [header_p]).Nodup :=
    List.nodup_append.2 ⟨hnodup, List.nodup_singleton _,
      fun x hx hx' => hfresh ((List.mem_singleton.1 hx') ▸ hx)⟩
  refine ⟨?_, hnodup'⟩
  by_cases hhead : a.d_blockListHead_p = 0
  · -- the list was empty
    have hL : L = [] := (DSeg.head_eq_zero_iff hseg).1 hhead
    subst hL
    obtain ⟨hnext, hprev⟩ := allocateBlock_hdr_new_links P a w size header_p (Or.inl hhead)
    rw [if_neg (by simp [hhead])] at hprev
    have hh : (allocateBlock P a w size header_p).alloc.d_blockListHead_p = header_p := by
      show (if a.d_blockListHead_p ≠ 0 then a.d_blockListHead_p else header_p) = header_p
      rw [if_neg (by simp [hhead])]
    show DSeg _ [header_p] 0 _ 0 header_p
    rw [hh]
    exact ⟨rfl, hnonnull, hprev, hnext, rfl⟩
  · -- the list was not empty: the old tail is its last header
    have hL : L ≠ [] := fun e => hhead ((DSeg.head_eq_zero_iff hseg).2 e)
    obtain ⟨htmem, _⟩ := DSeg.last_spec hseg hL
    have htail : a.d_blockListTail_p ≠ header_p := fun e => hfresh (e ▸ htmem)
    obtain ⟨hnext, hprev⟩ := allocateBlock_hdr_new_links P a w size header_p (Or.inr htail)
    rw [if_pos hhead] at hprev
    have hh : (allocateBlock P a w size header_p).alloc.d_blockListHead_p
        = a.d_blockListHead_p := by
      show (if a.d_blockListHead_p ≠ 0 then a.d_blockListHead_p else header_p) = _
      rw [if_pos hhead]
    show DSeg _ (L ++ [header_p]) 0 _ 0 header_p
    rw [hh]
    refine DSeg.append.2 ⟨header_p, a.d_blockListTail_p, ?_, rfl, hnonnull, hprev, hnext, rfl⟩
    refine DSeg.congr (fun x hx => ?_) (DSeg.set_last_next header_p hseg hL hnodup)
    have hxh : x ≠ header_p := fun e => hfresh (e ▸ hx)
    by_cases hxt : x = a.d_blockListTail_p
    · subst hxt
      rw [allocateBlock_hdr_tail P a w size header_p hhead htail, setHdr_same]
      exact ⟨rfl, rfl⟩
    · rw [allocateBlock_hdr_other P a w size header_p hxh (Or.inr hxt), setHdr_of_ne _ _ _ hxt]
      exact ⟨rfl, rfl⟩

/-- An address one header past a maximally aligned address is maximally
aligned. -/
theorem isAligned_add_header (P : Platform) (address : Int)
    (halign : isAligned address P.k_MAX_ALIGNMENT = true) :
    isAligned (address + P.sizeofBlockHeader) P.k_MAX_ALIGNMENT = true := by
  unfold isAligned calculateAlignmentOffset at *
  have h0 : ((P.k_MAX_ALIGNMENT : Int) - address) % P.k_MAX_ALIGNMENT = 0 := by
    simpa [eq_comm] using halign
  have hd1 : (P.k_MAX_ALIGNMENT : Int) ∣ (P.k_MAX_ALIGNMENT : Int) - address :=
    Int.dvd_of_emod_eq_zero h0
  have hd2 : (P.k_MAX_ALIGNMENT : Int) ∣ (P.sizeofBlockHeader : Int) := by
    exact_mod_cast Nat.dvd_of_mod_eq_zero P.header_aligned
  have hd3 : (P.k_MAX_ALIGNMENT : Int)
      ∣ (P.k_MAX_ALIGNMENT : Int) - (address + P.sizeofBlockHeader) := by
    have := Int.dvd_sub hd1 hd2
    rwa [sub_sub] at this
  simp [Int.emod_eq_zero_of_dvd hd3]

/-- The last header of a list that ends with `y` is `y`. -/
theorem DSeg.last_of_concat {hdr : Int → TestAllocator_BlockHeader} {l : List Int}
    {y prev p nxt last : Int} (h : DSeg hdr (l ++ [y]) prev p nxt last) : last = y := by
  obtain ⟨_, _, _, h2⟩ := DSeg.append.1 h
  exact h2.2.2.2.2

/-- If both sentinel scans of `deallocate` find nothing, both sentinels are
intact. -/
theorem underrunLoop_eq_zero (byte : Int → Nat) (pcBegin : Int) :
    ∀ (n : Nat) (pc : Int), pc ≤ pcBegin → pcBegin - pc + n < 2147483648 →
      underrunLoop byte pcBegin pc n = 0 →
      ∀ x : Int, pc - n < x → x ≤ pc → byte x = k_SENTINEL_BYTE
  | 0, _, _, _, _, x, h1, h2 => by
    exfalso
    push_cast at h1
    omega
  | n + 1, pc, hle, hsmall, hloop, x, h1, h2 => by
    unfold underrunLoop at hloop
    by_cases hb : k_SENTINEL_BYTE ≠ byte pc
    · rw [if_pos hb] at hloop
      unfold toInt32 at hloop
      push_cast at hsmall
      omega
    · rw [if_neg hb] at hloop
      by_cases hx : x = pc
      · rw [hx]
        exact (not_not.1 hb).symm
      · exact underrunLoop_eq_zero byte pcBegin n (pc - 1) (by omega)
          (by push_cast at hsmall; omega) hloop x (by push_cast at h1; omega) (by omega)

theorem overrunLoop_eq_zero (byte : Int → Nat) (pcBegin : Int) :
    ∀ (n : Nat) (pc : Int), pcBegin ≤ pc → pc - pcBegin + n < 2147483648 →
      overrunLoop byte pcBegin pc n = 0 →
      ∀ x : Int, pc ≤ x → x < pc + n → byte x = k_SENTINEL_BYTE
  | 0, _, _, _, _, x, h1, h2 => by
    exfalso
    push_cast at h2
    omega
  | n + 1, pc, hle, hsmall, hloop, x, h1, h2 => by
    unfold overrunLoop at hloop
    by_cases hb : k_SENTINEL_BYTE ≠ byte pc
    · rw [if_pos hb] at hloop
      unfold toInt32 at hloop
      push_cast at hsmall
      omega
    · rw [if_neg hb] at hloop
      by_cases hx : x = pc
      · rw [hx]
        exact (not_not.1 hb).symm
      · exact overrunLoop_eq_zero byte pcBegin n (pc + 1) (by omega)
          (by push_cast at hsmall; omega) hloop x (by omega) (by push_cast at h2; omega)

/-- Both sentinels are intact as soon as the two scans return 0. -/
theorem sentinelsIntact_of_scans (P : Platform) (w : World) (address : Int) (size : Nat)
    (hunder : underrunLoop w.byte (address - 1) (address - 1) P.k_SENTINEL_SIZE = 0)
    (hover : overrunLoop w.byte (address + size) (address + size) P.k_SENTINEL_SIZE = 0) :
    SentinelsIntact P w address size := by
  have hsmall := P.sentinel_small
  constructor
  · intro x h1 h2
    exact underrunLoop_eq_zero w.byte _ _ _ (le_refl _) (by omega) hunder x (by omega) (by omega)
  · intro x h1 h2
    exact overrunLoop_eq_zero w.byte _ _ _ (le_refl _) (by omega) hover x h1 h2

/-! ## The invariant of the block list -/

/-- What the header checks of `deallocate` (lines 568-584) establish when they
find nothing. -/
theorem miscError_eq_false {P : Platform} {a : TestAllocator} {w : World} {address : Int}
    (h : miscError P a w address = false) :
    isAligned (address - P.sizeofBlockHeader) P.k_MAX_ALIGNMENT = true ∧
    (w.hdr (address - P.sizeofBlockHeader)).d_magicNumber = k_ALLOCATED_MEMORY_MAGIC_NUMBER ∧
    0 < (w.hdr (address - P.sizeofBlockHeader)).d_bytes ∧
    (w.hdr (address - P.sizeofBlockHeader)).d_self_p = a.thisAddr := by
  unfold miscError at h
  dsimp only at h
  split_ifs at h with h1 h2 h3
  push_neg at h1 h2 h3
  exact ⟨by simpa using h1, h2.symm, by omega, h3.2.symm⟩

/-- A call of `deallocate` on the null address changes statistics only. -/
theorem deallocate_of_null (P : Platform) (a : TestAllocator) (w : World) :
    deallocate P a w 0 =
      ⟨Completion.returned,
        { deallocateRecordAddress a 0 with
          d_numDeallocations := a.d_numDeallocations + 1, d_lastDeallocatedNumBytes := 0 },
        w⟩ := rfl

/-- The header checks of `deallocate` (lines 568-584) report an error exactly
when the header is misaligned, or its magic number is not the allocated one,
or its size is zero, or its owner is another allocator. -/
theorem miscError_iff (P : Platform) (a : TestAllocator) (w : World) (address : Int) :
    miscError P a w address = true ↔
      (isAligned (address - P.sizeofBlockHeader) P.k_MAX_ALIGNMENT = false ∨
        (w.hdr (address - P.sizeofBlockHeader)).d_magicNumber
          ≠ k_ALLOCATED_MEMORY_MAGIC_NUMBER ∨
        (w.hdr (address - P.sizeofBlockHeader)).d_bytes = 0 ∨
        (w.hdr (address - P.sizeofBlockHeader)).d_self_p ≠ a.thisAddr) := by
  constructor
  · intro h
    by_contra hc
    push_neg at hc
    obtain ⟨h1, h2, h3, h4⟩ := hc
    have hfalse : miscError P a w address = false := by
      unfold miscError
      dsimp only
      rw [if_neg (by simpa using h1), if_neg (by simpa using h2.symm),
        if_neg (by
          push_neg
          exact ⟨by omega, h4.symm⟩)]
    rw [hfalse] at h
    exact absurd h (by decide)
  · intro h
    by_contra hc
    obtain ⟨h1, h2, h3, h4⟩ := miscError_eq_false (by simpa using hc)
    rcases h with h | h | h | h
    · rw [h1] at h
      exact absurd h (by decide)
    · exact h h2
    · omega
    · exact h h4

/-- The scans are skipped after a header error. -/
theorem scans_of_miscError {P : Platform} {a : TestAllocator} {w : World} {address : Int}
    (h : miscError P a w address = true) :
    underrunBy P a w address = 0 ∧ overrunBy P a w address = 0 := by
  unfold overrunBy underrunBy
  rw [if_pos h, if_pos h]
  exact ⟨rfl, rfl⟩

/-- The two error counters after a call of `deallocate` on a non-null
address. -/
theorem deallocate_errorCounts (P : Platform) (a : TestAllocator) (w : World) (p : Int)
    (hnonnull : p ≠ 0) :
    (deallocate P a w p).alloc.d_numMismatches =
      (if miscError P a w p = true then a.d_numMismatches + 1 else a.d_numMismatches) ∧
    (deallocate P a w p).alloc.d_numBoundsErrors =
      (if miscError P a w p = false ∧ (overrunBy P a w p ≠ 0 ∨ underrunBy P a w p ≠ 0) then
        a.d_numBoundsErrors + 1 else a.d_numBoundsErrors) := by
  by_cases hmisc : miscError P a w p = true
  · rw [deallocate_of_error P a w p hnonnull (Or.inl hmisc), deallocateReport_numMismatches,
      deallocateReport_numBoundsErrors, miscError_recordAddress, if_pos hmisc, if_pos hmisc,
      if_pos hmisc, if_neg (by simp [hmisc])]
    exact ⟨rfl, rfl⟩
  · have hfalse : miscError P a w p = false := by simpa using hmisc
    by_cases hbounds : overrunBy P a w p ≠ 0 ∨ underrunBy P a w p ≠ 0
    · rw [deallocate_of_error P a w p hnonnull (Or.inr hbounds), deallocateReport_numMismatches,
        deallocateReport_numBoundsErrors, miscError_recordAddress, if_neg hmisc, if_neg hmisc,
        if_neg hmisc, if_pos ⟨hfalse, hbounds⟩]
      exact ⟨rfl, rfl⟩
    · push_neg at hbounds
      rw [deallocate_of_valid P a w p hnonnull hfalse hbounds.1 hbounds.2, if_neg hmisc,
        if_neg (by
          intro hc
          rcases hc.2 with h | h
          · exact h hbounds.1
          · exact h hbounds.2)]
      exact ⟨rfl, rfl⟩

/-- The allocator state and the way the call ends on the reporting path depend
on memory only through the result of the header checks. -/
theorem deallocateReport_alloc_congr (P : Platform) (a : TestAllocator) (w v : World)
    (address : Int) (hmisc : miscError P a v address = miscError P a w address) :
    (deallocateReport P a v address).outcome = (deallocateReport P a w address).outcome ∧
    (deallocateReport P a v address).alloc = (deallocateReport P a w address).alloc := by
  unfold deallocateReport
  dsimp only
  rw [hmisc]
  split_ifs <;> exact ⟨rfl, rfl⟩

/-! ## The sentinel scans -/

/-- The backward scan stops at the highest byte that is not the sentinel
byte. -/
theorem underrunLoop_found (byte : Int → Nat) (pcBegin a0 : Int)
    (hbad : byte a0 ≠ k_SENTINEL_BYTE) :
    ∀ (n : Nat) (pc : Int), pc - n < a0 → a0 ≤ pc →
      (∀ y : Int, a0 < y → y ≤ pc → byte y = k_SENTINEL_BYTE) →
      underrunLoop byte pcBegin pc n = toInt32 (pcBegin + 1 - a0)
  | 0, pc, h1, h2, _ => by
    exfalso
    push_cast at h1
    omega
  | n + 1, pc, h1, h2, hhigh => by
    unfold underrunLoop
    by_cases hpc : a0 = pc
    · subst hpc
      rw [if_pos (fun e => hbad e.symm)]
    · have hlt : a0 < pc := by omega
      rw [if_neg (by
        rw [hhigh pc hlt (le_refl _)]
        exact fun h => h rfl)]
      exact underrunLoop_found byte pcBegin a0 hbad n (pc - 1) (by push_cast at h1; omega)
        (by omega) (fun y hy1 hy2 => hhigh y hy1 (by omega))

/-- The forward scan stops at the lowest byte that is not the sentinel
byte. -/
theorem overrunLoop_found (byte : Int → Nat) (pcBegin a0 : Int)
    (hbad : byte a0 ≠ k_SENTINEL_BYTE) :
    ∀ (n : Nat) (pc : Int), pc ≤ a0 → a0 < pc + n →
      (∀ y : Int, pc ≤ y → y < a0 → byte y = k_SENTINEL_BYTE) →
      overrunLoop byte pcBegin pc n = toInt32 (a0 + 1 - pcBegin)
  | 0, pc, h1, h2, _ => by
    exfalso
    push_cast at h2
    omega
  | n + 1, pc, h1, h2, hlow => by
    unfold overrunLoop
    by_cases hpc : a0 = pc
    · subst hpc
      rw [if_pos (fun e => hbad e.symm)]
    · have hlt : pc < a0 := by omega
      rw [if_neg (by
        rw [hlow pc (le_refl _) hlt]
        exact fun h => h rfl)]
      exact overrunLoop_found byte pcBegin a0 hbad n (pc + 1) (by omega)
        (by push_cast at h2; omega) (fun y hy1 hy2 => hlow y (by omega) hy2)

/-- Among the `n` bytes up to `pc`, if one is not the sentinel byte then there
is a highest such byte. -/
theorem exists_highest_bad (byte : Int → Nat) :
    ∀ (n : Nat) (pc : Int),
      (∃ x : Int, pc - n < x ∧ x ≤ pc ∧ byte x ≠ k_SENTINEL_BYTE) →
      ∃ a0 : Int, pc - n < a0 ∧ a0 ≤ pc ∧ byte a0 ≠ k_SENTINEL_BYTE ∧
        ∀ y : Int, a0 < y → y ≤ pc → byte y = k_SENTINEL_BYTE
  | 0, pc, ⟨x, h1, h2, _⟩ => by
    exfalso
    push_cast at h1
    omega
  | n + 1, pc, ⟨x, h1, h2, hx⟩ => by
    by_cases hpc : byte pc = k_SENTINEL_BYTE
    · have hxpc : x ≠ pc := fun e => hx (e ▸ hpc)
      obtain ⟨a0, ha1, ha2, ha3, ha4⟩ := exists_highest_bad byte n (pc - 1)
        ⟨x, by push_cast at h1; omega, by omega, hx⟩
      refine ⟨a0, by push_cast; omega, by omega, ha3, fun y hy1 hy2 => ?_⟩
      by_cases hy : y = pc
      · rw [hy]
        exact hpc
      · exact ha4 y hy1 (by omega)
    · exact ⟨pc, by push_cast; omega, le_refl _, hpc, fun y hy1 hy2 => by omega⟩

/-- Among the `n` bytes from `pc`, if one is not the sentinel byte then there
is a lowest such byte. -/
theorem exists_lowest_bad (byte : Int → Nat) :
    ∀ (n : Nat) (pc : Int),
      (∃ x : Int, pc ≤ x ∧ x < pc + n ∧ byte x ≠ k_SENTINEL_BYTE) →
      ∃ a0 : Int, pc ≤ a0 ∧ a0 < pc + n ∧ byte a0 ≠ k_SENTINEL_BYTE ∧
        ∀ y : Int, pc ≤ y → y < a0 → byte y = k_SENTINEL_BYTE
  | 0, pc, ⟨x, h1, h2, _⟩ => by
    exfalso
    push_cast at h2
    omega
  | n + 1, pc, ⟨x, h1, h2, hx⟩ => by
    by_cases hpc : byte pc = k_SENTINEL_BYTE
    · have hxpc : x ≠ pc := fun e => hx (e ▸ hpc)
      obtain ⟨a0, ha1, ha2, ha3, ha4⟩ := exists_lowest_bad byte n (pc + 1)
        ⟨x, by omega, by push_cast at h2; omega, hx⟩
      refine ⟨a0, by omega, by push_cast; omega, ha3, fun y hy1 hy2 => ?_⟩
      by_cases hy : y = pc
      · rw [hy]
        exact hpc
      · exact ha4 y (by omega) hy2
    · exact ⟨pc, le_refl _, by push_cast; omega, hpc, fun y hy1 hy2 => by omega⟩

/-- The backward scan reads the `n` bytes up to `pc` only. -/
theorem underrunLoop_congr (byte byte' : Int → Nat) (pcBegin : Int) :
    ∀ (n : Nat) (pc : Int), (∀ x : Int, pc - n < x → x ≤ pc → byte' x = byte x) →
      underrunLoop byte' pcBegin pc n = underrunLoop byte pcBegin pc n
  | 0, _, _ => rfl
  | n + 1, pc, h => by
    unfold underrunLoop
    rw [h pc (by push_cast; omega) (le_refl _),
      underrunLoop_congr byte byte' pcBegin n (pc - 1)
        (fun x h1 h2 => h x (by push_cast; omega) (by omega))]

/-- The forward scan reads the `n` bytes from `pc` only. -/
theorem overrunLoop_congr (byte byte' : Int → Nat) (pcBegin : Int) :
    ∀ (n : Nat) (pc : Int), (∀ x : Int, pc ≤ x → x < pc + n → byte' x = byte x) →
      overrunLoop byte' pcBegin pc n = overrunLoop byte pcBegin pc n
  | 0, _, _ => rfl
  | n + 1, pc, h => by
    unfold overrunLoop
    rw [h pc (le_refl _) (by push_cast; omega),
      overrunLoop_congr byte byte' pcBegin n (pc + 1)
        (fun x h1 h2 => h x (by omega) (by push_cast; omega))]

/-- The underrun distance is the distance from the segment to the highest
corrupted byte of the leading sentinel. -/
theorem underrunBy_of_found {P : Platform} {a : TestAllocator} {w : World} {p : Int}
    (hmisc : miscError P a w p = false) (a0 : Int) (h1 : p - P.k_SENTINEL_SIZE ≤ a0)
    (h2 : a0 < p) (hbad : w.byte a0 ≠ k_SENTINEL_BYTE)
    (hhigh : ∀ y : Int, a0 < y → y < p → w.byte y = k_SENTINEL_BYTE) :
    underrunBy P a w p = p - a0 := by
  unfold underrunBy
  rw [if_neg (by simp [hmisc]),
    underrunLoop_found w.byte (p - 1) a0 hbad P.k_SENTINEL_SIZE (p - 1) (by omega) (by omega)
      (fun y hy1 hy2 => hhigh y hy1 (by omega))]
  have hsmall := P.sentinel_small
  unfold toInt32
  omega

/-- The overrun distance is one more than the distance from the end of the
segment to the lowest corrupted byte of the trailing sentinel. -/
theorem overrunBy_of_found {P : Platform} {a : TestAllocator} {w : World} {p : Int}
    (hmisc : miscError P a w p = false) (hunder : underrunBy P a w p = 0) (a0 : Int)
    (h1 : p + (w.hdr (p - P.sizeofBlockHeader)).d_bytes ≤ a0)
    (h2 : a0 < p + (w.hdr (p - P.sizeofBlockHeader)).d_bytes + P.k_SENTINEL_SIZE)
    (hbad : w.byte a0 ≠ k_SENTINEL_BYTE)
    (hlow : ∀ y : Int, p + (w.hdr (p - P.sizeofBlockHeader)).d_bytes ≤ y → y < a0 →
      w.byte y = k_SENTINEL_BYTE) :
    overrunBy P a w p = a0 - (p + (w.hdr (p - P.sizeofBlockHeader)).d_bytes) + 1 := by
  unfold overrunBy
  dsimp only
  rw [if_neg (by simp [hmisc]), if_neg (by simp [hunder]),
    overrunLoop_found w.byte _ a0 hbad P.k_SENTINEL_SIZE _ h1 h2 hlow]
  have hsmall := P.sentinel_small
  unfold toInt32
  omega

/-- The header checks read the headers only. -/
theorem miscError_world_congr (P : Platform) (a : TestAllocator) {w v : World} (p : Int)
    (hhdr : v.hdr = w.hdr) : miscError P a v p = miscError P a w p := by
  unfold miscError
  rw [hhdr]

/-- The allocator state after `deallocate`, and the way the call ends, depend
on the world only through the headers and the results of the two scans. -/
theorem deallocate_alloc_congr (P : Platform) (a : TestAllocator) (w v : World) (p : Int)
    (hhdr : v.hdr = w.hdr) (hunder : underrunBy P a v p = underrunBy P a w p)
    (hover : overrunBy P a v p = overrunBy P a w p) :
    (deallocate P a v p).outcome = (deallocate P a w p).outcome ∧
    (deallocate P a v p).alloc = (deallocate P a w p).alloc := by
  have hmisc := miscError_world_congr P a p hhdr
  by_cases hnull : p = 0
  · subst hnull
    rw [deallocate_of_null, deallocate_of_null]
    exact ⟨rfl, rfl⟩
  by_cases herr : miscError P a w p = true ∨ overrunBy P a w p ≠ 0 ∨ underrunBy P a w p ≠ 0
  · rw [deallocate_of_error P a w p hnull herr,
      deallocate_of_error P a v p hnull (by rw [hmisc, hunder, hover]; exact herr)]
    exact deallocateReport_alloc_congr P (deallocateRecordAddress a p) w v p
      (by rw [miscError_recordAddress, miscError_recordAddress, hmisc])
  · push_neg at herr
    obtain ⟨h1, h2, h3⟩ := herr
    have h1' : miscError P a w p = false := by simpa using h1
    rw [deallocate_of_valid P a w p hnull h1' h2 h3,
      deallocate_of_valid P a v p hnull (by rw [hmisc]; exact h1') (by rw [hover]; exact h2)
        (by rw [hunder]; exact h3)]
    unfold deallocateBlock
    dsimp only
    rw [hhdr]
    exact ⟨rfl, rfl⟩

/-! ## Allocation ids -/

/-- Every call of `allocate` increments `numAllocations`. -/
theorem allocate_numAllocations (P : Platform) (a : TestAllocator) (w : World)
    (size up : Nat) :
    (allocate P a w size up).alloc.d_numAllocations = a.d_numAllocations + 1 := by
  unfold allocate
  dsimp only
  split_ifs <;> rfl

/-- A call of `deallocate` leaves `numAllocations` alone. -/
theorem deallocate_numAllocations (P : Platform) (a : TestAllocator) (w : World)
    (address : Int) :
    (deallocate P a w address).alloc.d_numAllocations = a.d_numAllocations := by
  unfold deallocate deallocateReport
  dsimp only
  split_ifs <;> rfl

/-- The id stored in the header of a block handed out by `allocate` is the
value of `numAllocations` before the call. -/
theorem allocate_id (P : Platform) (a : TestAllocator) (w : World) (size up : Nat)
    (address : Int)
    (houtcome : (allocate P a w size up).outcome = AllocateOutcome.returned address)
    (hnonnull : address ≠ 0) :
    ((allocate P a w size up).world.hdr (address - P.sizeofBlockHeader)).d_id
      = a.d_numAllocations := by
  by_cases hlimit : a.d_allocationLimit = 0
  · rw [allocate_of_limit_zero P a w size up hlimit] at houtcome
    cases houtcome
  by_cases hsize : size = 0
  · subst hsize
    rw [allocate_of_size_zero P a w up hlimit] at houtcome
    cases houtcome
    exact absurd rfl hnonnull
  by_cases hup : up = 0
  · subst hup
    rw [allocate_of_upstream_null P a w size hlimit hsize] at houtcome
    cases houtcome
  by_cases halign : isAligned up P.k_MAX_ALIGNMENT = true
  · rw [allocate_of_success P a w size up hlimit hsize hup halign] at houtcome ⊢
    rw [allocateBlock_outcome] at houtcome
    cases houtcome
    rw [add_sub_cancel_right,
      (allocateBlock_hdr_self P _ _ size up).2.2.2]
    show a.d_numAllocations + 1 - 1 = a.d_numAllocations
    omega
  · rw [allocate_of_misaligned P a w size up hlimit hsize hup (by simpa using halign)]
      at houtcome
    cases houtcome

/-- The list of ids after a call of `allocate`: unchanged, or extended by the
value of `numAllocations` before the call. -/
theorem idsAfterAllocate_cases (P : Platform) (a : TestAllocator) (w : World) (size up : Nat)
    (ids : List Int) :
    idsAfterAllocate P ids (allocate P a w size up) = ids ∨
    idsAfterAllocate P ids (allocate P a w size up) = ids ++ [a.d_numAllocations] := by
  cases houtcome : (allocate P a w size up).outcome with
  | returned address =>
    by_cases hnull : address = 0
    · left
      unfold idsAfterAllocate
      rw [houtcome]
      exact if_pos hnull
    · right
      unfold idsAfterAllocate
      rw [houtcome]
      dsimp only
      rw [if_neg hnull, allocate_id P a w size up address houtcome hnull]
  | testAllocatorException n =>
    left
    unfold idsAfterAllocate
    rw [houtcome]
  | badAlloc =>
    left
    unfold idsAfterAllocate
    rw [houtcome]
  | assertFailed =>
    left
    unfold idsAfterAllocate
    rw [houtcome]

/-- In every history `numAllocations` counts the calls of `allocate`, and the
ids handed out are strictly increasing and below that count. -/
theorem IdHistory.invariant {P : Platform} {a : TestAllocator} {w : World} {calls : Nat}
    {ids : List Int} (h : IdHistory P a w calls ids) :
    a.d_numAllocations = calls ∧ ids.Pairwise (fun i j => i < j) ∧
      ∀ i ∈ ids, 0 ≤ i ∧ i < calls := by
  induction h with
  | create thisAddr name verboseFlag basicAllocator singleton w =>
    exact ⟨rfl, List.Pairwise.nil, fun i hi => absurd hi (List.not_mem_nil _)⟩
  | setNoAbort flagValue _ ih => exact ih
  | setQuiet flagValue _ ih => exact ih
  | setVerbose flagValue _ ih => exact ih
  | setAllocationLimit limit _ ih => exact ih
  | @allocate a w calls ids size up _ _ ih =>
    obtain ⟨h1, h2, h3⟩ := ih
    refine ⟨by rw [allocate_numAllocations, h1]; push_cast; rfl, ?_, ?_⟩
    · rcases idsAfterAllocate_cases P a w size up ids with h | h
      · rw [h]
        exact h2
      · rw [h, h1]
        refine List.pairwise_append.2 ⟨h2, List.pairwise_singleton _ _, ?_⟩
        intro i hi j hj
        rw [List.mem_singleton.1 hj]
        exact (h3 i hi).2
    · intro i hi
      rcases idsAfterAllocate_cases P a w size up ids with h | h
      · rw [h] at hi
        have := h3 i hi
        push_cast
        omega
      · rw [h, h1] at hi
        rcases List.mem_append.1 hi with hi | hi
        · have := h3 i hi
          push_cast
          omega
        · rw [List.mem_singleton.1 hi]
          push_cast
          omega
  | deallocate address _ _ ih =>
    exact ⟨by rw [deallocate_numAllocations]; exact ih.1, ih.2⟩
  | clientWrite address value _ ih => exact ih

/-! ## Monotone counters -/

/-- The counters after the eager part of `allocate`: only `numAllocations`
has moved. -/
theorem allocateConsumeLimit_counters (a : TestAllocator) (size : Nat) :
    (allocateConsumeLimit (allocateRecordRequest a size)).d_numAllocations
      = a.d_numAllocations + 1 ∧
    (allocateConsumeLimit (allocateRecordRequest a size)).d_numDeallocations
      = a.d_numDeallocations ∧
    (allocateConsumeLimit (allocateRecordRequest a size)).d_numMismatches
      = a.d_numMismatches ∧
    (allocateConsumeLimit (allocateRecordRequest a size)).d_numBoundsErrors
      = a.d_numBoundsErrors ∧
    (allocateConsumeLimit (allocateRecordRequest a size)).d_numBlocksMax = a.d_numBlocksMax ∧
    (allocateConsumeLimit (allocateRecordRequest a size)).d_numBytesMax = a.d_numBytesMax ∧
    (allocateConsumeLimit (allocateRecordRequest a size)).d_numBlocksTotal
      = a.d_numBlocksTotal ∧
    (allocateConsumeLimit (allocateRecordRequest a size)).d_numBytesTotal
      = a.d_numBytesTotal ∧
    (allocateConsumeLimit (allocateRecordRequest a size)).d_numBlocksInUse
      = a.d_numBlocksInUse ∧
    (allocateConsumeLimit (allocateRecordRequest a size)).d_numBytesInUse
      = a.d_numBytesInUse :=
  ⟨rfl, rfl, rfl, rfl, rfl, rfl, rfl, rfl, rfl, rfl⟩

/-- No counter other than the in-use counts goes down in `allocateBlock`,
`numBytesTotal` provided the new total fits in 64 bits. -/
theorem allocateBlock_monotone (P : Platform) (a : TestAllocator) (w : World) (size : Nat)
    (header_p : Int) :
    (allocateBlock P a w size header_p).alloc.d_numAllocations = a.d_numAllocations ∧
    (allocateBlock P a w size header_p).alloc.d_numDeallocations = a.d_numDeallocations ∧
    (allocateBlock P a w size header_p).alloc.d_numMismatches = a.d_numMismatches ∧
    (allocateBlock P a w size header_p).alloc.d_numBoundsErrors = a.d_numBoundsErrors ∧
    a.d_numBlocksMax ≤ (allocateBlock P a w size header_p).alloc.d_numBlocksMax ∧
    a.d_numBytesMax ≤ (allocateBlock P a w size header_p).alloc.d_numBytesMax ∧
    a.d_numBlocksTotal ≤ (allocateBlock P a w size header_p).alloc.d_numBlocksTotal ∧
    (InInt64 (a.d_numBytesTotal + size) →
      a.d_numBytesTotal ≤ (allocateBlock P a w size header_p).alloc.d_numBytesTotal) := by
  refine ⟨rfl, rfl, rfl, rfl, ?_, ?_, ?_, ?_⟩
  · show a.d_numBlocksMax ≤
      (if a.d_numBlocksMax < a.d_numBlocksInUse + 1 then a.d_numBlocksInUse + 1
        else a.d_numBlocksMax)
    split_ifs <;> omega
  · show a.d_numBytesMax ≤
      (if a.d_numBytesMax < toInt64 (a.d_numBytesInUse + toInt64 size)
        then toInt64 (a.d_numBytesInUse + toInt64 size) else a.d_numBytesMax)
    split_ifs <;> omega
  · show a.d_numBlocksTotal ≤ a.d_numBlocksTotal + 1
    omega
  · intro hfits
    show a.d_numBytesTotal ≤ toInt64 (a.d_numBytesTotal + toInt64 size)
    rw [toInt64_add_of_inInt64 _ _ hfits]
    omega

/-- No counter other than the in-use counts goes down in a call of `allocate`,
`numBytesTotal` provided the new total fits in 64 bits. -/
theorem allocate_monotone (P : Platform) (a : TestAllocator) (w : World) (size up : Nat) :
    a.d_numAllocations ≤ (allocate P a w size up).alloc.d_numAllocations ∧
    a.d_numDeallocations ≤ (allocate P a w size up).alloc.d_numDeallocations ∧
    a.d_numMismatches ≤ (allocate P a w size up).alloc.d_numMismatches ∧
    a.d_numBoundsErrors ≤ (allocate P a w size up).alloc.d_numBoundsErrors ∧
    a.d_numBlocksMax ≤ (allocate P a w size up).alloc.d_numBlocksMax ∧
    a.d_numBytesMax ≤ (allocate P a w size up).alloc.d_numBytesMax ∧
    a.d_numBlocksTotal ≤ (allocate P a w size up).alloc.d_numBlocksTotal ∧
    (InInt64 (a.d_numBytesTotal + size) →
      a.d_numBytesTotal ≤ (allocate P a w size up).alloc.d_numBytesTotal) := by
  obtain ⟨e1, e2, e3, e4, e5, e6, e7, e8, _, _⟩ := allocateConsumeLimit_counters a size
  have hquick : ∀ r : AllocateResult,
      r.alloc = allocateConsumeLimit (allocateRecordRequest a size) →
      a.d_numAllocations ≤ r.alloc.d_numAllocations ∧
      a.d_numDeallocations ≤ r.alloc.d_numDeallocations ∧
      a.d_numMismatches ≤ r.alloc.d_numMismatches ∧
      a.d_numBoundsErrors ≤ r.alloc.d_numBoundsErrors ∧
      a.d_numBlocksMax ≤ r.alloc.d_numBlocksMax ∧
      a.d_numBytesMax ≤ r.alloc.d_numBytesMax ∧
      a.d_numBlocksTotal ≤ r.alloc.d_numBlocksTotal ∧
      (InInt64 (a.d_numBytesTotal + size) → a.d_numBytesTotal ≤ r.alloc.d_numBytesTotal) := by
    intro r hr
    rw [hr, e1, e2, e3, e4, e5, e6, e7, e8]
    exact ⟨by omega, le_refl _, le_refl _, le_refl _, le_refl _, le_refl _, le_refl _,
      fun _ => le_refl _⟩
  by_cases hlimit : a.d_allocationLimit = 0
  · rw [allocate_of_limit_zero P a w size up hlimit]
    exact hquick _ rfl
  by_cases hsize : size = 0
  · subst hsize
    rw [allocate_of_size_zero P a w up hlimit]
    exact hquick _ rfl
  by_cases hup : up = 0
  · subst hup
    rw [allocate_of_upstream_null P a w size hlimit hsize]
    exact hquick _ rfl
  by_cases halign : isAligned up P.k_MAX_ALIGNMENT = true
  · rw [allocate_of_success P a w size up hlimit hsize hup halign]
    obtain ⟨b1, b2, b3, b4, b5, b6, b7, b8⟩ := allocateBlock_monotone P
      (allocateConsumeLimit (allocateRecordRequest a size))
      (allocateUpstream P (allocateConsumeLimit (allocateRecordRequest a size)) w size) size up
    rw [e5] at b5
    rw [e6] at b6
    rw [e7] at b7
    rw [e8] at b8
    rw [b1, b2, b3, b4, e1, e2, e3, e4]
    exact ⟨by omega, le_refl _, le_refl _, le_refl _, b5, b6, b7, b8⟩
  · rw [allocate_of_misaligned P a w size up hlimit hsize hup (by simpa using halign)]
    exact hquick _ rfl

/-- No counter other than the in-use counts goes down in a call of
`deallocate`. -/
theorem deallocate_monotone (P : Platform) (a : TestAllocator) (w : World) (address : Int) :
    a.d_numAllocations ≤ (deallocate P a w address).alloc.d_numAllocations ∧
    a.d_numDeallocations ≤ (deallocate P a w address).alloc.d_numDeallocations ∧
    a.d_numMismatches ≤ (deallocate P a w address).alloc.d_numMismatches ∧
    a.d_numBoundsErrors ≤ (deallocate P a w address).alloc.d_numBoundsErrors ∧
    a.d_numBlocksMax ≤ (deallocate P a w address).alloc.d_numBlocksMax ∧
    a.d_numBytesMax ≤ (deallocate P a w address).alloc.d_numBytesMax ∧
    a.d_numBlocksTotal ≤ (deallocate P a w address).alloc.d_numBlocksTotal ∧
    a.d_numBytesTotal ≤ (deallocate P a w address).alloc.d_numBytesTotal := by
  refine ⟨le_of_eq (deallocate_numAllocations P a w address).symm, ?_,
    deallocate_numMismatches_ge P a w address, deallocate_numBoundsErrors_ge P a w address,
    ?_, ?_, ?_, ?_⟩ <;>
  · unfold deallocate deallocateReport
    dsimp only
    split_ifs <;> simp [deallocateBlock, deallocateRecordAddress]

/-! ## The allocation limit -/

/-- The fault-injection condition is signalled exactly when the limit is 0. -/
theorem allocate_throws_iff (P : Platform) (a : TestAllocator) (w : World) (size up : Nat) :
    (∃ n, (allocate P a w size up).outcome = AllocateOutcome.testAllocatorException n) ↔
      a.d_allocationLimit = 0 := by
  constructor
  · rintro ⟨n, hn⟩
    by_contra hlimit
    by_cases hsize : size = 0
    · subst hsize
      rw [allocate_of_size_zero P a w up hlimit] at hn
      cases hn
    by_cases hup : up = 0
    · subst hup
      rw [allocate_of_upstream_null P a w size hlimit hsize] at hn
      cases hn
    by_cases halign : isAligned up P.k_MAX_ALIGNMENT = true
    · rw [allocate_of_success P a w size up hlimit hsize hup halign, allocateBlock_outcome] at hn
      cases hn
    · rw [allocate_of_misaligned P a w size up hlimit hsize hup (by simpa using halign)] at hn
      cases hn
  · intro hlimit
    rw [allocate_of_limit_zero P a w size up hlimit]
    exact ⟨_, rfl⟩

/-- A call of `deallocate` leaves the allocation limit alone. -/
theorem deallocate_allocationLimit (P : Platform) (a : TestAllocator) (w : World)
    (address : Int) :
    (deallocate P a w address).alloc.d_allocationLimit = a.d_allocationLimit := by
  unfold deallocate deallocateReport
  dsimp only
  split_ifs <;> rfl

/-- Without a call of `setAllocationLimit` a negative limit stays as it is. -/
theorem Continues.allocationLimit {P : Platform} {a b : TestAllocator} {w v : World}
    (h : Continues P a w b v) (hneg : a.d_allocationLimit < 0) :
    b.d_allocationLimit = a.d_allocationLimit := by
  induction h with
  | refl => rfl
  | setNoAbort flagValue _ ih => exact ih
  | setQuiet flagValue _ ih => exact ih
  | setVerbose flagValue _ ih => exact ih
  | allocate size up _ ih =>
    rw [allocate_allocationLimit, if_neg (by omega)]
    exact ih
  | deallocate address _ ih =>
    rw [deallocate_allocationLimit]
    exact ih
  | clientWrite address value _ ih => exact ih

/-- On the reporting path the verbose flag and the name change nothing but
themselves. -/
theorem deallocateReport_verbose (P : Platform) (a : TestAllocator) (w : World)
    (address : Int) (v : Bool) (n : Option String) :
    (deallocateReport P { a with d_verboseFlag := v, d_name_p := n } w address).outcome
      = (deallocateReport P a w address).outcome ∧
    (deallocateReport P { a with d_verboseFlag := v, d_name_p := n } w address).alloc
      = { (deallocateReport P a w address).alloc with d_verboseFlag := v, d_name_p := n } ∧
    (deallocateReport P { a with d_verboseFlag := v, d_name_p := n } w address).world.hdr
      = (deallocateReport P a w address).world.hdr ∧
    (deallocateReport P { a with d_verboseFlag := v, d_name_p := n } w address).world.byte
      = (deallocateReport P a w address).world.byte ∧
    (deallocateReport P { a with d_verboseFlag := v, d_name_p := n } w address).world.upstream
      = (deallocateReport P a w address).world.upstream := by
  have hmisc : miscError P { a with d_verboseFlag := v, d_name_p := n } w address
      = miscError P a w address := miscError_congr P w address rfl
  unfold deallocateReport
  dsimp only
  rw [hmisc]
  split_ifs <;> exact ⟨rfl, rfl, rfl, rfl, rfl⟩

/-! ## In-use counts -/

/-- C1, counterexample: in the reachable state in which a fresh allocator
holds one live one-byte block (`numBytesTotal = 1`, limit unlimited), the pair
`p = allocate(2 ^ 63 - 1)`, `deallocate(p)` succeeds, but `numBytesTotal`, a
signed 64-bit counter, wraps to `-2 ^ 63` instead of growing by `2 ^ 63 - 1`. -/
theorem allocate_deallocate_counterexample :
    Reachable linux64 firstBlock.alloc firstBlock.world ∧
    firstBlock.alloc.d_allocationLimit = -1 ∧
    firstBlock.alloc.d_numBytesTotal = 1 ∧
    hugeBlock.outcome = AllocateOutcome.returned 1088 ∧
    hugeBlockReleased.outcome = Completion.returned ∧
    hugeBlockReleased.alloc.d_numBytesTotal = -9223372036854775808 ∧
    hugeBlockReleased.alloc.d_numBytesTotal
      ≠ firstBlock.alloc.d_numBytesTotal + 9223372036854775807 := by
  refine ⟨?_, by decide, by decide, by decide, by decide, by decide, by decide⟩
  exact Reachable.allocate 1 64 (Reachable.create 4096 none false 0 8192 blankWorld)
    (by decide) (by decide)

/-- C1, amended: for every reachable state with the allocation limit
unlimited, every `N > 0` that fits in a signed 64-bit integer and such that
`numBytesTotal + N` still fits in a signed 64-bit integer, and upstream
returning the aligned non-null address `up`: `p = allocate(N)` returns
`up + sizeof(BlockHeader)`, the immediately following `deallocate(p)` returns,
and after the pair `numBlocksInUse` and `numBytesInUse` are as before,
`numAllocations`, `numDeallocations` and `numBlocksTotal` are each one more,
`numBytesTotal` is `N` more, and `numMismatches` and `numBoundsErrors` are
unchanged. -/
theorem allocate_deallocate_pair (P : Platform) (a : TestAllocator) (w : World) (N up : Nat)
    (hreach : Reachable P a w) (hlimit : a.d_allocationLimit < 0) (hN : 0 < N)
    (hfits : N < 9223372036854775808)
    (htotal : a.d_numBytesTotal + N < 9223372036854775808)
    (hup : up ≠ 0) (halign : isAligned up P.k_MAX_ALIGNMENT = true) :
    (allocate P a w N up).outcome
      = AllocateOutcome.returned ((up : Int) + P.sizeofBlockHeader) ∧
    (deallocate P (allocate P a w N up).alloc (allocate P a w N up).world
      ((up : Int) + P.sizeofBlockHeader)).outcome = Completion.returned ∧
    (deallocate P (allocate P a w N up).alloc (allocate P a w N up).world
      ((up : Int) + P.sizeofBlockHeader)).alloc.d_numBlocksInUse = a.d_numBlocksInUse ∧
    (deallocate P (allocate P a w N up).alloc (allocate P a w N up).world
      ((up : Int) + P.sizeofBlockHeader)).alloc.d_numBytesInUse = a.d_numBytesInUse ∧
    (deallocate P (allocate P a w N up).alloc (allocate P a w N up).world
      ((up : Int) + P.sizeofBlockHeader)).alloc.d_numAllocations = a.d_numAllocations + 1 ∧
    (deallocate P (allocate P a w N up).alloc (allocate P a w N up).world
      ((up : Int) + P.sizeofBlockHeader)).alloc.d_numDeallocations
      = a.d_numDeallocations + 1 ∧
    (deallocate P (allocate P a w N up).alloc (allocate P a w N up).world
      ((up : Int) + P.sizeofBlockHeader)).alloc.d_numBlocksTotal = a.d_numBlocksTotal + 1 ∧
    (deallocate P (allocate P a w N up).alloc (allocate P a w N up).world
      ((up : Int) + P.sizeofBlockHeader)).alloc.d_numBytesTotal = a.d_numBytesTotal + N ∧
    (deallocate P (allocate P a w N up).alloc (allocate P a w N up).world
      ((up : Int) + P.sizeofBlockHeader)).alloc.d_numMismatches = a.d_numMismatches ∧
    (deallocate P (allocate P a w N up).alloc (allocate P a w N up).world
      ((up : Int) + P.sizeofBlockHeader)).alloc.d_numBoundsErrors = a.d_numBoundsErrors := by
  have hlimit' : a.d_allocationLimit ≠ 0 := by omega
  obtain ⟨hout, hblock, hsent⟩ :=
    allocate_success_block P a w N up hlimit' (by omega) hup halign
  obtain ⟨hinuse, _, htot⟩ := hreach.byteCounts_inInt64
  have hvalid := deallocate_of_valid P _ _ _ hblock.nonnull
    (miscError_of_allocatedBlock hblock) (overrunBy_of_intact hblock hsent)
    (underrunBy_of_intact hsent)
  have hbytes := hblock.bytes
  rw [hvalid]
  rw [allocate_of_success P a w N up hlimit' (by omega) hup halign] at hbytes ⊢
  refine ⟨rfl, rfl, ?_, ?_, rfl, rfl, rfl, ?_, rfl, rfl⟩
  · show a.d_numBlocksInUse + 1 + -1 = a.d_numBlocksInUse
    omega
  · show toInt64 (toInt64 (a.d_numBytesInUse + toInt64 N) + toInt64 (-toInt64 _))
      = a.d_numBytesInUse
    rw [hbytes]
    exact toInt64_add_neg_cancel N hinuse
  · show toInt64 (a.d_numBytesTotal + toInt64 N) = a.d_numBytesTotal + N
    unfold InInt64 at htot
    unfold toInt64
    omega

/-- C1, amended, exercised on a fresh allocator and a one-byte block. -/
theorem allocate_deallocate_pair_witness :
    Reachable linux64 freshAllocator blankWorld ∧
    (deallocate linux64 (allocate linux64 freshAllocator blankWorld 1 64).alloc
      (allocate linux64 freshAllocator blankWorld 1 64).world
      (((64 : Nat) : Int) + linux64.sizeofBlockHeader)).alloc.d_numBytesTotal
      = 0 + ((1 : Nat) : Int) :=
  ⟨Reachable.create 4096 none false 0 8192 blankWorld,
    (allocate_deallocate_pair linux64 freshAllocator blankWorld 1 64
      (Reachable.create 4096 none false 0 8192 blankWorld)
      (by decide) (by decide) (by decide) (by decide) (by decide) (by decide)).2.2.2.2.2.2.2.1⟩

/-- C2: when the allocation limit does not trip (it is not 0), `allocate(0)`
returns the null pointer, makes no upstream call and leaves the in-use, maximum
and total counts of blocks and bytes, the head and tail of the block list and
all of memory (headers and bytes) unchanged; and an `allocate(size)` with
`size != 0` that returns yields a non-null pointer. -/
theorem allocate_zero_size (P : Platform) (a : TestAllocator) (w : World) (up : Nat)
    (hlimit : a.d_allocationLimit ≠ 0) :
    (allocate P a w 0 up).outcome = AllocateOutcome.returned 0 ∧
    (allocate P a w 0 up).world.upstream = w.upstream ∧
    (allocate P a w 0 up).alloc.d_numBlocksInUse = a.d_numBlocksInUse ∧
    (allocate P a w 0 up).alloc.d_numBytesInUse = a.d_numBytesInUse ∧
    (allocate P a w 0 up).alloc.d_numBlocksMax = a.d_numBlocksMax ∧
    (allocate P a w 0 up).alloc.d_numBytesMax = a.d_numBytesMax ∧
    (allocate P a w 0 up).alloc.d_numBlocksTotal = a.d_numBlocksTotal ∧
    (allocate P a w 0 up).alloc.d_numBytesTotal = a.d_numBytesTotal ∧
    (allocate P a w 0 up).alloc.d_blockListHead_p = a.d_blockListHead_p ∧
    (allocate P a w 0 up).alloc.d_blockListTail_p = a.d_blockListTail_p ∧
    (allocate P a w 0 up).world.hdr = w.hdr ∧
    (allocate P a w 0 up).world.byte = w.byte ∧
    (∀ (b : TestAllocator) (v : World) (size up' : Nat) (p : Int), size ≠ 0 →
      (allocate P b v size up').outcome = AllocateOutcome.returned p → p ≠ 0) := by
  rw [allocate_of_size_zero P a w up hlimit]
  refine ⟨rfl, rfl, rfl, rfl, rfl, rfl, rfl, rfl, rfl, rfl, rfl, rfl, ?_⟩
  intro b v size up' p hsize hout
  unfold allocate at hout
  dsimp only at hout
  split_ifs at hout with h1 h2 h3 h4
  · exact absurd h2.symm hsize
  · have hp : (up' : Int) + P.sizeofBlockHeader = p := by
      simpa [allocateBlock] using hout
    have hup : (up' : Int) ≠ 0 := h3
    have : (0 : Int) < up' := by omega
    omega

/-- C2, exercised on a fresh allocator. -/
theorem allocate_zero_size_witness :
    (allocate linux64 freshAllocator blankWorld 0 64).outcome = AllocateOutcome.returned 0 ∧
    (allocate linux64 freshAllocator blankWorld 0 64).world.upstream = [] ∧
    (128 : Int) ≠ 0 :=
  have h := allocate_zero_size linux64 freshAllocator blankWorld 64 (by decide)
  ⟨h.1, h.2.1,
    h.2.2.2.2.2.2.2.2.2.2.2.2 freshAllocator blankWorld 1 64 128 (by decide) (by decide)⟩

/-- C3, counterexample: when the byte stored just past a one-byte segment
(`p = 128`, `N = 1`) is 0xB1, the sentinel value itself, `deallocate` detects
nothing: `overrunBy` is 0 (not 1), `numBoundsErrors` stays 0 (not 1), and the
block is released as in a correct deallocation. -/
theorem deallocate_overrun_counterexample :
    firstBlock.outcome = AllocateOutcome.returned 128 ∧
    overrunBy linux64 firstBlock.alloc (writeByte firstBlock.world (128 + 1) 0xB1) 128 = 0 ∧
    sentinelValueStored.outcome = Completion.returned ∧
    sentinelValueStored.alloc.d_numBoundsErrors = 0 ∧
    sentinelValueStored.alloc.d_numBoundsErrors ≠ firstBlock.alloc.d_numBoundsErrors + 1 ∧
    sentinelValueStored.alloc.d_numDeallocations = 1 := by
  decide

/-- C3, amended: for every `N > 0` and every byte value other than the
sentinel value 0xB1: after `p = allocate(N)` (limit not tripping, upstream
returning the aligned non-null address `up`, so `p = up + sizeof(BlockHeader)`),
storing that byte at `p + N` and calling `deallocate(p)` increments
`numBoundsErrors` by one, leaves `numMismatches` unchanged, and computes
`overrunBy = 1` and `underrunBy = 0`. -/
theorem deallocate_overrun_one (P : Platform) (a : TestAllocator) (w : World) (N up v : Nat)
    (hlimit : a.d_allocationLimit ≠ 0) (hN : 0 < N) (hup : up ≠ 0)
    (halign : isAligned up P.k_MAX_ALIGNMENT = true) (hv : v ≠ k_SENTINEL_BYTE) :
    (allocate P a w N up).outcome
      = AllocateOutcome.returned ((up : Int) + P.sizeofBlockHeader) ∧
    (deallocate P (allocate P a w N up).alloc
      (writeByte (allocate P a w N up).world ((up : Int) + P.sizeofBlockHeader + N) v)
      ((up : Int) + P.sizeofBlockHeader)).alloc.d_numBoundsErrors = a.d_numBoundsErrors + 1 ∧
    (deallocate P (allocate P a w N up).alloc
      (writeByte (allocate P a w N up).world ((up : Int) + P.sizeofBlockHeader + N) v)
      ((up : Int) + P.sizeofBlockHeader)).alloc.d_numMismatches = a.d_numMismatches ∧
    overrunBy P (allocate P a w N up).alloc
      (writeByte (allocate P a w N up).world ((up : Int) + P.sizeofBlockHeader + N) v)
      ((up : Int) + P.sizeofBlockHeader) = 1 ∧
    underrunBy P (allocate P a w N up).alloc
      (writeByte (allocate P a w N up).world ((up : Int) + P.sizeofBlockHeader + N) v)
      ((up : Int) + P.sizeofBlockHeader) = 0 := by
  obtain ⟨hout, hblock, hsent⟩ :=
    allocate_success_block P a w N up hlimit (by omega) hup halign
  have hmm := allocate_numMismatches P a w N up
  have hbb := allocate_numBoundsErrors P a w N up
  generalize allocate P a w N up = r at *
  generalize hp : (up : Int) + P.sizeofBlockHeader = p at *
  -- the header is untouched by the store
  have hblock' : AllocatedBlock P r.alloc (writeByte r.world (p + N) v) p N :=
    ⟨hblock.nonnull, hblock.aligned, hblock.magic, hblock.bytes, hblock.size_pos, hblock.self⟩
  have hmisc := miscError_of_allocatedBlock hblock'
  have hunder : underrunBy P r.alloc (writeByte r.world (p + N) v) p = 0 := by
    unfold underrunBy
    rw [hmisc]
    refine underrunLoop_intact _ _ _ _ (fun x h1 h2 => ?_)
    have hx : x ≠ p + N := by omega
    show Function.update r.world.byte (p + N) v x = k_SENTINEL_BYTE
    rw [Function.update_noteq hx]
    exact hsent.before x (by omega) (by omega)
  have hover : overrunBy P r.alloc (writeByte r.world (p + N) v) p = 1 := by
    unfold overrunBy
    dsimp only
    rw [hmisc, hunder, hblock'.bytes]
    have hfirst : (writeByte r.world (p + N) v).byte (p + N) ≠ k_SENTINEL_BYTE := by
      show Function.update r.world.byte (p + N) v (p + N) ≠ k_SENTINEL_BYTE
      rw [Function.update_same]
      exact hv
    simp only [Bool.false_eq_true, if_false, ne_eq, not_true_eq_false]
    rw [overrunLoop_first _ _ _ _ hfirst P.sentinel_pos]
    unfold toInt32
    omega
  refine ⟨hout, ?_, ?_, hover, hunder⟩
  · rw [deallocate_of_error P _ _ p hblock.nonnull (Or.inr (Or.inl (by rw [hover]; decide))),
      deallocateReport_numBoundsErrors, miscError_recordAddress, hmisc]
    simp [deallocateRecordAddress, hbb]
  · rw [deallocate_of_error P _ _ p hblock.nonnull (Or.inr (Or.inl (by rw [hover]; decide))),
      deallocateReport_numMismatches, miscError_recordAddress, hmisc]
    simp [deallocateRecordAddress, hmm]

/-- C3, amended, exercised: a zero byte stored past a one-byte block of a fresh
allocator. -/
theorem deallocate_overrun_one_witness :
    (deallocate linux64 (allocate linux64 freshAllocator blankWorld 1 64).alloc
      (writeByte (allocate linux64 freshAllocator blankWorld 1 64).world
        (((64 : Nat) : Int) + linux64.sizeofBlockHeader + (1 : Nat)) 0)
      (((64 : Nat) : Int) + linux64.sizeofBlockHeader)).alloc.d_numBoundsErrors = 0 + 1 :=
  (deallocate_overrun_one linux64 freshAllocator blankWorld 1 64 0
    (by decide) (by decide) (by decide) (by decide) (by decide)).2.1

/-- C4: in quiet mode, let `p` be a live block of `N > 0` bytes of the
allocator (its header is as `allocate(N)` left it, it is in the block list `L`,
and both sentinels are intact).  The first `deallocate(p)` returns, counts one
deallocation, leaves the block list without the block and the header magic at
0xDEADF00D.  In every later world in which that magic is still in place
(upstream left the released bytes intact), the second `deallocate(p)` returns
without aborting, increments `numMismatches` by one, leaves `numBoundsErrors`,
`numDeallocations`, the in-use counts and the head and tail of the list
unchanged, and changes nothing in the world: memory, hence the block list, is
as before and no upstream call is made. -/
theorem double_deallocate (P : Platform) (a : TestAllocator) (w : World) (p : Int) (N : Nat)
    (L : List Int) (hquiet : a.d_quietFlag = true)
    (hblock : AllocatedBlock P a w p N) (hsent : SentinelsIntact P w p N)
    (hlist : BlockList a w L) (hmem : p - P.sizeofBlockHeader ∈ L) :
    (deallocate P a w p).outcome = Completion.returned ∧
    (deallocate P a w p).alloc.d_numDeallocations = a.d_numDeallocations + 1 ∧
    BlockList (deallocate P a w p).alloc (deallocate P a w p).world
      (L.erase (p - P.sizeofBlockHeader)) ∧
    p - P.sizeofBlockHeader ∉ L.erase (p - P.sizeofBlockHeader) ∧
    ((deallocate P a w p).world.hdr (p - P.sizeofBlockHeader)).d_magicNumber
      = k_DEALLOCATED_MEMORY_MAGIC_NUMBER ∧
    (deallocate P a w p).world.upstream
      = w.upstream ++ [UpstreamCall.deallocate a.d_allocator_p (p - P.sizeofBlockHeader)] ∧
    ∀ w2 : World,
      (w2.hdr (p - P.sizeofBlockHeader)).d_magicNumber
        = ((deallocate P a w p).world.hdr (p - P.sizeofBlockHeader)).d_magicNumber →
      (deallocate P (deallocate P a w p).alloc w2 p).outcome = Completion.returned ∧
      (deallocate P (deallocate P a w p).alloc w2 p).alloc.d_numMismatches
        = (deallocate P a w p).alloc.d_numMismatches + 1 ∧
      (deallocate P (deallocate P a w p).alloc w2 p).alloc.d_numBoundsErrors
        = (deallocate P a w p).alloc.d_numBoundsErrors ∧
      (deallocate P (deallocate P a w p).alloc w2 p).alloc.d_numDeallocations
        = (deallocate P a w p).alloc.d_numDeallocations ∧
      (deallocate P (deallocate P a w p).alloc w2 p).alloc.d_numBlocksInUse
        = (deallocate P a w p).alloc.d_numBlocksInUse ∧
      (deallocate P (deallocate P a w p).alloc w2 p).alloc.d_numBytesInUse
        = (deallocate P a w p).alloc.d_numBytesInUse ∧
      (deallocate P (deallocate P a w p).alloc w2 p).alloc.d_blockListHead_p
        = (deallocate P a w p).alloc.d_blockListHead_p ∧
      (deallocate P (deallocate P a w p).alloc w2 p).alloc.d_blockListTail_p
        = (deallocate P a w p).alloc.d_blockListTail_p ∧
      (deallocate P (deallocate P a w p).alloc w2 p).world = w2 := by
  have hvalid := deallocate_of_valid P a w p hblock.nonnull
    (miscError_of_allocatedBlock hblock) (overrunBy_of_intact hblock hsent)
    (underrunBy_of_intact hsent)
  have hmagic : ((deallocate P a w p).world.hdr (p - P.sizeofBlockHeader)).d_magicNumber
      = k_DEALLOCATED_MEMORY_MAGIC_NUMBER := by
    rw [hvalid]
    show (unlinkHdr _ _ _).d_magicNumber = _
    rw [unlinkHdr_magic, setHdr_same]
  have hquiet1 : (deallocate P a w p).alloc.d_quietFlag = true := by
    rw [hvalid]; exact hquiet
  refine ⟨?_, ?_, ?_, ?_, hmagic, ?_, ?_⟩
  · rw [hvalid]; rfl
  · rw [hvalid]; rfl
  · rw [hvalid]
    exact deallocateBlock_blockList P _ w p L hlist hmem
  · exact fun hm => (List.Nodup.mem_erase_iff hlist.2).1 hm |>.1 rfl
  · rw [hvalid]; rfl
  · intro w2 hw2
    have hmisc2 : miscError P (deallocate P a w p).alloc w2 p = true := by
      apply miscError_of_magic
      rw [hw2, hmagic]
      decide
    rw [deallocate_quiet_mismatch P _ w2 p hblock.nonnull hmisc2 hquiet1]
    exact ⟨rfl, rfl, rfl, rfl, rfl, rfl, rfl, rfl, rfl⟩

/-- C4, exercised: the one-byte block of a quiet allocator is deallocated
twice. -/
theorem double_deallocate_witness :
    AllocatedBlock linux64 quietBlock.alloc quietBlock.world 128 1 ∧
    BlockList quietBlock.alloc quietBlock.world [64] ∧
    (deallocate linux64 (deallocate linux64 quietBlock.alloc quietBlock.world 128).alloc
      (deallocate linux64 quietBlock.alloc quietBlock.world 128).world 128).alloc.d_numMismatches
      = (deallocate linux64 quietBlock.alloc quietBlock.world 128).alloc.d_numMismatches + 1 :=
  have hblock : AllocatedBlock linux64 quietBlock.alloc quietBlock.world 128 1 :=
    ⟨by decide, by decide, by decide, by decide, by decide, by decide⟩
  have hlist : BlockList quietBlock.alloc quietBlock.world [64] := ⟨by decide, by decide⟩
  ⟨hblock, hlist,
    ((double_deallocate linux64 quietBlock.alloc quietBlock.world 128 1 [64] (by decide)
      hblock
      (allocate_success_block linux64 (setQuiet freshAllocator true) blankWorld 1 64
        (by decide) (by decide) (by decide) (by decide)).2.2
      hlist (by decide)).2.2.2.2.2.2
      (deallocate linux64 quietBlock.alloc quietBlock.world 128).world rfl).2.1⟩

/-- C5: for every `k`, after `setAllocationLimit(k)` the first `k` sequential
`allocate` calls, upstream succeeding, all return (none signals the
fault-injection condition); the next call throws `TestAllocatorException`
(carrying the size converted to `int`) without any upstream call: the world
(memory, hence the block list, and the upstream log) is unchanged, as are the
in-use and total counts of blocks and bytes and the head and tail of the list,
while `numAllocations` is incremented by that call. -/
theorem allocation_limit_trips (P : Platform) (a : TestAllocator) (w : World) (k : Nat)
    (requests : List (Nat × Nat)) (size up : Nat) (hlen : requests.length = k)
    (hupstream : ∀ request ∈ requests,
      request.2 ≠ 0 ∧ isAligned request.2 P.k_MAX_ALIGNMENT = true) :
    (∀ o ∈ (allocateAll P (setAllocationLimit a k) w requests).1,
      ∃ p, o = AllocateOutcome.returned p) ∧
    (allocateAll P (setAllocationLimit a k) w requests).1.length = k ∧
    (allocate P (allocateAll P (setAllocationLimit a k) w requests).2.1
      (allocateAll P (setAllocationLimit a k) w requests).2.2 size up).outcome
      = AllocateOutcome.testAllocatorException (toInt32 size) ∧
    (allocate P (allocateAll P (setAllocationLimit a k) w requests).2.1
      (allocateAll P (setAllocationLimit a k) w requests).2.2 size up).world
      = (allocateAll P (setAllocationLimit a k) w requests).2.2 ∧
    (allocate P (allocateAll P (setAllocationLimit a k) w requests).2.1
      (allocateAll P (setAllocationLimit a k) w requests).2.2 size up).alloc.d_numBlocksInUse
      = (allocateAll P (setAllocationLimit a k) w requests).2.1.d_numBlocksInUse ∧
    (allocate P (allocateAll P (setAllocationLimit a k) w requests).2.1
      (allocateAll P (setAllocationLimit a k) w requests).2.2 size up).alloc.d_numBytesInUse
      = (allocateAll P (setAllocationLimit a k) w requests).2.1.d_numBytesInUse ∧
    (allocate P (allocateAll P (setAllocationLimit a k) w requests).2.1
      (allocateAll P (setAllocationLimit a k) w requests).2.2 size up).alloc.d_numBlocksTotal
      = (allocateAll P (setAllocationLimit a k) w requests).2.1.d_numBlocksTotal ∧
    (allocate P (allocateAll P (setAllocationLimit a k) w requests).2.1
      (allocateAll P (setAllocationLimit a k) w requests).2.2 size up).alloc.d_numBytesTotal
      = (allocateAll P (setAllocationLimit a k) w requests).2.1.d_numBytesTotal ∧
    (allocate P (allocateAll P (setAllocationLimit a k) w requests).2.1
      (allocateAll P (setAllocationLimit a k) w requests).2.2 size up).alloc.d_blockListHead_p
      = (allocateAll P (setAllocationLimit a k) w requests).2.1.d_blockListHead_p ∧
    (allocate P (allocateAll P (setAllocationLimit a k) w requests).2.1
      (allocateAll P (setAllocationLimit a k) w requests).2.2 size up).alloc.d_blockListTail_p
      = (allocateAll P (setAllocationLimit a k) w requests).2.1.d_blockListTail_p ∧
    (allocate P (allocateAll P (setAllocationLimit a k) w requests).2.1
      (allocateAll P (setAllocationLimit a k) w requests).2.2 size up).alloc.d_numAllocations
      = (allocateAll P (setAllocationLimit a k) w requests).2.1.d_numAllocations + 1 := by
  obtain ⟨hall, hlen', hfinal⟩ := allocateAll_within_limit P requests
    (setAllocationLimit a k) w k rfl hlen hupstream
  refine ⟨hall, hlen', ?_⟩
  rw [allocate_of_limit_zero P _ _ size up hfinal]
  exact ⟨rfl, rfl, rfl, rfl, rfl, rfl, rfl, rfl, rfl⟩

/-- C5, exercised: with the limit set to 2, two one-byte requests are served
and the third call throws. -/
theorem allocation_limit_trips_witness :
    ([(1, 64), (1, 256)] : List (Nat × Nat)).length = 2 ∧
    (allocate linux64
      (allocateAll linux64 (setAllocationLimit freshAllocator (2 : Nat)) blankWorld
        [(1, 64), (1, 256)]).2.1
      (allocateAll linux64 (setAllocationLimit freshAllocator (2 : Nat)) blankWorld
        [(1, 64), (1, 256)]).2.2 1 512).outcome
      = AllocateOutcome.testAllocatorException (toInt32 (1 : Nat)) :=
  ⟨rfl,
    (allocation_limit_trips linux64 freshAllocator blankWorld 2 [(1, 64), (1, 256)] 1 512 rfl
      (by decide)).2.2.1⟩

/-- C6: let `p` be a live block of allocator `A` (its header is as
`A.allocate(N)` left it; nothing is assumed about its sentinels or contents)
and `B` a different allocator in quiet mode.  Then `B.deallocate(p)` returns,
increments `B.numMismatches` by one, leaves `B.numBoundsErrors` and `B`'s
in-use counts unchanged, and changes nothing outside `B`: memory, the upstream
log and the output are as before, so the block is still allocated from `A`
(whose own state is not an operand of the call). -/
theorem deallocate_foreign_block (P : Platform) (A B : TestAllocator) (w : World) (p : Int)
    (N : Nat) (hblock : AllocatedBlock P A w p N) (hdistinct : A.thisAddr ≠ B.thisAddr)
    (hquiet : B.d_quietFlag = true) :
    (deallocate P B w p).outcome = Completion.returned ∧
    (deallocate P B w p).alloc.d_numMismatches = B.d_numMismatches + 1 ∧
    (deallocate P B w p).alloc.d_numBoundsErrors = B.d_numBoundsErrors ∧
    (deallocate P B w p).alloc.d_numBlocksInUse = B.d_numBlocksInUse ∧
    (deallocate P B w p).alloc.d_numBytesInUse = B.d_numBytesInUse ∧
    (deallocate P B w p).world = w ∧
    AllocatedBlock P A (deallocate P B w p).world p N := by
  have hmisc := miscError_of_wrong_allocator hblock hdistinct
  rw [deallocate_of_error P B w p hblock.nonnull (Or.inl hmisc)]
  have hmisc' : miscError P (deallocateRecordAddress B p) w p = true := by
    rw [miscError_recordAddress]; exact hmisc
  have hquiet' : (deallocateRecordAddress B p).d_quietFlag = true := hquiet
  unfold deallocateReport
  dsimp only
  rw [if_pos hquiet']
  refine ⟨rfl, ?_, ?_, rfl, rfl, rfl, hblock⟩
  · dsimp only
    rw [if_pos hmisc']
    rfl
  · dsimp only
    rw [if_pos hmisc']
    rfl

/-- C6, exercised: a block of the fresh allocator at 4096, with its trailing
sentinel overwritten, is passed to a quiet allocator at 12288. -/
theorem deallocate_foreign_block_witness :
    (deallocate linux64 (setQuiet (TestAllocator.create 12288 none false 0 8192) true)
      (writeByte oneByteBlock.world 129 0)
      128).alloc.d_numMismatches = 0 + 1 ∧
    (deallocate linux64 (setQuiet (TestAllocator.create 12288 none false 0 8192) true)
      (writeByte oneByteBlock.world 129 0)
      128).alloc.d_numBoundsErrors = 0 :=
  have h := deallocate_foreign_block linux64 oneByteBlock.alloc
    (setQuiet (TestAllocator.create 12288 none false 0 8192) true)
    (writeByte oneByteBlock.world 129 0)
    128 1
    ⟨by decide, by decide, by decide, by decide, by decide, by decide⟩
    (by decide) (by decide)
  ⟨h.2.1, h.2.2.1⟩

/-- C7: for every reachable allocator state whose error total
`numMismatches + numBoundsErrors` fits in an `int`, `status()` returns 0 iff
both error counters and both in-use counts are zero, returns the error total
whenever that total is positive, and returns -1 iff the total is zero and a
block or byte count is non-zero; the allocator is left unchanged. -/
theorem status_value (P : Platform) (a : TestAllocator) (w : World)
    (hreach : Reachable P a w)
    (hfits : a.d_numMismatches + a.d_numBoundsErrors ≤ 2147483647) :
    ((status a).value = 0 ↔
      a.d_numMismatches = 0 ∧ a.d_numBoundsErrors = 0 ∧
      a.d_numBlocksInUse = 0 ∧ a.d_numBytesInUse = 0) ∧
    (0 < a.d_numMismatches + a.d_numBoundsErrors →
      (status a).value = a.d_numMismatches + a.d_numBoundsErrors) ∧
    ((status a).value = -1 ↔
      a.d_numMismatches + a.d_numBoundsErrors = 0 ∧
      (a.d_numBlocksInUse ≠ 0 ∨ a.d_numBytesInUse ≠ 0)) ∧
    (status a).alloc = a := by
  obtain ⟨hm, hb⟩ := hreach.errorCounts_nonneg
  have h64 : toInt64 (a.d_numMismatches + a.d_numBoundsErrors)
      = a.d_numMismatches + a.d_numBoundsErrors := by
    unfold toInt64
    omega
  have h32 : toInt32 (a.d_numMismatches + a.d_numBoundsErrors)
      = a.d_numMismatches + a.d_numBoundsErrors := by
    unfold toInt32
    omega
  unfold status
  dsimp only
  rw [h64]
  split_ifs with h1 h2
  · rw [h32]
    refine ⟨?_, ?_, ?_, rfl⟩ <;> dsimp only
    · constructor
      · intro h; omega
      · rintro ⟨h3, h4, _, _⟩; omega
    · intro _; trivial
    · constructor
      · intro h; omega
      · rintro ⟨h3, _⟩; omega
  · refine ⟨?_, ?_, ?_, rfl⟩ <;> dsimp only
    · constructor
      · intro h; exact absurd h (by decide)
      · rintro ⟨_, _, h5, h6⟩
        rcases h2 with h2 | h2
        · exact absurd h5 h2
        · exact absurd h6 h2
    · intro h; omega
    · constructor
      · intro _; exact ⟨by omega, h2⟩
      · intro _; trivial
  · refine ⟨?_, ?_, ?_, rfl⟩ <;> dsimp only
    · constructor
      · intro _
        push_neg at h2
        exact ⟨by omega, by omega, h2.1, h2.2⟩
      · intro _; trivial
    · intro h; omega
    · constructor
      · intro h; exact absurd h (by decide)
      · rintro ⟨_, h3⟩; exact absurd h3 h2

/-- C7, exercised on a fresh allocator. -/
theorem status_value_witness :
    Reachable linux64 freshAllocator blankWorld ∧ (status freshAllocator).value = 0 :=
  ⟨Reachable.create 4096 none false 0 8192 blankWorld,
    (status_value linux64 freshAllocator blankWorld
      (Reachable.create 4096 none false 0 8192 blankWorld) (by decide)).1.2
      ⟨rfl, rfl, rfl, rfl⟩⟩

/-- C8, counterexample: in non-quiet, no-abort mode, after an overrun of a
one-byte block has been counted by `deallocate` (which reports it and returns
without freeing), the state is reachable, the block is still allocated (one
block in use, still heading the list with the allocated magic number), and
`status()` returns 1, not -1. -/
theorem status_leak_counterexample :
    Reachable linux64 overrunReported.alloc overrunReported.world ∧
    overrunReported.alloc.d_quietFlag = false ∧
    overrunReported.alloc.d_noAbortFlag = true ∧
    overrunReported.alloc.d_numBlocksInUse = 1 ∧
    overrunReported.alloc.d_blockListHead_p = 64 ∧
    (overrunReported.world.hdr 64).d_magicNumber = k_ALLOCATED_MEMORY_MAGIC_NUMBER ∧
    (status overrunReported.alloc).value = 1 ∧
    (status overrunReported.alloc).value ≠ -1 := by
  refine ⟨?_, by decide, by decide, by decide, by decide, by decide, by decide, by decide⟩
  exact Reachable.deallocate 128
    (Reachable.clientWrite 129 0
      (Reachable.allocate 1 64
        (Reachable.setNoAbort true (Reachable.create 4096 none false 0 8192 blankWorld))
        (by decide) (by decide))
      (by decide))
    (by decide)

/-- C8, amended: in every allocator state (whatever the mode flags) in which
at least one block is still allocated and no mismatch and no bounds error has
been counted, `status()` returns the leak value -1. -/
theorem status_leak (a : TestAllocator) (hblocks : a.d_numBlocksInUse ≠ 0)
    (hmismatches : a.d_numMismatches = 0) (hbounds : a.d_numBoundsErrors = 0) :
    (status a).value = -1 := by
  unfold status
  dsimp only
  rw [hmismatches, hbounds]
  rw [if_neg (by decide), if_pos (Or.inl hblocks)]

/-- C8, amended, exercised on the allocator that has handed out one block. -/
theorem status_leak_witness :
    oneByteBlock.alloc.d_numBlocksInUse ≠ 0 ∧ (status oneByteBlock.alloc).value = -1 :=
  ⟨by decide, status_leak oneByteBlock.alloc (by decide) (by decide) (by decide)⟩

/-- C10: for every allocator state, `deallocate(0)` returns normally,
increments `numDeallocations` by one, sets `lastDeallocatedNumBytes` to 0 and
`lastDeallocatedAddress` to null, and leaves every other data member, all of
memory, the log of upstream calls and the output unchanged. -/
theorem deallocate_null (P : Platform) (a : TestAllocator) (w : World) :
    (deallocate P a w 0).outcome = Completion.returned ∧
    (deallocate P a w 0).alloc = { a with
      d_numDeallocations := a.d_numDeallocations + 1
      d_lastDeallocatedNumBytes := 0
      d_lastDeallocatedAddress_p := 0 } ∧
    (deallocate P a w 0).alloc.d_numMismatches = a.d_numMismatches ∧
    (deallocate P a w 0).alloc.d_numBoundsErrors = a.d_numBoundsErrors ∧
    (deallocate P a w 0).alloc.d_numBlocksInUse = a.d_numBlocksInUse ∧
    (deallocate P a w 0).alloc.d_numBytesInUse = a.d_numBytesInUse ∧
    (deallocate P a w 0).alloc.d_blockListHead_p = a.d_blockListHead_p ∧
    (deallocate P a w 0).alloc.d_blockListTail_p = a.d_blockListTail_p ∧
    (deallocate P a w 0).world = w := by
  simp [deallocate, deallocateRecordAddress]

/-- C12: for every non-null address for which `deallocate` detects an error
(header error or bounds error) while quiet mode or no-abort mode is set, the
call returns; of the data members only `lastDeallocatedAddress` (set to the
address) and exactly one error counter (incremented by one) change, so
`numDeallocations`, `lastDeallocatedNumBytes`, the in-use, maximum and total
counts and the head and tail of the block list are as before; all headers
(magic numbers and links) and all bytes are unchanged and no upstream call is
made. -/
theorem deallocate_error_frame (P : Platform) (a : TestAllocator) (w : World)
    (address : Int) (hnonnull : address ≠ 0)
    (herror : miscError P a w address = true ∨ overrunBy P a w address ≠ 0
      ∨ underrunBy P a w address ≠ 0)
    (hmode : a.d_quietFlag = true ∨ a.d_noAbortFlag = true) :
    (deallocate P a w address).outcome = Completion.returned ∧
    (deallocate P a w address).alloc = { a with
      d_lastDeallocatedAddress_p := address
      d_numMismatches :=
        if miscError P a w address then a.d_numMismatches + 1 else a.d_numMismatches
      d_numBoundsErrors :=
        if miscError P a w address then a.d_numBoundsErrors else a.d_numBoundsErrors + 1 } ∧
    (((deallocate P a w address).alloc.d_numMismatches = a.d_numMismatches + 1 ∧
        (deallocate P a w address).alloc.d_numBoundsErrors = a.d_numBoundsErrors) ∨
      ((deallocate P a w address).alloc.d_numMismatches = a.d_numMismatches ∧
        (deallocate P a w address).alloc.d_numBoundsErrors = a.d_numBoundsErrors + 1)) ∧
    (deallocate P a w address).alloc.d_numDeallocations = a.d_numDeallocations ∧
    (deallocate P a w address).alloc.d_lastDeallocatedNumBytes = a.d_lastDeallocatedNumBytes ∧
    (deallocate P a w address).alloc.d_numBlocksInUse = a.d_numBlocksInUse ∧
    (deallocate P a w address).alloc.d_numBytesInUse = a.d_numBytesInUse ∧
    (deallocate P a w address).alloc.d_numBlocksMax = a.d_numBlocksMax ∧
    (deallocate P a w address).alloc.d_numBytesMax = a.d_numBytesMax ∧
    (deallocate P a w address).alloc.d_numBlocksTotal = a.d_numBlocksTotal ∧
    (deallocate P a w address).alloc.d_numBytesTotal = a.d_numBytesTotal ∧
    (deallocate P a w address).alloc.d_blockListHead_p = a.d_blockListHead_p ∧
    (deallocate P a w address).alloc.d_blockListTail_p = a.d_blockListTail_p ∧
    (deallocate P a w address).world.hdr = w.hdr ∧
    (deallocate P a w address).world.byte = w.byte ∧
    (deallocate P a w address).world.upstream = w.upstream := by
  have hstate : (deallocate P a w address).outcome = Completion.returned ∧
      (deallocate P a w address).alloc = { a with
        d_lastDeallocatedAddress_p := address
        d_numMismatches :=
          if miscError P a w address then a.d_numMismatches + 1 else a.d_numMismatches
        d_numBoundsErrors :=
          if miscError P a w address then a.d_numBoundsErrors else a.d_numBoundsErrors + 1 } ∧
      (deallocate P a w address).world.hdr = w.hdr ∧
      (deallocate P a w address).world.byte = w.byte ∧
      (deallocate P a w address).world.upstream = w.upstream := by
    rw [deallocate_of_error P a w address hnonnull herror]
    unfold deallocateReport
    dsimp only
    by_cases hquiet : (deallocateRecordAddress a address).d_quietFlag = true
    · rw [if_pos hquiet]
      exact ⟨rfl, rfl, rfl, rfl, rfl⟩
    · have hnoabort : (deallocateRecordAddress a address).d_noAbortFlag = true := by
        rcases hmode with h | h
        · exact absurd h hquiet
        · exact h
      rw [if_neg hquiet, if_pos hnoabort]
      exact ⟨rfl, rfl, rfl, rfl, rfl⟩
  obtain ⟨hout, halloc, hhdr, hbyte, hup⟩ := hstate
  refine ⟨hout, halloc, ?_, ?_, ?_, ?_, ?_, ?_, ?_, ?_, ?_, ?_, ?_, hhdr, hbyte, hup⟩
  · rw [halloc]
    by_cases hmisc : miscError P a w address = true
    · left
      simp [hmisc]
    · right
      simp [hmisc]
  all_goals rw [halloc]

/-- C12, exercised: the overrun of a one-byte block reported in no-abort
mode. -/
theorem deallocate_error_frame_witness :
    overrunBy linux64 oneByteBlock.alloc (writeByte oneByteBlock.world 129 0) 128 ≠ 0 ∧
    overrunReported.outcome = Completion.returned ∧
    overrunReported.world.upstream = (writeByte oneByteBlock.world 129 0).upstream :=
  have h := deallocate_error_frame linux64 oneByteBlock.alloc
    (writeByte oneByteBlock.world 129 0) 128 (by decide) (Or.inr (Or.inl (by decide)))
    (Or.inr (by decide))
  ⟨by decide, h.1, h.2.2.2.2.2.2.2.2.2.2.2.2.2.2.2⟩

/-- C13, counterexample: a live block of `2 ^ 63` bytes with intact sentinels
is deallocated successfully, but `lastDeallocatedNumBytes`, a signed 64-bit
value, is `-2 ^ 63` and not the size, and `numBytesInUse` goes from `-2 ^ 63`
to 0 instead of decreasing by the size. -/
theorem deallocate_statistics_counterexample :
    halfSpaceBlock.outcome = AllocateOutcome.returned 1088 ∧
    (halfSpaceBlock.world.hdr 1024).d_bytes = 9223372036854775808 ∧
    halfSpaceReleased.outcome = Completion.returned ∧
    halfSpaceReleased.alloc.d_numDeallocations = 1 ∧
    halfSpaceReleased.alloc.d_lastDeallocatedNumBytes = -9223372036854775808 ∧
    halfSpaceReleased.alloc.d_lastDeallocatedNumBytes ≠ 9223372036854775808 ∧
    halfSpaceBlock.alloc.d_numBytesInUse = -9223372036854775808 ∧
    halfSpaceReleased.alloc.d_numBytesInUse = 0 ∧
    halfSpaceReleased.alloc.d_numBytesInUse
      ≠ halfSpaceBlock.alloc.d_numBytesInUse - 9223372036854775808 := by
  decide

/-- C13, amended: for every live block `p` of `size` bytes of this allocator
(header as `allocate(size)` left it) with intact sentinels, such that `size`
and `numBytesInUse - size` fit in a signed 64-bit integer: `deallocate(p)`
returns, increments `numDeallocations` by one, sets `lastDeallocatedNumBytes`
to `size` and `lastDeallocatedAddress` to `p`, decrements `numBlocksInUse` by
one and `numBytesInUse` by `size`, and leaves `numAllocations`, `numBlocksMax`,
`numBytesMax`, `numBlocksTotal`, `numBytesTotal`, `numMismatches` and
`numBoundsErrors` unchanged. -/
theorem deallocate_statistics (P : Platform) (a : TestAllocator) (w : World) (p : Int)
    (size : Nat) (hblock : AllocatedBlock P a w p size) (hsent : SentinelsIntact P w p size)
    (hfits : size < 9223372036854775808) (hinuse : InInt64 (a.d_numBytesInUse - size)) :
    (deallocate P a w p).outcome = Completion.returned ∧
    (deallocate P a w p).alloc.d_numDeallocations = a.d_numDeallocations + 1 ∧
    (deallocate P a w p).alloc.d_lastDeallocatedNumBytes = size ∧
    (deallocate P a w p).alloc.d_lastDeallocatedAddress_p = p ∧
    (deallocate P a w p).alloc.d_numBlocksInUse = a.d_numBlocksInUse - 1 ∧
    (deallocate P a w p).alloc.d_numBytesInUse = a.d_numBytesInUse - size ∧
    (deallocate P a w p).alloc.d_numAllocations = a.d_numAllocations ∧
    (deallocate P a w p).alloc.d_numBlocksMax = a.d_numBlocksMax ∧
    (deallocate P a w p).alloc.d_numBytesMax = a.d_numBytesMax ∧
    (deallocate P a w p).alloc.d_numBlocksTotal = a.d_numBlocksTotal ∧
    (deallocate P a w p).alloc.d_numBytesTotal = a.d_numBytesTotal ∧
    (deallocate P a w p).alloc.d_numMismatches = a.d_numMismatches ∧
    (deallocate P a w p).alloc.d_numBoundsErrors = a.d_numBoundsErrors := by
  rw [deallocate_of_live hblock hsent]
  refine ⟨rfl, rfl, ?_, rfl, ?_, ?_, rfl, rfl, rfl, rfl, rfl, rfl, rfl⟩
  · show toInt64 ((w.hdr (p - P.sizeofBlockHeader)).d_bytes : Int) = size
    rw [hblock.bytes]
    unfold toInt64
    omega
  · show a.d_numBlocksInUse + -1 = a.d_numBlocksInUse - 1
    omega
  · show toInt64 (a.d_numBytesInUse
        + toInt64 (-toInt64 ((w.hdr (p - P.sizeofBlockHeader)).d_bytes : Int)))
      = a.d_numBytesInUse - size
    rw [hblock.bytes]
    exact toInt64_sub_of_inInt64 _ _ hinuse

/-- C13, amended, exercised on the one-byte block of a quiet allocator. -/
theorem deallocate_statistics_witness :
    AllocatedBlock linux64 quietBlock.alloc quietBlock.world 128 1 ∧
    (deallocate linux64 quietBlock.alloc quietBlock.world 128).alloc.d_lastDeallocatedNumBytes
      = ((1 : Nat) : Int) :=
  have hblock : AllocatedBlock linux64 quietBlock.alloc quietBlock.world 128 1 :=
    ⟨by decide, by decide, by decide, by decide, by decide, by decide⟩
  ⟨hblock,
    (deallocate_statistics linux64 quietBlock.alloc quietBlock.world 128 1 hblock
      (allocate_success_block linux64 (setQuiet freshAllocator true) blankWorld 1 64
        (by decide) (by decide) (by decide) (by decide)).2.2
      (by decide) ⟨by decide, by decide⟩).2.2.1⟩

/-- C15: for every well-formed block list `l1 ++ b :: l2` (so `b` may be the
first, a middle, the last or the only header) a successful `deallocate` of the
block with header `b` leaves the block list `l1 ++ l2`: `b` is removed and the
order of the other headers is kept.  Head and tail follow: both are null when
`b` was the only header, the head is the successor when `b` was first, the tail
is the predecessor when `b` was last, and they are unchanged otherwise; the
`d_next_p` of the predecessor and the `d_prev_p` of the successor bypass
`b`. -/
theorem deallocate_unlinks (P : Platform) (a : TestAllocator) (w : World) (p : Int) (N : Nat)
    (l1 l2 : List Int) (hblock : AllocatedBlock P a w p N) (hsent : SentinelsIntact P w p N)
    (hlist : BlockList a w (l1 ++ (p - P.sizeofBlockHeader) :: l2)) :
    (deallocate P a w p).outcome = Completion.returned ∧
    (l1 ++ (p - P.sizeofBlockHeader) :: l2).erase (p - P.sizeofBlockHeader) = l1 ++ l2 ∧
    BlockList (deallocate P a w p).alloc (deallocate P a w p).world (l1 ++ l2) ∧
    (l1 = [] → l2 = [] →
      (deallocate P a w p).alloc.d_blockListHead_p = 0 ∧
      (deallocate P a w p).alloc.d_blockListTail_p = 0) ∧
    (l1 ≠ [] → (deallocate P a w p).alloc.d_blockListHead_p = a.d_blockListHead_p) ∧
    (l2 ≠ [] → (deallocate P a w p).alloc.d_blockListTail_p = a.d_blockListTail_p) ∧
    (∀ v l2', l1 = [] → l2 = v :: l2' →
      (deallocate P a w p).alloc.d_blockListHead_p = v ∧
      ((deallocate P a w p).world.hdr v).d_prev_p = 0) ∧
    (∀ l1' u, l1 = l1' ++ [u] → l2 = [] →
      (deallocate P a w p).alloc.d_blockListTail_p = u ∧
      ((deallocate P a w p).world.hdr u).d_next_p = 0) ∧
    (∀ l1' u v l2', l1 = l1' ++ [u] → l2 = v :: l2' →
      ((deallocate P a w p).world.hdr u).d_next_p = v ∧
      ((deallocate P a w p).world.hdr v).d_prev_p = u) := by
  have hh1 : p - P.sizeofBlockHeader ∉ l1 := fun hm =>
    (List.nodup_append.1 hlist.2).2.2 hm (List.mem_cons_self _ _)
  have herase : (l1 ++ (p - P.sizeofBlockHeader) :: l2).erase (p - P.sizeofBlockHeader)
      = l1 ++ l2 := by
    rw [List.erase_append_right _ hh1, List.erase_cons_head]
  have hafter : BlockList (deallocate P a w p).alloc (deallocate P a w p).world (l1 ++ l2) := by
    rw [deallocate_of_live hblock hsent, ← herase]
    exact deallocateBlock_blockList P _ w p _ hlist (List.mem_append_right _
      (List.mem_cons_self _ _))
  have hout : (deallocate P a w p).outcome = Completion.returned := by
    rw [deallocate_of_live hblock hsent]
    rfl
  have hbefore := hlist.1
  generalize deallocate P a w p = r at hafter hout ⊢
  obtain ⟨hseg, _⟩ := hafter
  refine ⟨hout, herase, ⟨hseg, ?_⟩, ?_, ?_, ?_, ?_, ?_, ?_⟩
  · rw [← herase]
    exact hlist.2.erase _
  · intro e1 e2
    subst e1 e2
    exact ⟨hseg.1, hseg.2⟩
  · intro hne
    obtain ⟨x, t, rfl⟩ := List.exists_cons_of_ne_nil hne
    exact hseg.1.trans hbefore.1.symm
  · intro hne
    obtain ⟨t, y, rfl⟩ : ∃ t y, l2 = t ++ [y] :=
      ⟨l2.dropLast, l2.getLast hne, (List.dropLast_append_getLast hne).symm⟩
    have hnew : r.alloc.d_blockListTail_p = y := by
      rw [← List.append_assoc] at hseg
      exact DSeg.last_of_concat hseg
    have hold : a.d_blockListTail_p = y := by
      rw [← List.cons_append, ← List.append_assoc] at hbefore
      exact DSeg.last_of_concat hbefore
    rw [hnew, hold]
  · intro v l2' e1 e2
    subst e1 e2
    exact ⟨hseg.1, hseg.2.2.1⟩
  · intro l1' u e1 e2
    subst e1 e2
    rw [List.append_nil] at hseg
    obtain ⟨mid, ml, _, h2⟩ := DSeg.append.1 hseg
    exact ⟨h2.2.2.2.2, h2.2.2.2.1⟩
  · intro l1' u v l2' e1 e2
    subst e1 e2
    rw [List.append_assoc] at hseg
    obtain ⟨mid, ml, _, h2⟩ := DSeg.append.1 hseg
    exact ⟨h2.2.2.2.1, h2.2.2.2.2.2.1⟩

/-- C15, exercised: of three blocks with headers 64, 256 and 512 the middle
one is deallocated. -/
theorem deallocate_unlinks_witness :
    BlockList threeBlocks.alloc threeBlocks.world
      ([64] ++ (320 - (linux64.sizeofBlockHeader : Int)) :: [512]) ∧
    BlockList (deallocate linux64 threeBlocks.alloc threeBlocks.world 320).alloc
      (deallocate linux64 threeBlocks.alloc threeBlocks.world 320).world ([64] ++ [512]) :=
  have hlist : BlockList threeBlocks.alloc threeBlocks.world
      ([64] ++ (320 - (linux64.sizeofBlockHeader : Int)) :: [512]) := ⟨by decide, by decide⟩
  ⟨hlist,
    (deallocate_unlinks linux64 threeBlocks.alloc threeBlocks.world 320 4 [64] [512]
      ⟨by decide, by decide, by decide, by decide, by decide, by decide⟩
      (sentinelsIntact_of_scans linux64 threeBlocks.world 320 4 (by decide) (by decide))
      hlist).2.2.1⟩

/-- C16: for every successful `allocate(size)`, `size > 0`, in a state whose
block list is `L`, where upstream returned the maximally aligned non-null
address `h` of a block that is not in the list: the returned pointer is
`h + sizeof(BlockHeader)`, is maximally aligned and equals
`lastAllocatedAddress`; the header at `h` has magic 0xDEADBEEF,
`d_bytes = size`, `d_self_p = this`, `d_next_p = 0` and `d_prev_p` the previous
tail; and the block list afterwards is `L` with `h` appended, `h` being the
tail, and also the head when `L` was empty. -/
theorem allocate_appends (P : Platform) (a : TestAllocator) (w : World) (size h : Nat)
    (L : List Int) (hlimit : a.d_allocationLimit ≠ 0) (hsize : 0 < size) (hup : h ≠ 0)
    (halign : isAligned h P.k_MAX_ALIGNMENT = true) (hlist : BlockList a w L)
    (hfresh : (h : Int) ∉ L) :
    (allocate P a w size h).outcome
      = AllocateOutcome.returned ((h : Int) + P.sizeofBlockHeader) ∧
    isAligned ((h : Int) + P.sizeofBlockHeader) P.k_MAX_ALIGNMENT = true ∧
    (allocate P a w size h).alloc.d_lastAllocatedAddress_p = (h : Int) + P.sizeofBlockHeader ∧
    ((allocate P a w size h).world.hdr h).d_magicNumber = k_ALLOCATED_MEMORY_MAGIC_NUMBER ∧
    ((allocate P a w size h).world.hdr h).d_bytes = size ∧
    ((allocate P a w size h).world.hdr h).d_self_p = a.thisAddr ∧
    ((allocate P a w size h).world.hdr h).d_next_p = 0 ∧
    ((allocate P a w size h).world.hdr h).d_prev_p = a.d_blockListTail_p ∧
    BlockList (allocate P a w size h).alloc (allocate P a w size h).world (L ++ [(h : Int)]) ∧
    (allocate P a w size h).alloc.d_blockListTail_p = h ∧
    (L = [] → (allocate P a w size h).alloc.d_blockListHead_p = h) ∧
    (L ≠ [] → (allocate P a w size h).alloc.d_blockListHead_p = a.d_blockListHead_p) := by
  have hnonnull : (h : Int) ≠ 0 := by exact_mod_cast hup
  rw [allocate_of_success P a w size h hlimit (by omega) hup halign]
  have hlist' : BlockList (allocateConsumeLimit (allocateRecordRequest a size))
      (allocateUpstream P (allocateConsumeLimit (allocateRecordRequest a size)) w size) L :=
    hlist
  have hafter := allocateBlock_blockList P _ _ size h L hlist' hnonnull hfresh
  obtain ⟨hmagic, hbytes, hself, _⟩ := allocateBlock_hdr_self P
    (allocateConsumeLimit (allocateRecordRequest a size))
    (allocateUpstream P (allocateConsumeLimit (allocateRecordRequest a size)) w size) size h
  have hempty := DSeg.head_eq_zero_iff hlist.1
  have hlinks : ((allocateBlock P (allocateConsumeLimit (allocateRecordRequest a size))
      (allocateUpstream P (allocateConsumeLimit (allocateRecordRequest a size)) w size)
      size h).world.hdr h).d_next_p = 0 ∧
      ((allocateBlock P (allocateConsumeLimit (allocateRecordRequest a size))
      (allocateUpstream P (allocateConsumeLimit (allocateRecordRequest a size)) w size)
      size h).world.hdr h).d_prev_p = a.d_blockListTail_p := by
    by_cases hhead : a.d_blockListHead_p = 0
    · have hL : L = [] := hempty.1 hhead
      subst hL
      have htail0 : a.d_blockListTail_p = 0 := hlist.1.2
      obtain ⟨hn, hp⟩ := allocateBlock_hdr_new_links P
        (allocateConsumeLimit (allocateRecordRequest a size))
        (allocateUpstream P (allocateConsumeLimit (allocateRecordRequest a size)) w size)
        size h (Or.inl hhead)
      refine ⟨hn, ?_⟩
      rw [hp, htail0]
      exact if_neg (by simpa using hhead)
    · have hL : L ≠ [] := fun e => hhead (hempty.2 e)
      obtain ⟨htmem, _⟩ := DSeg.last_spec hlist.1 hL
      have htail : a.d_blockListTail_p ≠ h := fun e => hfresh (e ▸ htmem)
      obtain ⟨hn, hp⟩ := allocateBlock_hdr_new_links P
        (allocateConsumeLimit (allocateRecordRequest a size))
        (allocateUpstream P (allocateConsumeLimit (allocateRecordRequest a size)) w size)
        size h (Or.inr htail)
      refine ⟨hn, ?_⟩
      rw [hp]
      exact if_pos hhead
  refine ⟨rfl, isAligned_add_header P h halign, rfl, hmagic, hbytes, hself, hlinks.1, hlinks.2,
    hafter, rfl, ?_, ?_⟩
  · intro hL
    show (if a.d_blockListHead_p ≠ 0 then a.d_blockListHead_p else (h : Int)) = h
    rw [if_neg (by simpa using hempty.2 hL)]
  · intro hL
    show (if a.d_blockListHead_p ≠ 0 then a.d_blockListHead_p else (h : Int)) = _
    rw [if_pos (fun e => hL (hempty.1 e))]

/-- C16, exercised: a second block, with header at 256, is allocated after the
one with header at 64. -/
theorem allocate_appends_witness :
    BlockList firstBlock.alloc firstBlock.world [64] ∧
    BlockList (allocate linux64 firstBlock.alloc firstBlock.world 4 256).alloc
      (allocate linux64 firstBlock.alloc firstBlock.world 4 256).world
      ([64] ++ [((256 : Nat) : Int)]) :=
  have hlist : BlockList firstBlock.alloc firstBlock.world [64] := ⟨by decide, by decide⟩
  ⟨hlist,
    (allocate_appends linux64 firstBlock.alloc firstBlock.world 4 256 [64] (by decide)
      (by decide) (by decide) (by decide) hlist (by decide)).2.2.2.2.2.2.2.2.1⟩

/-- C17, counterexample: on a fresh allocator a successful `allocate(2 ^ 63)`
leaves `numBytesInUse` and `numBytesTotal`, signed 64-bit counters, at
`-2 ^ 63` instead of increasing them by the size. -/
theorem allocate_statistics_counterexample :
    halfSpaceBlock.outcome = AllocateOutcome.returned 1088 ∧
    freshAllocator.d_numBytesInUse = 0 ∧
    halfSpaceBlock.alloc.d_numBytesInUse = -9223372036854775808 ∧
    halfSpaceBlock.alloc.d_numBytesInUse ≠ freshAllocator.d_numBytesInUse + 9223372036854775808 ∧
    halfSpaceBlock.alloc.d_numBytesTotal
      ≠ freshAllocator.d_numBytesTotal + 9223372036854775808 := by
  decide

/-- C17, amended: for every successful `allocate(size)`, `size > 0`, such that
`numBytesInUse + size` and `numBytesTotal + size` fit in a signed 64-bit
integer: `numBlocksInUse` and `numBlocksTotal` each increase by 1,
`numBytesInUse` and `numBytesTotal` each increase by `size`, `numBlocksMax`
becomes the maximum of its old value and the new `numBlocksInUse`,
`numBytesMax` the maximum of its old value and the new `numBytesInUse`, and
`numDeallocations`, `numMismatches` and `numBoundsErrors` are unchanged. -/
theorem allocate_statistics (P : Platform) (a : TestAllocator) (w : World) (size up : Nat)
    (hlimit : a.d_allocationLimit ≠ 0) (hsize : 0 < size) (hup : up ≠ 0)
    (halign : isAligned up P.k_MAX_ALIGNMENT = true)
    (hinuse : InInt64 (a.d_numBytesInUse + size))
    (htotal : InInt64 (a.d_numBytesTotal + size)) :
    (allocate P a w size up).outcome
      = AllocateOutcome.returned ((up : Int) + P.sizeofBlockHeader) ∧
    (allocate P a w size up).alloc.d_numBlocksInUse = a.d_numBlocksInUse + 1 ∧
    (allocate P a w size up).alloc.d_numBlocksTotal = a.d_numBlocksTotal + 1 ∧
    (allocate P a w size up).alloc.d_numBytesInUse = a.d_numBytesInUse + size ∧
    (allocate P a w size up).alloc.d_numBytesTotal = a.d_numBytesTotal + size ∧
    (allocate P a w size up).alloc.d_numBlocksMax
      = max a.d_numBlocksMax (a.d_numBlocksInUse + 1) ∧
    (allocate P a w size up).alloc.d_numBytesMax
      = max a.d_numBytesMax (a.d_numBytesInUse + size) ∧
    (allocate P a w size up).alloc.d_numDeallocations = a.d_numDeallocations ∧
    (allocate P a w size up).alloc.d_numMismatches = a.d_numMismatches ∧
    (allocate P a w size up).alloc.d_numBoundsErrors = a.d_numBoundsErrors := by
  rw [allocate_of_success P a w size up hlimit (by omega) hup halign]
  have h1 := toInt64_add_of_inInt64 a.d_numBytesInUse size hinuse
  have h2 := toInt64_add_of_inInt64 a.d_numBytesTotal size htotal
  refine ⟨rfl, rfl, rfl, h1, h2, ?_, ?_, rfl, rfl, rfl⟩
  · show (if a.d_numBlocksMax < a.d_numBlocksInUse + 1 then a.d_numBlocksInUse + 1
        else a.d_numBlocksMax) = max a.d_numBlocksMax (a.d_numBlocksInUse + 1)
    split_ifs <;> omega
  · show (if a.d_numBytesMax < toInt64 (a.d_numBytesInUse + toInt64 size)
        then toInt64 (a.d_numBytesInUse + toInt64 size)
        else a.d_numBytesMax) = max a.d_numBytesMax (a.d_numBytesInUse + size)
    rw [h1]
    split_ifs <;> omega

/-- C17, amended, exercised on a fresh allocator and a one-byte block. -/
theorem allocate_statistics_witness :
    InInt64 (freshAllocator.d_numBytesInUse + ((1 : Nat) : Int)) ∧
    firstBlock.alloc.d_numBytesInUse = freshAllocator.d_numBytesInUse + ((1 : Nat) : Int) :=
  ⟨⟨by decide, by decide⟩,
    (allocate_statistics linux64 freshAllocator blankWorld 1 64 (by decide) (by decide)
      (by decide) (by decide) ⟨by decide, by decide⟩ ⟨by decide, by decide⟩).2.2.2.1⟩

/-- C18, failing input: `allocate(2 ^ 64 - 1)` on the 64-bit platform.  The sum
`sizeof(BlockHeader) + size + k_SENTINEL_SIZE` wraps to 79, so upstream is
asked for 80 bytes only; with upstream returning the block at 1024 the call
succeeds, returns 1088 and records a size of `2 ^ 64 - 1`, and the trailing
sentinel is written at `1088 + (2 ^ 64 - 1)`, which is not inside the 80-byte
block `[1024, 1104)`. -/
theorem allocate_sentinels_overflow :
    wrappedRequest.outcome = AllocateOutcome.returned 1088 ∧
    wrappedRequest.world.upstream = [UpstreamCall.allocate 8192 80] ∧
    (wrappedRequest.world.hdr 1024).d_bytes = 18446744073709551615 ∧
    wrappedRequest.world.byte (1088 + 18446744073709551615) = k_SENTINEL_BYTE ∧
    blankWorld.byte (1088 + 18446744073709551615) ≠ k_SENTINEL_BYTE ∧
    ¬ ((1088 : Int) + 18446744073709551615 + 16 ≤ 1024 + 80) := by
  decide

/-- C19, counterexample: for `size = 2 ^ 64 - 81` on the 64-bit platform the
sum `sizeof(BlockHeader) + size + k_SENTINEL_SIZE` is `2 ^ 64 - 1`; upstream is
asked for 0 bytes, which is less than the sum, and indeed no `size_t` value is
both a multiple of 16 and at least the sum. -/
theorem allocate_request_size_counterexample :
    toSizeT (linux64.sizeofBlockHeader + 18446744073709551535 + linux64.k_SENTINEL_SIZE)
      = 18446744073709551615 ∧
    roundingRequest.world.upstream = [UpstreamCall.allocate 8192 0] ∧
    ¬ (toSizeT (linux64.sizeofBlockHeader + 18446744073709551535 + linux64.k_SENTINEL_SIZE)
      ≤ roundUpToMaximalAlignment linux64
        (toSizeT (linux64.sizeofBlockHeader + 18446744073709551535 + linux64.k_SENTINEL_SIZE))) ∧
    (∀ t : Nat, t < 18446744073709551616 → 16 ∣ t → t < 18446744073709551615) := by
  refine ⟨by decide, by decide, by decide, ?_⟩
  intro t h1 h2
  omega

/-- C19, amended: for every `size > 0` (limit not tripping) such that
`s + k_MAX_ALIGNMENT - 1 < 2 ^ 64`, where `s` is
`sizeof(BlockHeader) + size + k_SENTINEL_SIZE` in `size_t` arithmetic, the byte
count requested from upstream is a multiple of the maximal alignment, is at
least `s` and exceeds `s` by less than the maximal alignment (and `s` is the
exact sum when the sum is below `2 ^ 64`); upstream is called exactly once,
with that count. -/
theorem allocate_request_size (P : Platform) (a : TestAllocator) (w : World) (size up : Nat)
    (hlimit : a.d_allocationLimit ≠ 0) (hsize : 0 < size)
    (hround : toSizeT (P.sizeofBlockHeader + size + P.k_SENTINEL_SIZE)
      + P.k_MAX_ALIGNMENT - 1 < 18446744073709551616) :
    P.k_MAX_ALIGNMENT ∣ roundUpToMaximalAlignment P
      (toSizeT (P.sizeofBlockHeader + size + P.k_SENTINEL_SIZE)) ∧
    toSizeT (P.sizeofBlockHeader + size + P.k_SENTINEL_SIZE)
      ≤ roundUpToMaximalAlignment P
        (toSizeT (P.sizeofBlockHeader + size + P.k_SENTINEL_SIZE)) ∧
    roundUpToMaximalAlignment P (toSizeT (P.sizeofBlockHeader + size + P.k_SENTINEL_SIZE))
      < toSizeT (P.sizeofBlockHeader + size + P.k_SENTINEL_SIZE) + P.k_MAX_ALIGNMENT ∧
    (P.sizeofBlockHeader + size + P.k_SENTINEL_SIZE < 18446744073709551616 →
      toSizeT (P.sizeofBlockHeader + size + P.k_SENTINEL_SIZE)
        = P.sizeofBlockHeader + size + P.k_SENTINEL_SIZE) ∧
    (allocate P a w size up).world.upstream =
      w.upstream ++ [UpstreamCall.allocate a.d_allocator_p
        (roundUpToMaximalAlignment P
          (toSizeT (P.sizeofBlockHeader + size + P.k_SENTINEL_SIZE)))] := by
  obtain ⟨h1, h2, h3⟩ := roundUpToMaximalAlignment_spec P _ hround
  exact ⟨h1, h2, h3, fun h => Nat.mod_eq_of_lt h,
    allocate_upstream_log P a w size up hlimit (by omega)⟩

/-- C19, amended, exercised: a one-byte request on the 64-bit platform asks
upstream for 96 bytes. -/
theorem allocate_request_size_witness :
    toSizeT (linux64.sizeofBlockHeader + 1 + linux64.k_SENTINEL_SIZE)
      + linux64.k_MAX_ALIGNMENT - 1 < 18446744073709551616 ∧
    firstBlock.world.upstream = blankWorld.upstream ++ [UpstreamCall.allocate
      freshAllocator.d_allocator_p (roundUpToMaximalAlignment linux64
        (toSizeT (linux64.sizeofBlockHeader + 1 + linux64.k_SENTINEL_SIZE)))] :=
  ⟨by decide,
    (allocate_request_size linux64 freshAllocator blankWorld 1 64 (by decide) (by decide)
      (by decide)).2.2.2.2⟩

/-- C20: for every `size > 0` with the allocation limit not tripping (so that
upstream is asked), if upstream returns null then `allocate` ends in
`std::bad_alloc` and creates no block: the head and tail of the block list,
the in-use, maximum and total counts of blocks and bytes, all headers and all
bytes are unchanged. -/
theorem allocate_upstream_null (P : Platform) (a : TestAllocator) (w : World) (size : Nat)
    (hlimit : a.d_allocationLimit ≠ 0) (hsize : 0 < size) :
    (allocate P a w size 0).outcome = AllocateOutcome.badAlloc ∧
    (allocate P a w size 0).alloc.d_blockListHead_p = a.d_blockListHead_p ∧
    (allocate P a w size 0).alloc.d_blockListTail_p = a.d_blockListTail_p ∧
    (allocate P a w size 0).alloc.d_numBlocksInUse = a.d_numBlocksInUse ∧
    (allocate P a w size 0).alloc.d_numBytesInUse = a.d_numBytesInUse ∧
    (allocate P a w size 0).alloc.d_numBlocksMax = a.d_numBlocksMax ∧
    (allocate P a w size 0).alloc.d_numBytesMax = a.d_numBytesMax ∧
    (allocate P a w size 0).alloc.d_numBlocksTotal = a.d_numBlocksTotal ∧
    (allocate P a w size 0).alloc.d_numBytesTotal = a.d_numBytesTotal ∧
    (allocate P a w size 0).world.hdr = w.hdr ∧
    (allocate P a w size 0).world.byte = w.byte := by
  rw [allocate_of_upstream_null P a w size hlimit (by omega)]
  exact ⟨rfl, rfl, rfl, rfl, rfl, rfl, rfl, rfl, rfl, rfl, rfl⟩

/-- C20, exercised: a one-byte request on a fresh allocator whose upstream
returns null. -/
theorem allocate_upstream_null_witness :
    (allocate linux64 freshAllocator blankWorld 1 0).outcome = AllocateOutcome.badAlloc ∧
    (allocate linux64 freshAllocator blankWorld 1 0).alloc.d_numBlocksTotal = 0 :=
  have h := allocate_upstream_null linux64 freshAllocator blankWorld 1 (by decide) (by decide)
  ⟨h.1, h.2.2.2.2.2.2.2.1⟩

/-- C21: for every non-null `p` such that `p - sizeof(BlockHeader)` is not
maximally aligned, `deallocate(p)` classifies a header error whatever the
memory holds: the scans are skipped, `numMismatches` is incremented,
`numBoundsErrors` is unchanged, and the allocator state and the way the call
ends are the same in any two worlds `w` and `v`; in quiet mode the call
returns with only `lastDeallocatedAddress` and `numMismatches` changed and the
world (memory, upstream log, output) exactly as it was. -/
theorem deallocate_misaligned (P : Platform) (a : TestAllocator) (w v : World) (p : Int)
    (hnonnull : p ≠ 0)
    (hmis : isAligned (p - P.sizeofBlockHeader) P.k_MAX_ALIGNMENT = false) :
    miscError P a w p = true ∧
    underrunBy P a w p = 0 ∧ overrunBy P a w p = 0 ∧
    (deallocate P a w p).alloc.d_numMismatches = a.d_numMismatches + 1 ∧
    (deallocate P a w p).alloc.d_numBoundsErrors = a.d_numBoundsErrors ∧
    (deallocate P a v p).alloc = (deallocate P a w p).alloc ∧
    (deallocate P a v p).outcome = (deallocate P a w p).outcome ∧
    (a.d_quietFlag = true →
      deallocate P a w p =
        ⟨Completion.returned,
          { a with d_lastDeallocatedAddress_p := p,
                   d_numMismatches := a.d_numMismatches + 1 }, w⟩) := by
  have hmisc : ∀ u : World, miscError P a u p = true :=
    fun u => (miscError_iff P a u p).2 (Or.inl hmis)
  obtain ⟨hunder, hover⟩ := scans_of_miscError (hmisc w)
  obtain ⟨hcount1, hcount2⟩ := deallocate_errorCounts P a w p hnonnull
  rw [if_pos (hmisc w)] at hcount1
  rw [if_neg (by simp [hmisc w])] at hcount2
  have hcongr := deallocateReport_alloc_congr P (deallocateRecordAddress a p) w v p
    (by rw [miscError_recordAddress, miscError_recordAddress, hmisc v, hmisc w])
  refine ⟨hmisc w, hunder, hover, hcount1, hcount2, ?_, ?_, ?_⟩
  · rw [deallocate_of_error P a v p hnonnull (Or.inl (hmisc v)),
      deallocate_of_error P a w p hnonnull (Or.inl (hmisc w))]
    exact hcongr.2
  · rw [deallocate_of_error P a v p hnonnull (Or.inl (hmisc v)),
      deallocate_of_error P a w p hnonnull (Or.inl (hmisc w))]
    exact hcongr.1
  · intro hquiet
    exact deallocate_quiet_mismatch P a w p hnonnull (hmisc w) hquiet

/-- C21, exercised: the address 100, whose header would start at 36, is passed
to a quiet fresh allocator, in zeroed memory and in the memory left by an
allocation. -/
theorem deallocate_misaligned_witness :
    isAligned (100 - (linux64.sizeofBlockHeader : Int)) linux64.k_MAX_ALIGNMENT = false ∧
    (deallocate linux64 (setQuiet freshAllocator true) quietBlock.world 100).alloc
      = (deallocate linux64 (setQuiet freshAllocator true) blankWorld 100).alloc ∧
    (deallocate linux64 (setQuiet freshAllocator true) blankWorld 100).alloc.d_numMismatches
      = (setQuiet freshAllocator true).d_numMismatches + 1 :=
  have h := deallocate_misaligned linux64 (setQuiet freshAllocator true) blankWorld
    quietBlock.world 100 (by decide) (by decide)
  ⟨by decide, h.2.2.2.2.2.1, h.2.2.2.1⟩

/-- C22: for every non-null `p`, `deallocate(p)` increments `numMismatches`
(by one) iff the header at `p - sizeof(BlockHeader)` is misaligned, or its
magic number is not 0xDEADBEEF, or its size is 0, or its owner is not this
allocator, and leaves `numMismatches` alone otherwise; in each of those cases
the scans are skipped (`underrunBy = overrunBy = 0`) and `numBoundsErrors` is
unchanged.  So `numBoundsErrors` is incremented (by one, never more) only when
alignment, magic number, size and owner checks all pass, and no call
increments both counters. -/
theorem deallocate_mismatch_iff (P : Platform) (a : TestAllocator) (w : World) (p : Int)
    (hnonnull : p ≠ 0) :
    ((deallocate P a w p).alloc.d_numMismatches = a.d_numMismatches + 1 ↔
      (isAligned (p - P.sizeofBlockHeader) P.k_MAX_ALIGNMENT = false ∨
        (w.hdr (p - P.sizeofBlockHeader)).d_magicNumber ≠ k_ALLOCATED_MEMORY_MAGIC_NUMBER ∨
        (w.hdr (p - P.sizeofBlockHeader)).d_bytes = 0 ∨
        (w.hdr (p - P.sizeofBlockHeader)).d_self_p ≠ a.thisAddr)) ∧
    ((deallocate P a w p).alloc.d_numMismatches = a.d_numMismatches + 1 ∨
      (deallocate P a w p).alloc.d_numMismatches = a.d_numMismatches) ∧
    ((deallocate P a w p).alloc.d_numMismatches = a.d_numMismatches + 1 →
      underrunBy P a w p = 0 ∧ overrunBy P a w p = 0 ∧
      (deallocate P a w p).alloc.d_numBoundsErrors = a.d_numBoundsErrors) ∧
    ((deallocate P a w p).alloc.d_numBoundsErrors = a.d_numBoundsErrors + 1 ∨
      (deallocate P a w p).alloc.d_numBoundsErrors = a.d_numBoundsErrors) ∧
    ((deallocate P a w p).alloc.d_numBoundsErrors = a.d_numBoundsErrors + 1 →
      isAligned (p - P.sizeofBlockHeader) P.k_MAX_ALIGNMENT = true ∧
      (w.hdr (p - P.sizeofBlockHeader)).d_magicNumber = k_ALLOCATED_MEMORY_MAGIC_NUMBER ∧
      0 < (w.hdr (p - P.sizeofBlockHeader)).d_bytes ∧
      (w.hdr (p - P.sizeofBlockHeader)).d_self_p = a.thisAddr) ∧
    ¬ ((deallocate P a w p).alloc.d_numMismatches = a.d_numMismatches + 1 ∧
      (deallocate P a w p).alloc.d_numBoundsErrors = a.d_numBoundsErrors + 1) := by
  obtain ⟨hcount1, hcount2⟩ := deallocate_errorCounts P a w p hnonnull
  by_cases hmisc : miscError P a w p = true
  · rw [if_pos hmisc] at hcount1
    rw [if_neg (by simp [hmisc])] at hcount2
    obtain ⟨hunder, hover⟩ := scans_of_miscError hmisc
    refine ⟨⟨fun _ => (miscError_iff P a w p).1 hmisc, fun _ => hcount1⟩, Or.inl hcount1,
      fun _ => ⟨hunder, hover, hcount2⟩, Or.inr hcount2, ?_, ?_⟩
    · intro h
      omega
    · intro h
      omega
  · have hfalse : miscError P a w p = false := by simpa using hmisc
    rw [if_neg hmisc] at hcount1
    refine ⟨⟨fun h => ?_, fun h => absurd ((miscError_iff P a w p).2 h) hmisc⟩,
      Or.inr hcount1, fun h => ?_, ?_, fun _ => miscError_eq_false hfalse, ?_⟩
    · omega
    · omega
    · by_cases hbounds : overrunBy P a w p ≠ 0 ∨ underrunBy P a w p ≠ 0
      · rw [if_pos ⟨hfalse, hbounds⟩] at hcount2
        exact Or.inl hcount2
      · rw [if_neg (fun hc => hbounds hc.2)] at hcount2
        exact Or.inr hcount2
    · intro h
      omega

/-- C22, exercised: the address 128 is passed to a fresh quiet allocator in
zeroed memory, where the magic number of the header at 64 is 0. -/
theorem deallocate_mismatch_iff_witness :
    (blankWorld.hdr (128 - (linux64.sizeofBlockHeader : Int))).d_magicNumber
      ≠ k_ALLOCATED_MEMORY_MAGIC_NUMBER ∧
    (deallocate linux64 (setQuiet freshAllocator true) blankWorld 128).alloc.d_numMismatches
      = (setQuiet freshAllocator true).d_numMismatches + 1 :=
  have hmagic : (blankWorld.hdr (128 - (linux64.sizeofBlockHeader : Int))).d_magicNumber
      ≠ k_ALLOCATED_MEMORY_MAGIC_NUMBER := by decide
  ⟨hmagic,
    (deallocate_mismatch_iff linux64 (setQuiet freshAllocator true) blankWorld 128
      (by decide)).1.2 (Or.inr (Or.inl hmagic))⟩

/-- C23: for every block that passes the header checks and whose leading
sentinel `[p - k_SENTINEL_SIZE, p)` holds a byte other than 0xB1, there is a
highest address `a0` in that region holding such a byte, and `deallocate(p)`
computes `underrunBy = p - a0`, so `1 <= underrunBy <= k_SENTINEL_SIZE`; the
trailing sentinel is not scanned (`overrunBy = 0`, whatever it holds),
`numBoundsErrors` is incremented by exactly one and `numMismatches` is
unchanged. -/
theorem deallocate_underrun (P : Platform) (a : TestAllocator) (w : World) (p : Int)
    (hnonnull : p ≠ 0) (hmisc : miscError P a w p = false)
    (hbad : ∃ x : Int, p - P.k_SENTINEL_SIZE ≤ x ∧ x < p ∧ w.byte x ≠ k_SENTINEL_BYTE) :
    (∃ a0 : Int, p - P.k_SENTINEL_SIZE ≤ a0 ∧ a0 < p ∧ w.byte a0 ≠ k_SENTINEL_BYTE ∧
      (∀ y : Int, a0 < y → y < p → w.byte y = k_SENTINEL_BYTE)) ∧
    (∀ a0 : Int, p - P.k_SENTINEL_SIZE ≤ a0 → a0 < p → w.byte a0 ≠ k_SENTINEL_BYTE →
      (∀ y : Int, a0 < y → y < p → w.byte y = k_SENTINEL_BYTE) →
      underrunBy P a w p = p - a0) ∧
    1 ≤ underrunBy P a w p ∧ underrunBy P a w p ≤ P.k_SENTINEL_SIZE ∧
    overrunBy P a w p = 0 ∧
    (deallocate P a w p).alloc.d_numBoundsErrors = a.d_numBoundsErrors + 1 ∧
    (deallocate P a w p).alloc.d_numMismatches = a.d_numMismatches := by
  obtain ⟨x, hx1, hx2, hx3⟩ := hbad
  obtain ⟨a0, ha1, ha2, ha3, ha4⟩ := exists_highest_bad w.byte P.k_SENTINEL_SIZE (p - 1)
    ⟨x, by omega, by omega, hx3⟩
  have hhigh : ∀ y : Int, a0 < y → y < p → w.byte y = k_SENTINEL_BYTE :=
    fun y hy1 hy2 => ha4 y hy1 (by omega)
  have hunder : underrunBy P a w p = p - a0 :=
    underrunBy_of_found hmisc a0 (by omega) (by omega) ha3 hhigh
  have hne : underrunBy P a w p ≠ 0 := by omega
  have hover : overrunBy P a w p = 0 := by
    unfold overrunBy
    dsimp only
    rw [if_neg (by simp [hmisc]), if_pos hne]
  obtain ⟨hcount1, hcount2⟩ := deallocate_errorCounts P a w p hnonnull
  rw [if_neg (by simp [hmisc])] at hcount1
  rw [if_pos ⟨hmisc, Or.inr hne⟩] at hcount2
  exact ⟨⟨a0, by omega, by omega, ha3, hhigh⟩,
    fun b hb1 hb2 hb3 hb4 => underrunBy_of_found hmisc b hb1 hb2 hb3 hb4,
    by omega, by omega, hover, hcount2, hcount1⟩

/-- C23, exercised: the client zeroes the byte at 120, eight bytes before the
one-byte block at 128, and deallocates the block. -/
theorem deallocate_underrun_witness :
    miscError linux64 firstBlock.alloc (writeByte firstBlock.world 120 0) 128 = false ∧
    underrunBy linux64 firstBlock.alloc (writeByte firstBlock.world 120 0) 128 = 128 - 120 ∧
    overrunBy linux64 firstBlock.alloc (writeByte firstBlock.world 120 0) 128 = 0 :=
  have hmisc : miscError linux64 firstBlock.alloc (writeByte firstBlock.world 120 0) 128
      = false := by decide
  have h := deallocate_underrun linux64 firstBlock.alloc (writeByte firstBlock.world 120 0) 128
    (by decide) hmisc ⟨120, by decide, by decide, by decide⟩
  ⟨hmisc, h.2.1 120 (by decide) (by decide) (by decide) (by
      intro y h1 h2
      have hy : y ≠ 120 := by omega
      show Function.update firstBlock.world.byte 120 0 y = k_SENTINEL_BYTE
      rw [Function.update_noteq hy]
      have hcases : y = 121 ∨ y = 122 ∨ y = 123 ∨ y = 124 ∨ y = 125 ∨ y = 126 ∨ y = 127 := by
        omega
      rcases hcases with h | h | h | h | h | h | h <;> subst h <;> decide),
    h.2.2.2.2.1⟩

/-- C24: for every block that passes the header checks, with size field `N`
and an intact leading sentinel: `deallocate(p)` computes `overrunBy = 0` iff
all `k_SENTINEL_SIZE` bytes of `[p + N, p + N + k_SENTINEL_SIZE)` are 0xB1, and
otherwise `overrunBy = (a0 - (p + N)) + 1` for the lowest address `a0` of that
region holding another byte; `overrunBy` never exceeds `k_SENTINEL_SIZE`.  A
write at or beyond `p + N + k_SENTINEL_SIZE` is never detected: in a world `v`
with the same headers and the same bytes below that address both scans give
the same results, and the call ends in the same way with the same allocator
state. -/
theorem deallocate_overrun (P : Platform) (a : TestAllocator) (w : World) (p : Int) (N : Nat)
    (hmisc : miscError P a w p = false)
    (hN : (w.hdr (p - P.sizeofBlockHeader)).d_bytes = N)
    (hlead : ∀ x : Int, p - P.k_SENTINEL_SIZE ≤ x → x < p → w.byte x = k_SENTINEL_BYTE) :
    (overrunBy P a w p = 0 ↔
      ∀ x : Int, p + N ≤ x → x < p + N + P.k_SENTINEL_SIZE → w.byte x = k_SENTINEL_BYTE) ∧
    (∀ a0 : Int, p + N ≤ a0 → a0 < p + N + P.k_SENTINEL_SIZE → w.byte a0 ≠ k_SENTINEL_BYTE →
      (∀ y : Int, p + N ≤ y → y < a0 → w.byte y = k_SENTINEL_BYTE) →
      overrunBy P a w p = a0 - (p + N) + 1) ∧
    0 ≤ overrunBy P a w p ∧ overrunBy P a w p ≤ P.k_SENTINEL_SIZE ∧
    (∀ v : World, v.hdr = w.hdr → (∀ x : Int, x < p + N + P.k_SENTINEL_SIZE →
        v.byte x = w.byte x) →
      underrunBy P a v p = underrunBy P a w p ∧
      overrunBy P a v p = overrunBy P a w p ∧
      (deallocate P a v p).outcome = (deallocate P a w p).outcome ∧
      (deallocate P a v p).alloc = (deallocate P a w p).alloc) := by
  subst hN
  have hsmall := P.sentinel_small
  have hmisc' : ¬ miscError P a w p = true := by simp [hmisc]
  have hunder : underrunBy P a w p = 0 := by
    unfold underrunBy
    rw [if_neg hmisc']
    exact underrunLoop_intact _ _ _ _ (fun x h1 h2 => hlead x (by omega) (by omega))
  have hover : overrunBy P a w p
      = overrunLoop w.byte (p + (w.hdr (p - P.sizeofBlockHeader)).d_bytes)
          (p + (w.hdr (p - P.sizeofBlockHeader)).d_bytes) P.k_SENTINEL_SIZE := by
    unfold overrunBy
    dsimp only
    rw [if_neg hmisc', if_neg (by simp [hunder])]
  have hfound : ∀ a0 : Int, p + (w.hdr (p - P.sizeofBlockHeader)).d_bytes ≤ a0 →
      a0 < p + (w.hdr (p - P.sizeofBlockHeader)).d_bytes + P.k_SENTINEL_SIZE →
      w.byte a0 ≠ k_SENTINEL_BYTE →
      (∀ y : Int, p + (w.hdr (p - P.sizeofBlockHeader)).d_bytes ≤ y → y < a0 →
        w.byte y = k_SENTINEL_BYTE) →
      overrunBy P a w p = a0 - (p + (w.hdr (p - P.sizeofBlockHeader)).d_bytes) + 1 :=
    fun a0 h1 h2 h3 h4 => overrunBy_of_found hmisc hunder a0 h1 h2 h3 h4
  have hintact : (∀ x : Int, p + (w.hdr (p - P.sizeofBlockHeader)).d_bytes ≤ x →
      x < p + (w.hdr (p - P.sizeofBlockHeader)).d_bytes + P.k_SENTINEL_SIZE →
      w.byte x = k_SENTINEL_BYTE) → overrunBy P a w p = 0 := by
    intro h
    rw [hover]
    exact overrunLoop_intact _ _ _ _ h
  have hbounds : 0 ≤ overrunBy P a w p ∧ overrunBy P a w p ≤ P.k_SENTINEL_SIZE := by
    by_cases hall : ∀ x : Int, p + (w.hdr (p - P.sizeofBlockHeader)).d_bytes ≤ x →
        x < p + (w.hdr (p - P.sizeofBlockHeader)).d_bytes + P.k_SENTINEL_SIZE →
        w.byte x = k_SENTINEL_BYTE
    · rw [hintact hall]
      omega
    · push_neg at hall
      obtain ⟨a0, h1, h2, h3, h4⟩ := exists_lowest_bad w.byte P.k_SENTINEL_SIZE _ hall
      rw [hfound a0 h1 h2 h3 h4]
      omega
  refine ⟨⟨fun h => ?_, hintact⟩, hfound, hbounds.1, hbounds.2, ?_⟩
  · rw [hover] at h
    exact overrunLoop_eq_zero _ _ _ _ (le_refl _) (by omega) h
  · intro v hhdr hbytes
    have hmiscv := miscError_world_congr P a p hhdr
    have hunderv : underrunBy P a v p = underrunBy P a w p := by
      unfold underrunBy
      rw [hmiscv, underrunLoop_congr w.byte v.byte (p - 1) P.k_SENTINEL_SIZE (p - 1)
        (fun x _ h2 => hbytes x (by omega))]
    have hoverv : overrunBy P a v p = overrunBy P a w p := by
      unfold overrunBy
      dsimp only
      rw [hmiscv, hunderv, hhdr, overrunLoop_congr w.byte v.byte _ P.k_SENTINEL_SIZE _
        (fun x _ h2 => hbytes x h2)]
    exact ⟨hunderv, hoverv, deallocate_alloc_congr P a w v p hhdr hunderv hoverv⟩

/-- C24, exercised: the one-byte block at 128 of a fresh allocator, whose
trailing sentinel occupies `[129, 145)`; a byte stored at 145 is not
detected. -/
theorem deallocate_overrun_witness :
    miscError linux64 firstBlock.alloc firstBlock.world 128 = false ∧
    overrunBy linux64 firstBlock.alloc (writeByte firstBlock.world 145 0) 128
      = overrunBy linux64 firstBlock.alloc firstBlock.world 128 ∧
    (deallocate linux64 firstBlock.alloc (writeByte firstBlock.world 145 0) 128).alloc
      = (deallocate linux64 firstBlock.alloc firstBlock.world 128).alloc :=
  have hmisc : miscError linux64 firstBlock.alloc firstBlock.world 128 = false := by decide
  have hsent : SentinelsIntact linux64 firstBlock.world 128 1 :=
    sentinelsIntact_of_scans linux64 firstBlock.world 128 1 (by decide) (by decide)
  have h := (deallocate_overrun linux64 firstBlock.alloc firstBlock.world 128 1 hmisc
    (by decide) hsent.before).2.2.2.2 (writeByte firstBlock.world 145 0) rfl (by
      intro x hx
      have hne : x ≠ 145 := by
        have h16 : ((linux64.k_SENTINEL_SIZE : Nat) : Int) = 16 := rfl
        rw [h16] at hx
        omega
      show Function.update firstBlock.world.byte 145 0 x = firstBlock.world.byte x
      rw [Function.update_noteq hne])
  ⟨hmisc, h.2.1, h.2.2.2⟩

/-- C25: for every allocator (its upstream allocator is non-null, as every
constructor leaves it) the destructor prints, after the statistics of verbose
mode, the MEMORY_LEAK report iff quiet mode is off and `numBytesInUse` or
`numBlocksInUse` is non-zero, and prints nothing else; it aborts iff quiet mode
is off, blocks or bytes are in use and no-abort mode is off, and returns
otherwise; so in quiet mode it prints no leak report and returns.  In every
case no upstream call is made and no header and no byte is modified. -/
theorem destructor_leak_report (a : TestAllocator) (w : World)
    (hupstream : a.d_allocator_p ≠ 0) :
    (destructor a w).world.stdout =
      (w.stdout ++
        (if a.d_verboseFlag = true then
          [Output.statistics a.d_numBlocksInUse a.d_numBytesInUse a.d_numBlocksMax
            a.d_numBytesMax a.d_numBlocksTotal a.d_numBytesTotal a.d_numMismatches
            a.d_numBoundsErrors]
        else [])) ++
        (if a.d_quietFlag = false ∧ (a.d_numBytesInUse ≠ 0 ∨ a.d_numBlocksInUse ≠ 0) then
          [Output.memoryLeak a.d_name_p a.d_numBlocksInUse a.d_numBytesInUse]
        else []) ∧
    ((destructor a w).outcome = DestructorOutcome.aborted ↔
      a.d_quietFlag = false ∧ (a.d_numBytesInUse ≠ 0 ∨ a.d_numBlocksInUse ≠ 0) ∧
        a.d_noAbortFlag = false) ∧
    ((destructor a w).outcome = DestructorOutcome.aborted ∨
      (destructor a w).outcome = DestructorOutcome.returned) ∧
    (a.d_quietFlag = true → (destructor a w).outcome = DestructorOutcome.returned) ∧
    (destructor a w).world.upstream = w.upstream ∧
    (destructor a w).world.hdr = w.hdr ∧
    (destructor a w).world.byte = w.byte := by
  unfold destructor
  rw [if_neg hupstream]
  dsimp only
  cases hq : a.d_quietFlag <;> cases hn : a.d_noAbortFlag <;> cases hv : a.d_verboseFlag <;>
    by_cases hleak : a.d_numBytesInUse ≠ 0 ∨ a.d_numBlocksInUse ≠ 0 <;>
    simp [hleak]

/-- C25, exercised: the allocator that has handed out one block and is
destroyed in its default mode reports the leak and aborts. -/
theorem destructor_leak_report_witness :
    firstBlock.alloc.d_allocator_p ≠ 0 ∧
    (destructor firstBlock.alloc firstBlock.world).outcome = DestructorOutcome.aborted ∧
    (destructor firstBlock.alloc firstBlock.world).world.upstream
      = firstBlock.world.upstream :=
  have hup : firstBlock.alloc.d_allocator_p ≠ 0 := by decide
  have h := destructor_leak_report firstBlock.alloc firstBlock.world hup
  ⟨hup, h.2.1.2 ⟨by decide, by decide, by decide⟩, h.2.2.2.2.1⟩

/-- C26: in every state reached from construction, with `calls` the number of
`allocate` calls made so far and `ids` the ids given to the blocks handed out
so far (live or not), in allocation order: `numAllocations = calls`; the ids
are strictly increasing, so no id is given twice, and each lies in
`[0, calls)`; and every further `allocate` that hands out a block stores the
id `calls` in its header (0 for the first call on a fresh allocator) and
appends it to the list.  Ids need not be contiguous: calls that hand out no
block use up a number. -/
theorem allocation_ids {P : Platform} {a : TestAllocator} {w : World} {calls : Nat}
    {ids : List Int} (h : IdHistory P a w calls ids) :
    a.d_numAllocations = calls ∧
    ids.Pairwise (fun i j => i < j) ∧
    ids.Nodup ∧
    (∀ i ∈ ids, 0 ≤ i ∧ i < calls) ∧
    (∀ (size up : Nat) (address : Int),
      (allocate P a w size up).outcome = AllocateOutcome.returned address → address ≠ 0 →
      ((allocate P a w size up).world.hdr (address - P.sizeofBlockHeader)).d_id = calls ∧
      idsAfterAllocate P ids (allocate P a w size up) = ids ++ [(calls : Int)]) := by
  obtain ⟨h1, h2, h3⟩ := h.invariant
  refine ⟨h1, h2, h2.imp (fun hlt => ne_of_lt hlt), h3, ?_⟩
  intro size up address houtcome hnonnull
  have hid := allocate_id P a w size up address houtcome hnonnull
  refine ⟨hid.trans h1, ?_⟩
  unfold idsAfterAllocate
  rw [houtcome]
  dsimp only
  rw [if_neg hnonnull, hid, h1]

/-- C26, exercised: a fresh allocator asked for 0 bytes and then for one byte
gives the id 1 to its first block. -/
theorem allocation_ids_witness :
    IdHistory linux64 zeroThenOne.alloc zeroThenOne.world 2 [1] ∧
    zeroThenOne.alloc.d_numAllocations = ((2 : Nat) : Int) ∧
    (zeroThenOne.world.hdr 64).d_id = 1 := by
  have h0 : IdHistory linux64 freshAllocator blankWorld 0 [] :=
    IdHistory.create 4096 none false 0 8192 blankWorld
  have h1 := IdHistory.allocate 0 0 h0 (by decide)
  have h2 := IdHistory.allocate 1 64 h1 (by decide)
  have hids : idsAfterAllocate linux64
      (idsAfterAllocate linux64 [] (allocate linux64 freshAllocator blankWorld 0 0))
      zeroThenOne = [1] := by decide
  have hist : IdHistory linux64 zeroThenOne.alloc zeroThenOne.world 2 [1] := hids ▸ h2
  exact ⟨hist, (allocation_ids hist).1, by decide⟩

/-- C27, counterexample: in the reachable state in which a fresh allocator
holds one live one-byte block (`numBytesTotal = 1`), a successful
`allocate(2 ^ 63 - 1)` makes `numBytesTotal`, a signed 64-bit counter, wrap
to `-2 ^ 63`: it decreases. -/
theorem counters_monotone_counterexample :
    Reachable linux64 firstBlock.alloc firstBlock.world ∧
    firstBlock.alloc.d_numBytesTotal = 1 ∧
    hugeBlock.outcome = AllocateOutcome.returned 1088 ∧
    hugeBlock.alloc.d_numBytesTotal = -9223372036854775808 ∧
    hugeBlock.alloc.d_numBytesTotal < firstBlock.alloc.d_numBytesTotal := by
  refine ⟨?_, by decide, by decide, by decide, by decide⟩
  exact Reachable.allocate 1 64 (Reachable.create 4096 none false 0 8192 blankWorld)
    (by decide) (by decide)

/-- C27, amended: from every state, every call of `allocate` (any size, any
answer of upstream, any outcome) and every call of `deallocate` (any address,
any outcome) decreases none of `numAllocations`, `numDeallocations`,
`numMismatches`, `numBoundsErrors`, `numBlocksMax`, `numBytesMax` and
`numBlocksTotal`; `numBytesTotal` is never decreased by `deallocate`, and not
by `allocate(size)` when `numBytesTotal + size` fits in a signed 64-bit
integer; `status` changes no data member. -/
theorem counters_monotone (P : Platform) (a : TestAllocator) (w : World) :
    (∀ size up : Nat,
      a.d_numAllocations ≤ (allocate P a w size up).alloc.d_numAllocations ∧
      a.d_numDeallocations ≤ (allocate P a w size up).alloc.d_numDeallocations ∧
      a.d_numMismatches ≤ (allocate P a w size up).alloc.d_numMismatches ∧
      a.d_numBoundsErrors ≤ (allocate P a w size up).alloc.d_numBoundsErrors ∧
      a.d_numBlocksMax ≤ (allocate P a w size up).alloc.d_numBlocksMax ∧
      a.d_numBytesMax ≤ (allocate P a w size up).alloc.d_numBytesMax ∧
      a.d_numBlocksTotal ≤ (allocate P a w size up).alloc.d_numBlocksTotal ∧
      (InInt64 (a.d_numBytesTotal + size) →
        a.d_numBytesTotal ≤ (allocate P a w size up).alloc.d_numBytesTotal)) ∧
    (∀ address : Int,
      a.d_numAllocations ≤ (deallocate P a w address).alloc.d_numAllocations ∧
      a.d_numDeallocations ≤ (deallocate P a w address).alloc.d_numDeallocations ∧
      a.d_numMismatches ≤ (deallocate P a w address).alloc.d_numMismatches ∧
      a.d_numBoundsErrors ≤ (deallocate P a w address).alloc.d_numBoundsErrors ∧
      a.d_numBlocksMax ≤ (deallocate P a w address).alloc.d_numBlocksMax ∧
      a.d_numBytesMax ≤ (deallocate P a w address).alloc.d_numBytesMax ∧
      a.d_numBlocksTotal ≤ (deallocate P a w address).alloc.d_numBlocksTotal ∧
      a.d_numBytesTotal ≤ (deallocate P a w address).alloc.d_numBytesTotal) ∧
    (status a).alloc = a := by
  refine ⟨fun size up => allocate_monotone P a w size up,
    fun address => deallocate_monotone P a w address, ?_⟩
  unfold status
  dsimp only
  split_ifs <;> rfl

end bslma

/-!
# bbldc::BasicPsa30360Eom: the day count
-/

namespace bbldc

/-- An `int` conversion changes no value of the `int` range. -/
theorem toInt32_of_small {x : Int} (h1 : -2147483648 ≤ x) (h2 : x < 2147483648) :
    bslma.toInt32 x = x := by
  unfold bslma.toInt32
  omega

/-- No month has more than 31 days. -/
theorem lastDayOfMonth_le (isLeapYear : Int → Bool) (year month : Int) :
    lastDayOfMonth isLeapYear year month ≤ 31 := by
  unfold lastDayOfMonth
  split_ifs <;> omega

/-- The ranges of the fields of a valid date. -/
theorem Date.bounds_of_isValid {isLeapYear : Int → Bool} {d : Date}
    (h : d.isValid isLeapYear) :
    1 ≤ d.year ∧ d.year ≤ 9999 ∧ 1 ≤ d.month ∧ d.month ≤ 12 ∧ 1 ≤ d.day ∧
      d.day ≤ lastDayOfMonth isLeapYear d.year d.month ∧ d.day ≤ 31 := by
  unfold Date.isValid isValidYearMonthDay at h
  have h' := of_decide_eq_true h
  have hle := lastDayOfMonth_le isLeapYear d.year d.month
  exact ⟨h'.1, h'.2.1, h'.2.2.1, h'.2.2.2.1, h'.2.2.2.2.1, h'.2.2.2.2.2, by omega⟩

/-- On a valid date the test of `isLastDayOfFebruary` holds exactly on the last
day of February. -/
theorem isLastDayOfFebruary_eq {isLeapYear : Int → Bool} {d : Date}
    (h : d.isValid isLeapYear) :
    isLastDayOfFebruary isLeapYear d.year d.month d.day = d.isEndOfFebruary isLeapYear := by
  obtain ⟨_, _, _, _, _, hday, _⟩ := Date.bounds_of_isValid h
  rw [Bool.eq_iff_iff]
  unfold lastDayOfMonth at hday
  simp only [isLastDayOfFebruary, Date.isEndOfFebruary, Bool.and_eq_true, Bool.or_eq_true,
    beq_iff_eq, decide_eq_true_eq, Bool.not_eq_true', lastDayOfMonth]
  by_cases hm : d.month = 2
  · rw [if_pos hm] at hday
    cases hleap : isLeapYear d.year
    · rw [hleap] at hday
      simp only [Bool.false_eq_true, if_false, if_true] at hday ⊢
      constructor
      · rintro ⟨_, h29 | ⟨h28, _⟩⟩
        · omega
        · exact ⟨hm, h28.symm⟩
      · rintro ⟨_, h28⟩
        exact ⟨hm.symm, Or.inr ⟨h28.symm, trivial⟩⟩
    · simp only [if_true]
      constructor
      · rintro ⟨_, h29 | ⟨_, hfalse⟩⟩
        · exact ⟨hm, h29.symm⟩
        · exact absurd hfalse (by decide)
      · rintro ⟨_, h29⟩
        exact ⟨hm.symm, Or.inl h29.symm⟩
  · constructor
    · rintro ⟨h2, _⟩
      exact absurd h2.symm hm
    · rintro ⟨h2, _⟩
      exact absurd h2 hm

/-- The day count never leaves the `int` range. -/
theorem psaDayCount_bounds {isLeapYear : Int → Bool} {b e : Date}
    (hb : b.isValid isLeapYear) (he : e.isValid isLeapYear) :
    0 ≤ psaDayCount isLeapYear b e ∧ psaDayCount isLeapYear b e < 2147483648 := by
  obtain ⟨b1, b2, b3, b4, b5, _, b7⟩ := Date.bounds_of_isValid hb
  obtain ⟨e1, e2, e3, e4, e5, _, e7⟩ := Date.bounds_of_isValid he
  unfold psaDayCount
  dsimp only
  simp only [max_def]
  cases hend : Date.isEndOfFebruary isLeapYear b <;>
    simp only [Bool.false_eq_true, false_or, true_or, if_true] <;>
    split_ifs <;> omega

/-- The arithmetic of `computeDaysDiff` (line 69) does not leave the `int`
range on years in `[1, 9999]`, months in `[1, 12]` and days in `[1, 31]`. -/
theorem result_wrapped {y1 m1 y2 m2 : Int} (d1 d2 : Int)
    (hy1 : 1 ≤ y1 ∧ y1 ≤ 9999) (hm1 : 1 ≤ m1 ∧ m1 ≤ 12) (hy2 : 1 ≤ y2 ∧ y2 ≤ 9999)
    (hm2 : 1 ≤ m2 ∧ m2 ≤ 12) (hd1 : 1 ≤ d1 ∧ d1 ≤ 31) (hd2 : 1 ≤ d2 ∧ d2 ≤ 31) :
    max (subInt (addInt (addInt (mulInt (subInt y2 y1) 360) (mulInt (subInt m2 m1) 30)) d2)
        d1) 0
      = Max.max ((y2 - y1) * 360 + (m2 - m1) * 30 + d2 - d1) 0 ∧
    negInt (max (subInt (addInt (addInt (mulInt (subInt y2 y1) 360)
        (mulInt (subInt m2 m1) 30)) d2) d1) 0)
      = -Max.max ((y2 - y1) * 360 + (m2 - m1) * 30 + d2 - d1) 0 := by
  have h1 : subInt y2 y1 = y2 - y1 := toInt32_of_small (by omega) (by omega)
  have h2 : mulInt (y2 - y1) 360 = (y2 - y1) * 360 := toInt32_of_small (by omega) (by omega)
  have h3 : subInt m2 m1 = m2 - m1 := toInt32_of_small (by omega) (by omega)
  have h4 : mulInt (m2 - m1) 30 = (m2 - m1) * 30 := toInt32_of_small (by omega) (by omega)
  have h5 : addInt ((y2 - y1) * 360) ((m2 - m1) * 30) = (y2 - y1) * 360 + (m2 - m1) * 30 :=
    toInt32_of_small (by omega) (by omega)
  have h6 : addInt ((y2 - y1) * 360 + (m2 - m1) * 30) d2
      = (y2 - y1) * 360 + (m2 - m1) * 30 + d2 := toInt32_of_small (by omega) (by omega)
  have h7 : subInt ((y2 - y1) * 360 + (m2 - m1) * 30 + d2) d1
      = (y2 - y1) * 360 + (m2 - m1) * 30 + d2 - d1 := toInt32_of_small (by omega) (by omega)
  have h8 : max ((y2 - y1) * 360 + (m2 - m1) * 30 + d2 - d1) 0
      = Max.max ((y2 - y1) * 360 + (m2 - m1) * 30 + d2 - d1) 0 := by
    unfold max
    split_ifs <;> omega
  rw [h1, h2, h3, h4, h5, h6, h7, h8]
  exact ⟨rfl, toInt32_of_small (by omega) (by omega)⟩

/-- On valid dates `computeDaysDiff` computes the day count from the earlier to
the later date, negated when `beginDate` is the later one. -/
theorem computeDaysDiff_eq (isLeapYear : Int → Bool) (b e : Date)
    (hb : b.isValid isLeapYear) (he : e.isValid isLeapYear) :
    computeDaysDiff isLeapYear b e =
      if b.gt e = true then -psaDayCount isLeapYear e b else psaDayCount isLeapYear b e := by
  obtain ⟨b1, b2, b3, b4, b5, _, b7⟩ := Date.bounds_of_isValid hb
  obtain ⟨e1, e2, e3, e4, e5, _, e7⟩ := Date.bounds_of_isValid he
  unfold computeDaysDiff
  dsimp only
  by_cases hgt : b.gt e = true
  · simp only [hgt, if_true]
    rw [isLastDayOfFebruary_eq he,
      (result_wrapped _ _ ⟨e1, e2⟩ ⟨e3, e4⟩ ⟨b1, b2⟩ ⟨b3, b4⟩ ?_ ?_).2]
    · unfold psaDayCount
      dsimp only
      simp only [max_def]
      cases hend : Date.isEndOfFebruary isLeapYear e <;>
        simp only [Bool.false_eq_true, false_or, true_or, if_true, if_false, true_and] <;>
        split_ifs <;> omega
    · split_ifs <;> omega
    · split_ifs <;> omega
  · have hgt' : b.gt e = false := by simpa using hgt
    simp only [hgt', Bool.false_eq_true, if_false]
    rw [isLastDayOfFebruary_eq hb,
      (result_wrapped _ _ ⟨b1, b2⟩ ⟨b3, b4⟩ ⟨e1, e2⟩ ⟨e3, e4⟩ ?_ ?_).1]
    · unfold psaDayCount
      dsimp only
      simp only [max_def]
      cases hend : Date.isEndOfFebruary isLeapYear b <;>
        simp only [Bool.false_eq_true, false_or, true_or, if_true, if_false, true_and] <;>
        split_ifs <;> omega
    · split_ifs <;> omega
    · split_ifs <;> omega

/-- The day count from a date to itself is 0. -/
theorem psaDayCount_self {isLeapYear : Int → Bool} {d : Date} (h : d.isValid isLeapYear) :
    psaDayCount isLeapYear d d = 0 := by
  obtain ⟨d1, d2, d3, d4, d5, _, d7⟩ := Date.bounds_of_isValid h
  unfold psaDayCount
  dsimp only
  simp only [max_def]
  cases hend : Date.isEndOfFebruary isLeapYear d <;>
    simp only [Bool.false_eq_true, false_or, true_or, if_true, if_false, true_and] <;>
    split_ifs <;> omega

/-- Of two dates at most one is later than the other. -/
theorem Date.gt_asymm {a b : Date} (h : a.gt b = true) : b.gt a = false := by
  unfold Date.gt at h ⊢
  have h' := of_decide_eq_true h
  apply decide_eq_false
  omega

/-- Two dates neither of which is later than the other are equal. -/
theorem Date.eq_of_not_gt {a b : Date} (h1 : a.gt b = false) (h2 : b.gt a = false) :
    a = b := by
  unfold Date.gt at h1 h2
  have h1' := of_decide_eq_false h1
  have h2' := of_decide_eq_false h2
  cases a with
  | mk ya ma da =>
    cases b with
    | mk yb mb db =>
      dsimp only at h1' h2'
      have hy : ya = yb := by omega
      have hm : ma = mb := by omega
      have hd : da = db := by omega
      rw [hy, hm, hd]

/-- C29: for every pair of valid dates `a` and `b`, whatever the leap-year
rule, `daysDiff(a, b) = -daysDiff(b, a)`; in particular `daysDiff(d, d) = 0`
for every valid date, the last day of February included. -/
theorem daysDiff_antisymm (isLeapYear : Int → Bool) (a b : Date)
    (ha : a.isValid isLeapYear) (hb : b.isValid isLeapYear) :
    daysDiff isLeapYear a b = -daysDiff isLeapYear b a ∧
    daysDiff isLeapYear a a = 0 := by
  unfold daysDiff
  rw [computeDaysDiff_eq isLeapYear a b ha hb, computeDaysDiff_eq isLeapYear b a hb ha,
    computeDaysDiff_eq isLeapYear a a ha ha]
  have hself : a.gt a = false := by
    unfold Date.gt
    apply decide_eq_false
    omega
  refine ⟨?_, ?_⟩
  · cases hab : a.gt b
    · cases hba : b.gt a
      · have heq := Date.eq_of_not_gt hab hba
        subst heq
        simp only [Bool.false_eq_true, if_false]
        rw [psaDayCount_self ha]
        rfl
      · simp only [Bool.false_eq_true, if_false, if_true, neg_neg]
    · rw [Date.gt_asymm hab]
      simp only [Bool.false_eq_true, if_false, if_true]
  · rw [hself]
    simp only [Bool.false_eq_true, if_false]
    exact psaDayCount_self ha

/-- C29, exercised with the Gregorian leap-year rule on 29 February 2024 and
31 March 2024. -/
theorem daysDiff_antisymm_witness :
    Date.isValid gregorianLeapYear ⟨2024, 2, 29⟩ ∧
    Date.isValid gregorianLeapYear ⟨2024, 3, 31⟩ ∧
    daysDiff gregorianLeapYear ⟨2024, 2, 29⟩ ⟨2024, 3, 31⟩
      = -daysDiff gregorianLeapYear ⟨2024, 3, 31⟩ ⟨2024, 2, 29⟩ ∧
    daysDiff gregorianLeapYear ⟨2024, 2, 29⟩ ⟨2024, 3, 31⟩ = 30 :=
  have ha : Date.isValid gregorianLeapYear ⟨2024, 2, 29⟩ := by
    unfold Date.isValid
    decide
  have hb : Date.isValid gregorianLeapYear ⟨2024, 3, 31⟩ := by
    unfold Date.isValid
    decide
  ⟨ha, hb, (daysDiff_antisymm gregorianLeapYear ⟨2024, 2, 29⟩ ⟨2024, 3, 31⟩ ha hb).1,
    by decide⟩

/-- C30: for every pair of valid dates with `beginDate <= endDate`, whatever
the leap-year rule, `daysDiff(beginDate, endDate)` is non-negative and equals
`max((y2 - y1) * 360 + (m2 - m1) * 30 + d2' - d1', 0)`, where `d1'` is 30 if
`beginDate` is the last day of February or its day is 31 (else `d1`) and
`d2'` is 30 if `d1' = 30` and `d2 = 31` (else `d2`); the `int` arithmetic of
the source never overflows on valid dates. -/
theorem daysDiff_forward (isLeapYear : Int → Bool) (beginDate endDate : Date)
    (hb : beginDate.isValid isLeapYear) (he : endDate.isValid isLeapYear)
    (hle : beginDate.gt endDate = false) :
    daysDiff isLeapYear beginDate endDate = psaDayCount isLeapYear beginDate endDate ∧
    0 ≤ daysDiff isLeapYear beginDate endDate := by
  unfold daysDiff
  rw [computeDaysDiff_eq isLeapYear beginDate endDate hb he, hle]
  simp only [Bool.false_eq_true, if_false]
  exact ⟨trivial, (psaDayCount_bounds hb he).1⟩

/-- C30, exercised with the Gregorian leap-year rule: from 28 February 2023,
the last day of that February, to 31 March 2023 the count is 30 days. -/
theorem daysDiff_forward_witness :
    Date.isValid gregorianLeapYear ⟨2023, 2, 28⟩ ∧
    Date.isValid gregorianLeapYear ⟨2023, 3, 31⟩ ∧
    Date.gt ⟨2023, 2, 28⟩ ⟨2023, 3, 31⟩ = false ∧
    daysDiff gregorianLeapYear ⟨2023, 2, 28⟩ ⟨2023, 3, 31⟩
      = psaDayCount gregorianLeapYear ⟨2023, 2, 28⟩ ⟨2023, 3, 31⟩ ∧
    psaDayCount gregorianLeapYear ⟨2023, 2, 28⟩ ⟨2023, 3, 31⟩ = 30 :=
  have hb : Date.isValid gregorianLeapYear ⟨2023, 2, 28⟩ := by
    unfold Date.isValid
    decide
  have he : Date.isValid gregorianLeapYear ⟨2023, 3, 31⟩ := by
    unfold Date.isValid
    decide
  have hle : Date.gt ⟨2023, 2, 28⟩ ⟨2023, 3, 31⟩ = false := by decide
  ⟨hb, he, hle,
    (daysDiff_forward gregorianLeapYear ⟨2023, 2, 28⟩ ⟨2023, 3, 31⟩ hb he hle).1, by decide⟩

end bbldc

/-!
# baltzo::DataFileLoader: validateTimeZoneId
-/

namespace baltzo

/-- The byte values of `VALID_CHAR`. -/
theorem VALID_CHAR_eq : VALID_CHAR =
    [65, 66, 67, 68, 69, 70, 71, 72, 73, 74, 75, 76, 77, 78, 79, 80, 81, 82, 83, 84, 85, 86, 87,
      88, 89, 90, 97, 98, 99, 100, 101, 102, 103, 104, 105, 106, 107, 108, 109, 110, 111, 112,
      113, 114, 115, 116, 117, 118, 119, 120, 121, 122, 49, 50, 51, 52, 53, 54, 55, 56, 57, 48,
      47, 95, 43, 45] := by
  decide

/-- A non-NUL character is found in `VALID_CHAR` exactly when it is an allowed
character. -/
theorem strchr_VALID_CHAR_iff {c : Nat} (hc : c ≠ 0) :
    strchr VALID_CHAR c = true ↔ isAllowedChar c := by
  unfold strchr isAllowedChar
  rw [VALID_CHAR_eq]
  have hA : 'A'.toNat = 65 := rfl
  have hZ : 'Z'.toNat = 90 := rfl
  have ha : 'a'.toNat = 97 := rfl
  have hz : 'z'.toNat = 122 := rfl
  have h0 : '0'.toNat = 48 := rfl
  have h9 : '9'.toNat = 57 := rfl
  have hs : '/'.toNat = 47 := rfl
  have hu : '_'.toNat = 95 := rfl
  have hp : '+'.toNat = 43 := rfl
  have hm : '-'.toNat = 45 := rfl
  rw [hA, hZ, ha, hz, h0, h9, hs, hu, hp, hm]
  simp only [Bool.or_eq_true, decide_eq_true_eq, beq_iff_eq, List.mem_cons, List.mem_singleton,
    List.not_mem_nil, or_false]
  omega

/-- On a string without embedded NUL the loop returns 0 when every character
is allowed and -2 otherwise. -/
theorem validateLoop_spec : ∀ (s : List Nat), (∀ c ∈ s, c ≠ 0) →
    (validateLoop s = 0 ∧ ∀ c ∈ s, isAllowedChar c) ∨
    (validateLoop s = -2 ∧ ∃ c ∈ s, ¬ isAllowedChar c)
  | [], _ => Or.inl ⟨rfl, fun c hc => absurd hc (List.not_mem_nil _)⟩
  | c :: rest, hnul => by
    have hc : c ≠ 0 := hnul c (List.mem_cons_self _ _)
    unfold validateLoop
    rw [if_neg hc]
    by_cases hvalid : strchr VALID_CHAR c = true
    · rw [if_neg (by simp [hvalid])]
      have hallowed := (strchr_VALID_CHAR_iff hc).1 hvalid
      rcases validateLoop_spec rest (fun x hx => hnul x (List.mem_cons_of_mem _ hx)) with
        ⟨h1, h2⟩ | ⟨h1, x, hx, h2⟩
      · left
        refine ⟨h1, fun x hx => ?_⟩
        rcases List.mem_cons.1 hx with rfl | hx
        · exact hallowed
        · exact h2 x hx
      · right
        exact ⟨h1, x, List.mem_cons_of_mem _ hx, h2⟩
    · rw [if_pos (by simpa using hvalid)]
      right
      exact ⟨rfl, c, List.mem_cons_self _ _,
        fun h => hvalid ((strchr_VALID_CHAR_iff hc).2 h)⟩

/-- C31: for every NUL-terminated string `id` (the bytes before the
terminating NUL, none of them 0): `validateTimeZoneId(id)` returns 0 iff `id`
does not start with `/` and every character of `id` is an ASCII letter, a
decimal digit or one of `/`, `_`, `+`, `-`; it returns -1 iff `id` starts with
`/`; it returns -2 iff `id` does not start with `/` and contains a character
outside that set; it returns no other value, and the empty string is
accepted. -/
theorem validateTimeZoneId_spec (id : List Nat) (hnul : ∀ c ∈ id, c ≠ 0) :
    (validateTimeZoneId id = 0 ↔
      id.head? ≠ some '/'.toNat ∧ ∀ c ∈ id, isAllowedChar c) ∧
    (validateTimeZoneId id = -1 ↔ id.head? = some '/'.toNat) ∧
    (validateTimeZoneId id = -2 ↔
      id.head? ≠ some '/'.toNat ∧ ∃ c ∈ id, ¬ isAllowedChar c) ∧
    (validateTimeZoneId id = 0 ∨ validateTimeZoneId id = -1 ∨ validateTimeZoneId id = -2) ∧
    validateTimeZoneId [] = 0 := by
  have hhead : '/'.toNat = id.headD 0 ↔ id.head? = some '/'.toNat := by
    cases id with
    | nil =>
      constructor
      · intro h
        exact absurd h (by decide)
      · intro h
        cases h
    | cons c rest =>
      constructor
      · intro h
        show some c = some '/'.toNat
        rw [show c = '/'.toNat from h.symm]
      · intro h
        show '/'.toNat = c
        exact (Option.some.inj h).symm
  have hempty : validateTimeZoneId [] = 0 := by decide
  unfold validateTimeZoneId
  by_cases hslash : '/'.toNat = id.headD 0
  · have hstart := hhead.1 hslash
    rw [if_pos hslash]
    refine ⟨⟨fun h => absurd h (by decide), fun h => absurd hstart h.1⟩,
      ⟨fun _ => hstart, fun _ => rfl⟩,
      ⟨fun h => absurd h (by decide), fun h => absurd hstart h.1⟩, Or.inr (Or.inl rfl), hempty⟩
  · have hstart : id.head? ≠ some '/'.toNat := fun h => hslash (hhead.2 h)
    rw [if_neg hslash]
    rcases validateLoop_spec id hnul with ⟨h1, h2⟩ | ⟨h1, h2⟩
    · rw [h1]
      refine ⟨⟨fun _ => ⟨hstart, h2⟩, fun _ => rfl⟩,
        ⟨fun h => absurd h (by decide), fun h => absurd h hstart⟩,
        ⟨fun h => absurd h (by decide), ?_⟩, Or.inl rfl, hempty⟩
      rintro ⟨_, c, hc, hbad⟩
      exact absurd (h2 c hc) hbad
    · rw [h1]
      refine ⟨⟨fun h => absurd h (by decide), ?_⟩,
        ⟨fun h => absurd h (by decide), fun h => absurd h hstart⟩,
        ⟨fun _ => ⟨hstart, h2⟩, fun _ => rfl⟩, Or.inr (Or.inr rfl), hempty⟩
      rintro ⟨_, hall⟩
      obtain ⟨c, hc, hbad⟩ := h2
      exact absurd (hall c hc) hbad

/-- C31, exercised on the identifier `America/New_York`. -/
theorem validateTimeZoneId_spec_witness :
    (∀ c ∈ cString "America/New_York", c ≠ 0) ∧
    (cString "America/New_York").head? ≠ some '/'.toNat ∧
    validateTimeZoneId (cString "America/New_York") = 0 ∧
    (∀ c ∈ cString "America/New_York", isAllowedChar c) :=
  have hnul : ∀ c ∈ cString "America/New_York", c ≠ 0 := by decide
  have hzero : validateTimeZoneId (cString "America/New_York") = 0 := by decide
  ⟨hnul, by decide, hzero,
    ((validateTimeZoneId_spec (cString "America/New_York") hnul).1.1 hzero).2⟩

end baltzo

/-!
# ball::RecordJsonFormatter: setFormat
-/

namespace ball

theorem outcome_returned_inj {α : Type} {x y : α}
    (h : Outcome.returned x = Outcome.returned y) : x = y := by
  cases h; rfl

/-- `setFormat` exercised with decoders that answer every format string
alike: a failed decode, a datum that is not an array and an array with a
number leave the formatter as it was; the array `["pid"]` replaces the
format specification and the field formatters. -/
theorem setFormat_examples (self : RecordJsonFormatter) :
    self.setFormat (constantDecode 3 Datum.other) true "f" = Outcome.returned (3, self) ∧
    self.setFormat (constantDecode 0 Datum.other) true "f" = Outcome.returned (-1, self) ∧
    self.setFormat (constantDecode 0 (Datum.array [Datum.string "pid", Datum.other])) true "f" =
      Outcome.returned (-1, self) ∧
    self.setFormat (constantDecode 0 (Datum.array [Datum.string "pid"])) true "f" =
      Outcome.returned (0, ⟨"f", [FieldFormatter.fixedField FixedField.processId ⟨"pid"⟩]⟩) :=
  ⟨rfl, rfl, rfl, rfl⟩

/-- C32: `RecordJsonFormatter::setFormat` returns -1 for every empty format
string.  Whenever it returns a non-zero value, the stored format
specification and the list of field formatters are those from before the
call, and the format was empty, or `decode` returned that value, or
`DatumParser::parse` returned it.  When it returns 0, the stored format
specification is the given format and the list is the one
`DatumParser::parse` produced; so the two are replaced only when the call
returns 0. -/
theorem setFormat_failure_keeps_state (decode : String → Int × Datum) (assertActive : Bool)
    (self : RecordJsonFormatter) (format : String) :
    (format = "" → self.setFormat decode assertActive format = Outcome.returned (-1, self)) ∧
    (∀ rc after, self.setFormat decode assertActive format = Outcome.returned (rc, after) →
      (rc ≠ 0 → after = self ∧
        ((format = "" ∧ rc = -1) ∨ (decode format).1 = rc ∨
          ∃ fs p, DatumParser.create.parse assertActive [] (decode format).2 =
            Outcome.returned (rc, fs, p))) ∧
      (rc = 0 → format ≠ "" ∧ (decode format).1 = 0 ∧ after.d_formatSpec = format ∧
        ∃ p, DatumParser.create.parse assertActive [] (decode format).2 =
          Outcome.returned (0, after.d_fieldFormatters, p)) ∧
      (after ≠ self → rc = 0)) := by
  constructor
  · intro h
    subst h
    rfl
  · intro rc after h
    unfold RecordJsonFormatter.setFormat at h
    by_cases he : format.isEmpty = true
    · rw [if_pos he] at h
      have h1 := outcome_returned_inj h
      have hrc : rc = -1 := (congrArg Prod.fst h1).symm
      have haf : after = self := (congrArg Prod.snd h1).symm
      have hf : format = "" := (String.isEmpty_iff format).mp he
      refine ⟨fun _ => ⟨haf, Or.inl ⟨hf, hrc⟩⟩, fun h0 => ?_, fun hn => absurd haf hn⟩
      rw [hrc] at h0; exact absurd h0 (by decide)
    · rw [if_neg he] at h
      have hf : format ≠ "" := fun e => he ((String.isEmpty_iff format).mpr e)
      by_cases hd : 0 ≠ (decode format).1
      · rw [if_pos hd] at h
        have h1 := outcome_returned_inj h
        have hrc : (decode format).1 = rc := congrArg Prod.fst h1
        have haf : after = self := (congrArg Prod.snd h1).symm
        refine ⟨fun _ => ⟨haf, Or.inr (Or.inl hrc)⟩, fun h0 => ?_, fun hn => absurd haf hn⟩
        rw [h0] at hrc; exact absurd hrc.symm hd
      · rw [if_neg hd] at h
        have hd0 : (decode format).1 = 0 := by
          by_contra hc; exact hd (fun e => hc e.symm)
        cases hp : DatumParser.create.parse assertActive [] (decode format).2 with
        | assertFailed => rw [hp] at h; cases h
        | returned r =>
          obtain ⟨rc1, fs1, p1⟩ := r
          rw [hp] at h
          simp only at h
          by_cases h0 : 0 = rc1
          · rw [if_pos h0] at h
            have h1 := outcome_returned_inj h
            have hrc : rc1 = rc := congrArg Prod.fst h1
            have haf : after = { d_formatSpec := format, d_fieldFormatters := fs1 } :=
              (congrArg Prod.snd h1).symm
            have hz : rc = 0 := by rw [← hrc, ← h0]
            refine ⟨fun hn => absurd hz hn, fun _ => ⟨hf, hd0, ?_, p1, ?_⟩, fun _ => hz⟩
            · rw [haf]
            · rw [haf, h0]
          · rw [if_neg h0] at h
            have h1 := outcome_returned_inj h
            have hrc : rc1 = rc := congrArg Prod.fst h1
            have haf : after = self := (congrArg Prod.snd h1).symm
            refine ⟨fun _ => ⟨haf, Or.inr (Or.inr ⟨fs1, p1, by rw [hrc]⟩)⟩, fun hz => ?_,
              fun hn => absurd haf hn⟩
            rw [hz] at hrc; exact absurd hrc.symm h0

end ball

/-!
# bslma::TestAllocator: allocation limit, counters and flags
-/

namespace bslma

/-- C33: whatever the size (0 included) and the outcome, a call of `allocate`
decrements a non-negative allocation limit by exactly one and leaves a
negative one unchanged; `allocate(0)` with the limit at 0 signals the
fault-injection condition (`TestAllocatorException`) instead of returning
null, and `allocate(0)` with a positive limit `L` returns null and leaves the
limit at `L - 1`. -/
theorem allocate_consumes_limit (P : Platform) (a : TestAllocator) (w : World) :
    (∀ size up : Nat, (allocate P a w size up).alloc.d_allocationLimit =
      if 0 ≤ a.d_allocationLimit then a.d_allocationLimit - 1 else a.d_allocationLimit) ∧
    (a.d_allocationLimit = 0 → ∀ up : Nat,
      (allocate P a w 0 up).outcome = AllocateOutcome.testAllocatorException 0 ∧
      (allocate P a w 0 up).alloc.d_allocationLimit = -1) ∧
    (0 < a.d_allocationLimit → ∀ up : Nat,
      (allocate P a w 0 up).outcome = AllocateOutcome.returned 0 ∧
      (allocate P a w 0 up).alloc.d_allocationLimit = a.d_allocationLimit - 1) ∧
    (a.d_allocationLimit < 0 → ∀ size up : Nat,
      (allocate P a w size up).alloc.d_allocationLimit = a.d_allocationLimit) := by
  refine ⟨fun size up => allocate_allocationLimit P a w size up, ?_, ?_, ?_⟩
  · intro hzero up
    refine ⟨?_, ?_⟩
    · rw [allocate_of_limit_zero P a w 0 up hzero]
      rfl
    · rw [allocate_allocationLimit, hzero]
      rfl
  · intro hpos up
    refine ⟨?_, ?_⟩
    · rw [allocate_of_size_zero P a w up (by omega)]
    · rw [allocate_allocationLimit, if_pos (by omega)]
  · intro hneg size up
    rw [allocate_allocationLimit, if_neg (by omega)]

/-- C34: immediately after a call of `allocate` that throws
`TestAllocatorException` the allocation limit is -1, and in every state
reached from there without a call of `setAllocationLimit` the limit is still
-1 and no call of `allocate` throws `TestAllocatorException`. -/
theorem fault_injection_once (P : Platform) (a : TestAllocator) (w : World) (size up : Nat)
    (n : Int)
    (hthrow : (allocate P a w size up).outcome = AllocateOutcome.testAllocatorException n) :
    (allocate P a w size up).alloc.d_allocationLimit = -1 ∧
    ∀ (b : TestAllocator) (v : World),
      Continues P (allocate P a w size up).alloc (allocate P a w size up).world b v →
      b.d_allocationLimit = -1 ∧
      ∀ (size' up' : Nat) (m : Int),
        (allocate P b v size' up').outcome ≠ AllocateOutcome.testAllocatorException m := by
  have hzero : a.d_allocationLimit = 0 := (allocate_throws_iff P a w size up).1 ⟨n, hthrow⟩
  have hafter : (allocate P a w size up).alloc.d_allocationLimit = -1 := by
    rw [allocate_allocationLimit, hzero]
    rfl
  refine ⟨hafter, fun b v hcont => ?_⟩
  have hb : b.d_allocationLimit = -1 := by
    rw [hcont.allocationLimit (by rw [hafter]; decide), hafter]
  refine ⟨hb, fun size' up' m hm => ?_⟩
  have hz := (allocate_throws_iff P b v size' up').1 ⟨m, hm⟩
  rw [hb] at hz
  exact absurd hz (by decide)

/-- C34, exercised: a fresh allocator with the limit set to 0 throws on the
first request; after that the limit is -1. -/
theorem fault_injection_once_witness :
    limitTripped.outcome = AllocateOutcome.testAllocatorException 1 ∧
    limitTripped.alloc.d_allocationLimit = -1 :=
  have hthrow : limitTripped.outcome = AllocateOutcome.testAllocatorException 1 := by decide
  ⟨hthrow,
    (fault_injection_once linux64 (setAllocationLimit freshAllocator 0) blankWorld 1 64 1
      hthrow).1⟩

/-- C37: the verbose flag and the name influence printed output only: for
every state, every value `v` of the flag and every name `n`, a call of
`allocate` or `deallocate` on the allocator with the flag and the name
replaced ends in the same way (same pointer, same exception, same abort) as on
the original allocator, in an allocator state that differs only in the flag
and the name (so every counter and the head and tail of the block list are
equal), with the same headers, the same bytes and the same upstream calls. -/
theorem verbose_name_output_only (P : Platform) (a : TestAllocator) (w : World) (v : Bool)
    (n : Option String) :
    (∀ size up : Nat,
      (allocate P { a with d_verboseFlag := v, d_name_p := n } w size up).outcome
        = (allocate P a w size up).outcome ∧
      (allocate P { a with d_verboseFlag := v, d_name_p := n } w size up).alloc
        = { (allocate P a w size up).alloc with d_verboseFlag := v, d_name_p := n } ∧
      (allocate P { a with d_verboseFlag := v, d_name_p := n } w size up).world.hdr
        = (allocate P a w size up).world.hdr ∧
      (allocate P { a with d_verboseFlag := v, d_name_p := n } w size up).world.byte
        = (allocate P a w size up).world.byte ∧
      (allocate P { a with d_verboseFlag := v, d_name_p := n } w size up).world.upstream
        = (allocate P a w size up).world.upstream) ∧
    (∀ address : Int,
      (deallocate P { a with d_verboseFlag := v, d_name_p := n } w address).outcome
        = (deallocate P a w address).outcome ∧
      (deallocate P { a with d_verboseFlag := v, d_name_p := n } w address).alloc
        = { (deallocate P a w address).alloc with d_verboseFlag := v, d_name_p := n } ∧
      (deallocate P { a with d_verboseFlag := v, d_name_p := n } w address).world.hdr
        = (deallocate P a w address).world.hdr ∧
      (deallocate P { a with d_verboseFlag := v, d_name_p := n } w address).world.byte
        = (deallocate P a w address).world.byte ∧
      (deallocate P { a with d_verboseFlag := v, d_name_p := n } w address).world.upstream
        = (deallocate P a w address).world.upstream) := by
  constructor
  · intro size up
    by_cases hlimit : a.d_allocationLimit = 0
    · rw [allocate_of_limit_zero P a w size up hlimit,
        allocate_of_limit_zero P { a with d_verboseFlag := v, d_name_p := n } w size up hlimit]
      exact ⟨rfl, rfl, rfl, rfl, rfl⟩
    by_cases hsize : size = 0
    · subst hsize
      rw [allocate_of_size_zero P a w up hlimit,
        allocate_of_size_zero P { a with d_verboseFlag := v, d_name_p := n } w up hlimit]
      exact ⟨rfl, rfl, rfl, rfl, rfl⟩
    by_cases hup : up = 0
    · subst hup
      rw [allocate_of_upstream_null P a w size hlimit hsize,
        allocate_of_upstream_null P { a with d_verboseFlag := v, d_name_p := n } w size hlimit
          hsize]
      exact ⟨rfl, rfl, rfl, rfl, rfl⟩
    by_cases halign : isAligned up P.k_MAX_ALIGNMENT = true
    · rw [allocate_of_success P a w size up hlimit hsize hup halign,
        allocate_of_success P { a with d_verboseFlag := v, d_name_p := n } w size up hlimit
          hsize hup halign]
      exact ⟨rfl, rfl, rfl, rfl, rfl⟩
    · rw [allocate_of_misaligned P a w size up hlimit hsize hup (by simpa using halign),
        allocate_of_misaligned P { a with d_verboseFlag := v, d_name_p := n } w size up hlimit
          hsize hup (by simpa using halign)]
      exact ⟨rfl, rfl, rfl, rfl, rfl⟩
  · intro address
    have hmisc : miscError P { a with d_verboseFlag := v, d_name_p := n } w address
        = miscError P a w address := miscError_congr P w address rfl
    have hunder : underrunBy P { a with d_verboseFlag := v, d_name_p := n } w address
        = underrunBy P a w address := underrunBy_congr P w address rfl
    have hover : overrunBy P { a with d_verboseFlag := v, d_name_p := n } w address
        = overrunBy P a w address := overrunBy_congr P w address rfl
    by_cases hnull : address = 0
    · subst hnull
      rw [deallocate_of_null, deallocate_of_null]
      exact ⟨rfl, rfl, rfl, rfl, rfl⟩
    by_cases herr : miscError P a w address = true ∨ overrunBy P a w address ≠ 0
        ∨ underrunBy P a w address ≠ 0
    · rw [deallocate_of_error P a w address hnull herr,
        deallocate_of_error P { a with d_verboseFlag := v, d_name_p := n } w address hnull
          (by rw [hmisc, hunder, hover]; exact herr)]
      exact deallocateReport_verbose P (deallocateRecordAddress a address) w address v n
    · push_neg at herr
      obtain ⟨h1, h2, h3⟩ := herr
      have h1' : miscError P a w address = false := by simpa using h1
      rw [deallocate_of_valid P a w address hnull h1' h2 h3,
        deallocate_of_valid P { a with d_verboseFlag := v, d_name_p := n } w address hnull
          (by rw [hmisc]; exact h1') (by rw [hover]; exact h2) (by rw [hunder]; exact h3)]
      exact ⟨rfl, rfl, rfl, rfl, rfl⟩

end bslma

/-!
# bdlc::IndexClerk: areInvariantsPreserved
-/

namespace bdlc

/-- The unsigned comparison of line 47 detects exactly the indices outside
`[0, nextNewIndex)`. -/
theorem toUnsigned_ge_iff {x nextNewIndex : Int} (hx1 : -2147483648 ≤ x)
    (hx2 : x < 2147483648) (hn1 : 0 ≤ nextNewIndex) (hn2 : nextNewIndex < 2147483648) :
    toUnsigned x ≥ toUnsigned nextNewIndex ↔ ¬ (0 ≤ x ∧ x < nextNewIndex) := by
  unfold toUnsigned
  omega

/-- The test `n & 0x2` looks at bit 1. -/
theorem and_two_ne_zero_iff (n : Nat) : n &&& 2 ≠ 0 ↔ n.testBit 1 = true := by
  constructor
  · intro h
    by_contra hbit
    apply h
    apply Nat.eq_of_testBit_eq
    intro i
    rw [Nat.testBit_and, Nat.zero_testBit]
    by_cases hi : i = 1
    · subst hi
      simp [hbit]
    · have h2 : (2 : Nat).testBit i = false := by
        have := @Nat.testBit_two_pow_of_ne 1 i (fun e => hi e.symm)
        simpa using this
      rw [h2, Bool.and_false]
  · intro hbit h
    have h1 : (n &&& 2).testBit 1 = true := by
      rw [Nat.testBit_and, hbit]
      decide
    rw [h, Nat.zero_testBit] at h1
    exact absurd h1 (by decide)

/-- A bitwise disjunction is zero only if its first operand is. -/
theorem or_eq_zero_left {a b : Nat} (h : a ||| b = 0) : a = 0 := by
  apply Nat.eq_of_testBit_eq
  intro i
  have hbit := congrArg (fun n => n.testBit i) h
  simp only [Nat.testBit_or, Nat.zero_testBit, Bool.or_eq_false_iff] at hbit
  rw [hbit.1, Nat.zero_testBit]

/-- Once an invalid or repeated index has been seen, this is not forgotten. -/
theorem dirty_loopBody (signedChar : Bool) (nextNewIndex : Int) {s : LoopState} (x : Int)
    (h : Dirty s) : Dirty (loopBody signedChar nextNewIndex s x) := by
  unfold loopBody
  dsimp only
  generalize (if toUnsigned x ≥ toUnsigned nextNewIndex then 1 else 0) = flag
  by_cases h0 : s.indicesInvalid ||| flag = 0
  · rw [if_pos h0]
    rcases h with h | h
    · exact absurd (or_eq_zero_left h0) h
    · right
      show (s.indicesNotUnique ||| _).testBit 1 = true
      rw [Nat.testBit_or, h, Bool.true_or]
  · rw [if_neg h0]
    left
    exact h0

theorem dirty_foldl (signedChar : Bool) (nextNewIndex : Int) :
    ∀ (l : List Int) {s : LoopState}, Dirty s →
      Dirty (l.foldl (loopBody signedChar nextNewIndex) s)
  | [], _, h => h
  | x :: xs, _, h => dirty_foldl signedChar nextNewIndex xs
      (dirty_loopBody signedChar nextNewIndex x h)

/-- A clean state is not dirty. -/
theorem not_dirty_of_clean {seen : List Int} {s : LoopState} (h : Clean seen s) :
    ¬ Dirty s := by
  obtain ⟨h1, h2, _⟩ := h
  rintro (hd | hd)
  · exact hd h1
  · have hcases : s.indicesNotUnique = 0 ∨ s.indicesNotUnique = 1 := by omega
    rcases hcases with h0 | h0 <;> rw [h0] at hd <;> exact absurd hd (by decide)

/-- A valid index not seen before keeps the state clean. -/
theorem clean_loopBody (signedChar : Bool) {nextNewIndex : Int} {seen : List Int}
    {s : LoopState} {x : Int} (h : Clean seen s)
    (hflag : ¬ toUnsigned x ≥ toUnsigned nextNewIndex) (hnew : x ∉ seen) :
    Clean (x :: seen) (loopBody signedChar nextNewIndex s x) := by
  obtain ⟨h1, h2, h3⟩ := h
  have hbin : s.bin x = 0 := by rw [h3 x, if_neg hnew]
  have hinv : s.indicesInvalid ||| (if toUnsigned x ≥ toUnsigned nextNewIndex then 1 else 0)
      = 0 := by
    rw [if_neg hflag, h1]
    rfl
  unfold loopBody
  dsimp only
  rw [if_pos hinv, hbin]
  have hchar : charToInt signedChar ((0 + 1) % 256) = 1 := by
    unfold charToInt
    rw [if_neg (by omega)]
  refine ⟨hinv, ?_, ?_⟩
  · show s.indicesNotUnique ||| charToInt signedChar ((0 + 1) % 256) ≤ 1
    rw [hchar]
    have hcases : s.indicesNotUnique = 0 ∨ s.indicesNotUnique = 1 := by omega
    rcases hcases with h0 | h0 <;> rw [h0] <;> decide
  · intro j
    show Function.update s.bin x ((0 + 1) % 256) j = _
    by_cases hj : j = x
    · subst hj
      rw [Function.update_same, if_pos (List.mem_cons_self _ _)]
    · rw [Function.update_noteq hj, h3 j]
      by_cases hmem : j ∈ seen
      · rw [if_pos hmem, if_pos (List.mem_cons_of_mem _ hmem)]
      · rw [if_neg hmem, if_neg (fun hc => by
          rcases List.mem_cons.1 hc with e | e
          · exact hj e
          · exact hmem e)]

/-- An invalid index, or one seen before, makes the state dirty. -/
theorem bad_loopBody (signedChar : Bool) {nextNewIndex : Int} {seen : List Int}
    {s : LoopState} {x : Int} (h : Clean seen s)
    (hbad : toUnsigned x ≥ toUnsigned nextNewIndex ∨ x ∈ seen) :
    Dirty (loopBody signedChar nextNewIndex s x) := by
  obtain ⟨h1, h2, h3⟩ := h
  unfold loopBody
  dsimp only
  by_cases hflag : toUnsigned x ≥ toUnsigned nextNewIndex
  · have hinv : s.indicesInvalid ||| (if toUnsigned x ≥ toUnsigned nextNewIndex then 1 else 0)
        = 1 := by
      rw [if_pos hflag, h1]
      rfl
    rw [hinv, if_neg (by decide)]
    left
    show (1 : Nat) ≠ 0
    decide
  · have hseen : x ∈ seen := by
      rcases hbad with hb | hb
      · exact absurd hb hflag
      · exact hb
    have hinv : s.indicesInvalid ||| (if toUnsigned x ≥ toUnsigned nextNewIndex then 1 else 0)
        = 0 := by
      rw [if_neg hflag, h1]
      rfl
    have hbin : s.bin x = 1 := by rw [h3 x, if_pos hseen]
    rw [if_pos hinv, hbin]
    right
    have hchar : charToInt signedChar ((1 + 1) % 256) = 2 := by
      unfold charToInt
      rw [if_neg (by omega)]
    show (s.indicesNotUnique ||| charToInt signedChar ((1 + 1) % 256)).testBit 1 = true
    rw [hchar, Nat.testBit_or]
    have h2bit : (2 : Nat).testBit 1 = true := by decide
    rw [h2bit, Bool.or_true]

/-- From a clean state the loop ends in a state that is not dirty exactly when
the remaining indices are valid, different from the ones seen and from each
other. -/
theorem foldl_loopBody_spec (signedChar : Bool) (nextNewIndex : Int) :
    ∀ (l seen : List Int) (s : LoopState), Clean seen s →
      (¬ Dirty (l.foldl (loopBody signedChar nextNewIndex) s) ↔
        (∀ x ∈ l, ¬ toUnsigned x ≥ toUnsigned nextNewIndex ∧ x ∉ seen) ∧ l.Nodup)
  | [], seen, s, h => by
    constructor
    · intro _
      exact ⟨fun x hx => absurd hx (List.not_mem_nil _), List.nodup_nil⟩
    · intro _
      exact not_dirty_of_clean h
  | x :: xs, seen, s, h => by
    rw [List.foldl_cons]
    by_cases hgood : ¬ toUnsigned x ≥ toUnsigned nextNewIndex ∧ x ∉ seen
    · rw [foldl_loopBody_spec signedChar nextNewIndex xs (x :: seen) _
        (clean_loopBody signedChar h hgood.1 hgood.2)]
      constructor
      · rintro ⟨h1, h2⟩
        refine ⟨fun y hy => ?_, List.nodup_cons.2 ⟨fun hx => (h1 x hx).2 (List.mem_cons_self _ _),
          h2⟩⟩
        rcases List.mem_cons.1 hy with rfl | hy
        · exact hgood
        · exact ⟨(h1 y hy).1, fun hc => (h1 y hy).2 (List.mem_cons_of_mem _ hc)⟩
      · rintro ⟨h1, h2⟩
        obtain ⟨hx, hxs⟩ := List.nodup_cons.1 h2
        refine ⟨fun y hy => ⟨(h1 y (List.mem_cons_of_mem _ hy)).1, fun hc => ?_⟩, hxs⟩
        rcases List.mem_cons.1 hc with e | e
        · exact hx (e ▸ hy)
        · exact (h1 y (List.mem_cons_of_mem _ hy)).2 e
    · have hbad : toUnsigned x ≥ toUnsigned nextNewIndex ∨ x ∈ seen := by
        by_contra hc
        push_neg at hc
        exact hgood ⟨by omega, hc.2⟩
      have hdirty := dirty_foldl signedChar nextNewIndex xs (bad_loopBody signedChar h hbad)
      constructor
      · intro hnot
        exact absurd hdirty hnot
      · rintro ⟨h1, _⟩
        exact absurd (h1 x (List.mem_cons_self _ _)) hgood

/-- C38: for every vector `unusedStack` of `int` values and every
`nextNewIndex >= 0`, whether `char` is signed or not,
`areInvariantsPreserved(unusedStack, nextNewIndex)` returns `true` iff every
element of `unusedStack` lies in `[0, nextNewIndex)` and no value occurs more
than once in it. -/
theorem areInvariantsPreserved_iff (signedChar : Bool) (unusedStack : List Int)
    (nextNewIndex : Int)
    (hstack : ∀ x ∈ unusedStack, -2147483648 ≤ x ∧ x < 2147483648)
    (hnext : 0 ≤ nextNewIndex ∧ nextNewIndex < 2147483648) :
    areInvariantsPreserved signedChar unusedStack nextNewIndex = true ↔
      (∀ x ∈ unusedStack, 0 ≤ x ∧ x < nextNewIndex) ∧ unusedStack.Nodup := by
  have hclean : Clean [] ⟨0, 0, fun _ => 0⟩ :=
    ⟨rfl, Nat.zero_le _, fun j => by rw [if_neg (List.not_mem_nil _)]⟩
  have hspec := foldl_loopBody_spec signedChar nextNewIndex unusedStack [] _ hclean
  have hresult : areInvariantsPreserved signedChar unusedStack nextNewIndex = true ↔
      ¬ Dirty (unusedStack.foldl (loopBody signedChar nextNewIndex) ⟨0, 0, fun _ => 0⟩) := by
    unfold areInvariantsPreserved Dirty
    dsimp only
    rw [← and_two_ne_zero_iff]
    split_ifs with hc
    · simp [hc]
    · simp [hc]
  rw [hresult, hspec]
  constructor
  · rintro ⟨h1, h2⟩
    refine ⟨fun x hx => ?_, h2⟩
    have hx' := (h1 x hx).1
    rw [toUnsigned_ge_iff (hstack x hx).1 (hstack x hx).2 hnext.1 hnext.2] at hx'
    exact not_not.1 hx'
  · rintro ⟨h1, h2⟩
    refine ⟨fun x hx => ⟨?_, List.not_mem_nil _⟩, h2⟩
    rw [toUnsigned_ge_iff (hstack x hx).1 (hstack x hx).2 hnext.1 hnext.2]
    exact not_not.2 (h1 x hx)

/-- C38, exercised: with `nextNewIndex = 5` the stack `[3, 0, 4]` is accepted
and the stack `[3, 0, 3]` is not. -/
theorem areInvariantsPreserved_iff_witness :
    areInvariantsPreserved true [3, 0, 4] 5 = true ∧
    areInvariantsPreserved true [3, 0, 3] 5 = false ∧
    ((∀ x ∈ ([3, 0, 4] : List Int), 0 ≤ x ∧ x < (5 : Int)) ∧ ([3, 0, 4] : List Int).Nodup) :=
  have htrue : areInvariantsPreserved true [3, 0, 4] 5 = true := by decide
  ⟨htrue, by decide,
    (areInvariantsPreserved_iff true [3, 0, 4] 5 (by decide) ⟨by decide, by decide⟩).1 htrue⟩

end bdlc

/-!
# ball::RecordJsonFormatter: DatumParser and TimestampFormatter
-/

namespace ball

theorem make_cases (p : DatumParser) (key : String) :
    ((∃ f, (p.make key).1 = FieldFormatter.timestamp f) ∨
     (∃ f, (p.make key).1 = FieldFormatter.threadId f) ∨
     (∃ c f, (p.make key).1 = FieldFormatter.fixedField c f) ∨
     (∃ f, (p.make key).1 = FieldFormatter.file f) ∨
     (∃ f, (p.make key).1 = FieldFormatter.attribute f)) ∧ key ≠ k_KEY_ATTRIBUTES ∨
    (∃ f, (p.make key).1 = FieldFormatter.attributes f) ∧ key = k_KEY_ATTRIBUTES := by
  have hne : k_KEY_TIMESTAMP ≠ k_KEY_ATTRIBUTES ∧ k_KEY_PROCESS_ID ≠ k_KEY_ATTRIBUTES ∧
      k_KEY_THREAD_ID ≠ k_KEY_ATTRIBUTES ∧ k_KEY_SEVERITY ≠ k_KEY_ATTRIBUTES ∧
      k_KEY_FILE ≠ k_KEY_ATTRIBUTES ∧ k_KEY_LINE ≠ k_KEY_ATTRIBUTES ∧
      k_KEY_CATEGORY ≠ k_KEY_ATTRIBUTES ∧ k_KEY_MESSAGE ≠ k_KEY_ATTRIBUTES := by decide
  obtain ⟨n1, n2, n3, n4, n5, n6, n7, n8⟩ := hne
  by_cases h1 : k_KEY_TIMESTAMP = key
  · exact Or.inl ⟨Or.inl ⟨_, by rw [DatumParser.make, if_pos h1]⟩, h1 ▸ n1⟩
  by_cases h2 : k_KEY_PROCESS_ID = key
  · exact Or.inl ⟨Or.inr (Or.inr (Or.inl ⟨_, _, by rw [DatumParser.make, if_neg h1, if_pos h2]⟩)),
      h2 ▸ n2⟩
  by_cases h3 : k_KEY_THREAD_ID = key
  · exact Or.inl ⟨Or.inr (Or.inl ⟨_, by rw [DatumParser.make, if_neg h1, if_neg h2, if_pos h3]⟩),
      h3 ▸ n3⟩
  by_cases h4 : k_KEY_SEVERITY = key
  · exact Or.inl ⟨Or.inr (Or.inr (Or.inl ⟨_, _, by
      rw [DatumParser.make, if_neg h1, if_neg h2, if_neg h3, if_pos h4]⟩)), h4 ▸ n4⟩
  by_cases h5 : k_KEY_FILE = key
  · exact Or.inl ⟨Or.inr (Or.inr (Or.inr (Or.inl ⟨_, by
      rw [DatumParser.make, if_neg h1, if_neg h2, if_neg h3, if_neg h4, if_pos h5]⟩))), h5 ▸ n5⟩
  by_cases h6 : k_KEY_LINE = key
  · exact Or.inl ⟨Or.inr (Or.inr (Or.inl ⟨_, _, by
      rw [DatumParser.make, if_neg h1, if_neg h2, if_neg h3, if_neg h4, if_neg h5,
        if_pos h6]⟩)), h6 ▸ n6⟩
  by_cases h7 : k_KEY_CATEGORY = key
  · exact Or.inl ⟨Or.inr (Or.inr (Or.inl ⟨_, _, by
      rw [DatumParser.make, if_neg h1, if_neg h2, if_neg h3, if_neg h4, if_neg h5,
        if_neg h6, if_pos h7]⟩)), h7 ▸ n7⟩
  by_cases h8 : k_KEY_MESSAGE = key
  · exact Or.inl ⟨Or.inr (Or.inr (Or.inl ⟨_, _, by
      rw [DatumParser.make, if_neg h1, if_neg h2, if_neg h3, if_neg h4, if_neg h5,
        if_neg h6, if_neg h7, if_pos h8]⟩)), h8 ▸ n8⟩
  by_cases h9 : k_KEY_ATTRIBUTES = key
  · exact Or.inr ⟨⟨_, by
      rw [DatumParser.make, if_neg h1, if_neg h2, if_neg h3, if_neg h4, if_neg h5,
        if_neg h6, if_neg h7, if_neg h8, if_pos h9]⟩, h9.symm⟩
  · exact Or.inl ⟨Or.inr (Or.inr (Or.inr (Or.inr ⟨_, by
      rw [DatumParser.make, if_neg h1, if_neg h2, if_neg h3, if_neg h4, if_neg h5,
        if_neg h6, if_neg h7, if_neg h8, if_neg h9]⟩))), fun h => h9 h.symm⟩

theorem make_fst (p q : DatumParser) (key : String) : (p.make key).1 = (q.make key).1 := by
  by_cases h1 : k_KEY_TIMESTAMP = key
  · rw [DatumParser.make, DatumParser.make, if_pos h1, if_pos h1]
  by_cases h2 : k_KEY_PROCESS_ID = key
  · rw [DatumParser.make, DatumParser.make, if_neg h1, if_pos h2, if_neg h1, if_pos h2]
  by_cases h3 : k_KEY_THREAD_ID = key
  · rw [DatumParser.make, DatumParser.make, if_neg h1, if_neg h2, if_pos h3, if_neg h1,
      if_neg h2, if_pos h3]
  by_cases h4 : k_KEY_SEVERITY = key
  · rw [DatumParser.make, DatumParser.make, if_neg h1, if_neg h2, if_neg h3, if_pos h4,
      if_neg h1, if_neg h2, if_neg h3, if_pos h4]
  by_cases h5 : k_KEY_FILE = key
  · rw [DatumParser.make, DatumParser.make, if_neg h1, if_neg h2, if_neg h3, if_neg h4,
      if_pos h5, if_neg h1, if_neg h2, if_neg h3, if_neg h4, if_pos h5]
  by_cases h6 : k_KEY_LINE = key
  · rw [DatumParser.make, DatumParser.make, if_neg h1, if_neg h2, if_neg h3, if_neg h4,
      if_neg h5, if_pos h6, if_neg h1, if_neg h2, if_neg h3, if_neg h4, if_neg h5, if_pos h6]
  by_cases h7 : k_KEY_CATEGORY = key
  · rw [DatumParser.make, DatumParser.make, if_neg h1, if_neg h2, if_neg h3, if_neg h4,
      if_neg h5, if_neg h6, if_pos h7, if_neg h1, if_neg h2, if_neg h3, if_neg h4, if_neg h5,
      if_neg h6, if_pos h7]
  by_cases h8 : k_KEY_MESSAGE = key
  · rw [DatumParser.make, DatumParser.make, if_neg h1, if_neg h2, if_neg h3, if_neg h4,
      if_neg h5, if_neg h6, if_neg h7, if_pos h8, if_neg h1, if_neg h2, if_neg h3, if_neg h4,
      if_neg h5, if_neg h6, if_neg h7, if_pos h8]
  by_cases h9 : k_KEY_ATTRIBUTES = key
  · rw [DatumParser.make, DatumParser.make, if_neg h1, if_neg h2, if_neg h3, if_neg h4,
      if_neg h5, if_neg h6, if_neg h7, if_neg h8, if_pos h9, if_neg h1, if_neg h2, if_neg h3,
      if_neg h4, if_neg h5, if_neg h6, if_neg h7, if_neg h8, if_pos h9]
  · rw [DatumParser.make, DatumParser.make, if_neg h1, if_neg h2, if_neg h3, if_neg h4,
      if_neg h5, if_neg h6, if_neg h7, if_neg h8, if_neg h9, if_neg h1, if_neg h2, if_neg h3,
      if_neg h4, if_neg h5, if_neg h6, if_neg h7, if_neg h8, if_neg h9]

theorem fieldParse_assertFailed_iff (a : Bool) (p : DatumParser) (key : String)
    (m : List (String × Datum)) :
    (p.make key).1.parse a m = Outcome.assertFailed ↔
      (a = true ∧ key = k_KEY_ATTRIBUTES ∧ m ≠ []) := by
  rcases make_cases p key with ⟨h, hk⟩ | ⟨⟨f, hf⟩, hk⟩
  · rcases h with ⟨f, hf⟩ | ⟨f, hf⟩ | ⟨c, f, hf⟩ | ⟨f, hf⟩ | ⟨f, hf⟩ <;>
      simp [hf, FieldFormatter.parse, hk]
  · rw [hf]
    simp only [FieldFormatter.parse, AttributesFormatter.parse]
    by_cases hm : m = []
    · subst hm; simp
    · have hl : ¬ (0 = m.length) := fun h => hm (List.length_eq_zero.mp h.symm)
      cases a <;> simp [hl, hm, hk]

theorem fieldParse_returned (a : Bool) (p : DatumParser) (key : String)
    (m : List (String × Datum))
    (h : ¬ (a = true ∧ key = k_KEY_ATTRIBUTES ∧ m ≠ [])) :
    ∃ r, (p.make key).1.parse a m = Outcome.returned r := by
  cases hp : (p.make key).1.parse a m with
  | returned r => exact ⟨r, rfl⟩
  | assertFailed => exact absurd ((fieldParse_assertFailed_iff a p key m).mp hp) h

theorem tripsAssertion_single (a : Bool) (key : String) (tm : List (String × Datum)) :
    tripsAssertion a (Datum.map [(key, Datum.map tm)]) = true ↔
      (a = true ∧ key = k_KEY_ATTRIBUTES ∧ tm ≠ []) := by
  cases tm <;> simp [tripsAssertion, and_assoc]

theorem parseLoop_single_trip (a : Bool) (p : DatumParser) (fs : List FieldFormatter)
    (key : String) (tm : List (String × Datum)) (rest : List Datum)
    (h : a = true ∧ key = k_KEY_ATTRIBUTES ∧ tm ≠ []) :
    DatumParser.parseLoop a p fs (Datum.map [(key, Datum.map tm)] :: rest) =
      Outcome.assertFailed := by
  have hp := (fieldParse_assertFailed_iff a p key tm).mpr h
  simp only [DatumParser.parseLoop, DatumParser.makeFromMap, hp]

theorem parseLoop_single_pass (a : Bool) (p : DatumParser) (fs : List FieldFormatter)
    (key : String) (tm : List (String × Datum)) (rest : List Datum)
    (h : ¬ (a = true ∧ key = k_KEY_ATTRIBUTES ∧ tm ≠ [])) :
    ∃ r, (DatumParser.create.make key).1.parse a tm = Outcome.returned r ∧
      DatumParser.parseLoop a p fs (Datum.map [(key, Datum.map tm)] :: rest) =
        (if r.1 ≠ 0 then DatumParser.parseLoop a (p.make key).2 fs rest
         else DatumParser.parseLoop a (p.make key).2 (fs ++ [r.2]) rest) := by
  obtain ⟨r, hr⟩ := fieldParse_returned a p key tm h
  refine ⟨r, by rw [← hr, make_fst], ?_⟩
  simp only [DatumParser.parseLoop, DatumParser.makeFromMap, hr]
  by_cases h0 : 0 ≠ r.1
  · have h1 : r.1 ≠ 0 := fun e => h0 e.symm
    simp only [if_pos h0, if_pos h1]
  · have h1 : ¬ r.1 ≠ 0 := fun e => h0 (fun e1 => e e1.symm)
    simp only [if_neg h0, if_neg h1]

theorem parseLoop_skip (a : Bool) (p : DatumParser) (fs : List FieldFormatter)
    (m : List (String × Datum)) (rest : List Datum)
    (h : ∀ key tm, m ≠ [(key, Datum.map tm)]) :
    DatumParser.parseLoop a p fs (Datum.map m :: rest) = DatumParser.parseLoop a p fs rest ∧
      stops a (Datum.map m) = false ∧ isSkipped a (Datum.map m) = true := by
  match m, h with
  | [], _ => exact ⟨rfl, rfl, rfl⟩
  | [(key, Datum.string x)], _ => exact ⟨rfl, rfl, rfl⟩
  | [(key, Datum.array x)], _ => exact ⟨rfl, rfl, rfl⟩
  | [(key, Datum.other)], _ => exact ⟨rfl, rfl, rfl⟩
  | [(key, Datum.map tm)], h => exact absurd rfl (h key tm)
  | e1 :: e2 :: more, _ =>
    refine ⟨?_, ?_, ?_⟩
    · simp only [DatumParser.parseLoop, DatumParser.makeFromMap]
    · simp only [stops, isRejected, Datum.isString, Datum.isMap, tripsAssertion]; rfl
    · simp only [isSkipped]

theorem parseLoop_spec (a : Bool) : ∀ (arr : List Datum) (p : DatumParser)
    (fs : List FieldFormatter),
    (arr.find? (stops a) = none →
      ∃ fs1 p1, DatumParser.parseLoop a p fs arr = Outcome.returned (0, fs1, p1) ∧
        fs1.length + arr.countP (isSkipped a) = fs.length + arr.length) ∧
    (∀ e, arr.find? (stops a) = some e → isRejected e = true →
      ∃ fs1 p1, DatumParser.parseLoop a p fs arr = Outcome.returned (-1, fs1, p1)) ∧
    (∀ e, arr.find? (stops a) = some e → isRejected e = false →
      DatumParser.parseLoop a p fs arr = Outcome.assertFailed) := by
  intro arr
  induction arr with
  | nil =>
    intro p fs
    refine ⟨fun _ => ⟨fs, p, rfl, by simp⟩, ?_, ?_⟩ <;> intro e h <;> simp at h
  | cons v rest ih =>
    intro p fs
    cases v with
    | string s =>
      have hs : stops a (Datum.string s) = false := rfl
      have hk : isSkipped a (Datum.string s) = false := rfl
      simp only [List.find?_cons, hs, DatumParser.parseLoop, List.countP_cons, hk]
      obtain ⟨i1, i2, i3⟩ := ih (p.make s).2 (fs ++ [(p.make s).1])
      refine ⟨fun h => ?_, i2, i3⟩
      obtain ⟨fs1, p1, e1, e2⟩ := i1 h
      refine ⟨fs1, p1, e1, ?_⟩
      have e3 : (fs ++ [(p.make s).1]).length = fs.length + 1 := by simp
      rw [e3] at e2
      simp only [List.length_cons, Bool.false_eq_true, if_false, add_zero]
      omega
    | map m =>
      by_cases hm : ∃ key tm, m = [(key, Datum.map tm)]
      · obtain ⟨key, tm, rfl⟩ := hm
        by_cases ht : a = true ∧ key = k_KEY_ATTRIBUTES ∧ tm ≠ []
        · have hs : stops a (Datum.map [(key, Datum.map tm)]) = true := by
            simp only [stops, (tripsAssertion_single a key tm).mpr ht, Bool.or_true]
          have hr : isRejected (Datum.map [(key, Datum.map tm)]) = false := rfl
          simp only [List.find?_cons, hs, parseLoop_single_trip a p fs key tm rest ht]
          refine ⟨fun h => by simp at h, fun e h he => ?_, fun _ _ _ => trivial⟩
          simp at h; subst h; rw [hr] at he; simp at he
        · have hs : stops a (Datum.map [(key, Datum.map tm)]) = false := by
            have h1 : tripsAssertion a (Datum.map [(key, Datum.map tm)]) = false := by
              cases h2 : tripsAssertion a (Datum.map [(key, Datum.map tm)]) with
              | false => rfl
              | true => exact absurd ((tripsAssertion_single a key tm).mp h2) ht
            simp only [stops, h1, Bool.or_false]; rfl
          obtain ⟨r, hr, hl⟩ := parseLoop_single_pass a p fs key tm rest ht
          have hk : isSkipped a (Datum.map [(key, Datum.map tm)]) = decide (r.1 ≠ 0) := by
            simp only [isSkipped, hr]
          simp only [List.find?_cons, hs, hl, List.countP_cons, hk]
          by_cases h0 : r.1 ≠ 0
          · obtain ⟨i1, i2, i3⟩ := ih (p.make key).2 fs
            simp only [if_pos h0]
            refine ⟨fun h => ?_, i2, i3⟩
            obtain ⟨fs1, p1, e1, e2⟩ := i1 h
            refine ⟨fs1, p1, e1, ?_⟩
            simp only [List.length_cons, decide_eq_true_eq, if_pos h0]
            omega
          · obtain ⟨i1, i2, i3⟩ := ih (p.make key).2 (fs ++ [r.2])
            simp only [if_neg h0]
            refine ⟨fun h => ?_, i2, i3⟩
            obtain ⟨fs1, p1, e1, e2⟩ := i1 h
            refine ⟨fs1, p1, e1, ?_⟩
            have e3 : (fs ++ [r.2]).length = fs.length + 1 := by simp
            rw [e3] at e2
            simp only [List.length_cons, decide_eq_true_eq, if_neg h0, add_zero]
            omega
      · have hm1 : ∀ key tm, m ≠ [(key, Datum.map tm)] := fun key tm h => hm ⟨key, tm, h⟩
        obtain ⟨hl, hs, hk⟩ := parseLoop_skip a p fs m rest hm1
        obtain ⟨i1, i2, i3⟩ := ih p fs
        simp only [List.find?_cons, hs, hl, List.countP_cons, hk]
        refine ⟨fun h => ?_, i2, i3⟩
        obtain ⟨fs1, p1, e1, e2⟩ := i1 h
        refine ⟨fs1, p1, e1, ?_⟩
        simp only [List.length_cons, if_true]
        omega
    | array x =>
      have hs : stops a (Datum.array x) = true := rfl
      have hr : isRejected (Datum.array x) = true := rfl
      simp only [List.find?_cons, hs, DatumParser.parseLoop]
      refine ⟨fun h => by simp at h, fun e h _ => ⟨fs, p, rfl⟩, fun e h he => ?_⟩
      simp at h; subst h; rw [hr] at he; simp at he
    | other =>
      have hs : stops a Datum.other = true := rfl
      have hr : isRejected Datum.other = true := rfl
      simp only [List.find?_cons, hs, DatumParser.parseLoop]
      refine ⟨fun h => by simp at h, fun e h _ => ⟨fs, p, rfl⟩, fun e h he => ?_⟩
      simp at h; subst h; rw [hr] at he; simp at he

theorem find_stops_of_no_trip (a : Bool) (arr : List Datum)
    (h : ∀ e ∈ arr, tripsAssertion a e = false) :
    (arr.find? (stops a) = none ↔ ∀ e ∈ arr, isRejected e = false) ∧
    (∀ e, arr.find? (stops a) = some e → e ∈ arr ∧ isRejected e = true) := by
  constructor
  · rw [List.find?_eq_none]
    constructor
    · intro h1 e he
      have h2 := h1 e he
      simp only [stops, Bool.or_eq_true, not_or, Bool.not_eq_true] at h2
      exact h2.1
    · intro h1 e he
      simp only [stops, h1 e he, h e he, Bool.or_false, Bool.false_eq_true, not_false_eq_true]
  · intro e he
    have hm := List.mem_of_find?_eq_some he
    have hs := List.find?_some he
    simp only [stops, h e hm, Bool.or_false] at hs
    exact ⟨hm, hs⟩

/-- What `DatumParser::parse` does on every datum.  It returns -1 for a
datum that is not an array.  On an array it goes through the elements in
order and is stopped by the first element that is neither a string nor a
map, where it returns -1, or that is a single-entry map `{"attributes": m}`
with `m` a non-empty map in a build that checks `BSLS_ASSERT`, where the
assertion of `AttributesFormatter::parse` fails; with no such element it
returns 0, and the number of formatters appended is the number of elements
minus the number of skipped map elements (not a single-entry map whose value
is a map, or rejected by the selected formatter's `parse`).  Hence on an
array without an element of the second kind it returns -1 iff some element
is neither a string nor a map and 0 iff there is none; and an array with a
skipped element gives fewer formatters than elements. -/
theorem parse_outcome (assertActive : Bool) (p : DatumParser) (fs : List FieldFormatter) :
    (∀ v, v.isArray = false → p.parse assertActive fs v = Outcome.returned (-1, fs, p)) ∧
    (∀ arr,
      (arr.find? (stops assertActive) = none →
        ∃ fs1 p1, p.parse assertActive fs (Datum.array arr) = Outcome.returned (0, fs1, p1) ∧
          fs1.length + arr.countP (isSkipped assertActive) = fs.length + arr.length) ∧
      (∀ e, arr.find? (stops assertActive) = some e → isRejected e = true →
        ∃ fs1 p1, p.parse assertActive fs (Datum.array arr) = Outcome.returned (-1, fs1, p1)) ∧
      (∀ e, arr.find? (stops assertActive) = some e → isRejected e = false →
        p.parse assertActive fs (Datum.array arr) = Outcome.assertFailed)) ∧
    (∀ arr, (∀ e ∈ arr, tripsAssertion assertActive e = false) →
      ((∃ fs1 p1, p.parse assertActive fs (Datum.array arr) = Outcome.returned (-1, fs1, p1)) ↔
        ∃ e ∈ arr, isRejected e = true) ∧
      ((∃ fs1 p1, p.parse assertActive fs (Datum.array arr) = Outcome.returned (0, fs1, p1)) ↔
        ∀ e ∈ arr, isRejected e = false)) ∧
    (∃ fs1 p1, DatumParser.create.parse assertActive []
        (Datum.array [Datum.string "pid",
          Datum.map [("timestamp", Datum.map [("format", Datum.string "bogus")])],
          Datum.map [("severity", Datum.map [("name", Datum.other)])],
          Datum.map [("tid", Datum.string "hex")]]) = Outcome.returned (0, fs1, p1) ∧
      fs1.length = 1) := by
  refine ⟨?_, fun arr => parseLoop_spec assertActive arr p fs, ?_, ?_⟩
  · intro v hv
    cases v with
    | array x => exact absurd hv (by simp [Datum.isArray])
    | string s => rfl
    | map m => rfl
    | other => rfl
  · intro arr hno
    obtain ⟨s1, s2, s3⟩ := parseLoop_spec assertActive arr p fs
    obtain ⟨f1, f2⟩ := find_stops_of_no_trip assertActive arr hno
    cases hfind : arr.find? (stops assertActive) with
    | none =>
      obtain ⟨fs1, p1, e1, _⟩ := s1 hfind
      have hall := f1.mp hfind
      have e2 : p.parse assertActive fs (Datum.array arr) = Outcome.returned (0, fs1, p1) := e1
      constructor
      · constructor
        · rintro ⟨fs2, p2, e3⟩
          rw [e2] at e3
          have h3 : (0 : Int) = -1 := congrArg Prod.fst (outcome_returned_inj e3)
          exact absurd h3 (by decide)
        · rintro ⟨e, he, hr⟩
          rw [hall e he] at hr
          exact absurd hr (by decide)
      · exact ⟨fun _ => hall, fun _ => ⟨fs1, p1, e2⟩⟩
    | some e =>
      obtain ⟨hm, hr⟩ := f2 e hfind
      obtain ⟨fs1, p1, e1⟩ := s2 e hfind hr
      have e2 : p.parse assertActive fs (Datum.array arr) = Outcome.returned (-1, fs1, p1) := e1
      constructor
      · exact ⟨fun _ => ⟨e, hm, hr⟩, fun _ => ⟨fs1, p1, e2⟩⟩
      · constructor
        · rintro ⟨fs2, p2, e3⟩
          rw [e2] at e3
          have h3 : (-1 : Int) = 0 := congrArg Prod.fst (outcome_returned_inj e3)
          exact absurd h3 (by decide)
        · intro hall
          rw [hall e hm] at hr
          exact absurd hr (by decide)
  · exact ⟨_, _, rfl, rfl⟩

/-- C39, failing input: the array `[{"attributes": {"name": "x"}}]` has one
element, which is a map, so that the datum is an array with no element that
is neither a string nor a map and `DatumParser::parse` is to return 0.  In a
build that checks `BSLS_ASSERT` it returns neither 0 nor -1: the map
`{"name": "x"}` reaches `AttributesFormatter::parse` through
`DatumParser::make`, where the assertion `0 == v.size()` fails.  The same
map under the key `severity` is accepted, and a property that is not a
string, which the `parse` of the `severity` and `timestamp` formatters
rejects with -1, makes the element skipped with 0 returned; with the
assertion compiled out the input gives 0 and one formatter. -/
theorem parse_attributes_assert_fails :
    (∀ e ∈ [Datum.map [("attributes", Datum.map [("name", Datum.string "x")])]],
      isRejected e = false) ∧
    DatumParser.create.parse true []
      (Datum.array [Datum.map [("attributes", Datum.map [("name", Datum.string "x")])]]) =
      Outcome.assertFailed ∧
    DatumParser.create.parse true []
      (Datum.array [Datum.map [("severity", Datum.map [("name", Datum.string "x")])]]) =
      Outcome.returned
        (0, [FieldFormatter.fixedField FixedField.severity ⟨"x"⟩], DatumParser.create) ∧
    DatumParser.create.parse true []
      (Datum.array [Datum.map [("severity", Datum.map [("name", Datum.other)])]]) =
      Outcome.returned (0, [], DatumParser.create) ∧
    DatumParser.create.parse true []
      (Datum.array [Datum.map [("timestamp", Datum.map [("name", Datum.other)])]]) =
      Outcome.returned (0, [], DatumParser.create) ∧
    DatumParser.create.parse false []
      (Datum.array [Datum.map [("attributes", Datum.map [("name", Datum.string "x")])]]) =
      Outcome.returned (0, [FieldFormatter.attributes ⟨[]⟩], ⟨some []⟩) := by
  refine ⟨?_, rfl, rfl, rfl, rfl, rfl⟩
  intro e he
  rw [List.mem_singleton] at he
  subst he
  rfl

end ball
